import Mathlib

/-!
# Verification of the Swiss tournament pairing engine

A shallow embedding of the pairing core of the tournament manager
(`backend/utils/swissEngine.js`, the legacy `backend/utils/swissPairing.js`,
and the `backend/utils/swissFideDutch.js` entry point), together with
theorems settling the specification claims about it.

Modelling conventions, chosen to mirror the JavaScript source:
* competitor ids are natural numbers (the numeric branch of `compareIds`);
* JS numbers holding scores are rationals (`ℚ`), color balances are integers;
* a JS `Set` is a Lean list used only through membership (duplicates are
  harmless), a JS `Map` is a total function built by pointwise update
  (`get` of a missing key is the empty/default value, as the source coalesces);
* `Array.prototype.sort` is stable; it is modelled by a structurally
  recursive stable insertion sort `sortBy le` with `le a b` standing for
  `comparator(a,b) <= 0` (any two stable sorts of the same total preorder
  comparator agree element by element);
* the recursive backtracking searches terminate because every recursive call
  removes at least one player (resp. one score group); the Lean functions
  take an explicit `fuel` argument so that they are structurally recursive
  and computable by the kernel, and every entry point passes fuel larger
  than the list length, which the lemmas show is never exhausted;
* `console.warn`/`process.env` only emit a diagnostic and do not affect the
  returned value, so they have no counterpart in the model.
-/

abbrev PlayerId := Nat

inductive Color where
  | white
  | black
deriving DecidableEq, Repr

/-- One competitor snapshot, as consumed by the pairing engine.
`rating = 0` models both JS `null` and `0` (every read in the source
coalesces with `rating || 0`). -/
structure Player where
  id : PlayerId
  name : String
  rating : Nat
  score : ℚ
  colorBalance : ℤ
  colorHistory : List Color
  previousOpponents : List PlayerId
deriving DecidableEq, Repr

instance : Inhabited Player := ⟨⟨0, "", 0, 0, 0, [], []⟩⟩

inductive GameResult where
  | p1win   -- "1-0"
  | p2win   -- "0-1"
  | draw    -- "1/2-1/2"
deriving DecidableEq, Repr

/-- The `{id, name, rating}` projection stored inside serialized pairings. -/
structure PairingRef where
  id : PlayerId
  name : String
  rating : Nat
deriving DecidableEq, Repr

/-- A pairing as stored in a historical round (input to `buildHistory` and
`calculateStandings`). -/
structure HPairing where
  player1 : Option PairingRef
  player2 : Option PairingRef
  isBye : Bool
  whitePlayerId : Option PlayerId
  result : Option GameResult
deriving DecidableEq, Repr

structure Round where
  roundNumber : Nat
  pairings : List HPairing
  completed : Bool
deriving DecidableEq, Repr

/-! ## A stable insertion sort modelling `Array.prototype.sort`

JS `sort(c)` with a consistent comparator is a stable sort; `sortBy le`
with `le a b ↔ c a b ≤ 0` produces the same list. -/

def insertSorted (le : α → α → Bool) (a : α) : List α → List α
  | [] => [a]
  | b :: l => if le a b then a :: b :: l else b :: insertSorted le a l

def sortBy (le : α → α → Bool) : List α → List α
  | [] => []
  | a :: l => insertSorted le a (sortBy le l)

/-! ## Shared helpers of the engine (`swissEngine.js`) -/

/-- `compareIds` for numeric ids: `Number(a) - Number(b)`. -/
def compareIds (a b : PlayerId) : ℤ := (a : ℤ) - (b : ℤ)

/-- Canonical unordered pair key; the source string `"a|b"` (smaller id
first) corresponds bijectively to this ordered pair of ids. -/
def pairKey (a b : PlayerId) : PlayerId × PlayerId :=
  if compareIds a b ≤ 0 then (a, b) else (b, a)

/-- `colorHistory.slice(-n)`: the last `n` entries (all of them if fewer).
`normalizeColor` is the identity on the two-valued `Color` type. -/
def getLastColors (player : Player) (n : Nat) : List Color :=
  player.colorHistory.drop (player.colorHistory.length - n)

/-- Would assigning `assignedColor` give the player three identical colors
in a row? -/
def wouldCreateThreeSame (player : Player) (assignedColor : Color) : Bool :=
  match getLastColors player 2 with
  | [c0, c1] => c0 = c1 && c1 = assignedColor
  | _ => false

structure ColorAssignment where
  white : Player
  black : Player
deriving DecidableEq, Repr

/-- Color assignment (`assignColors` in `swissEngine.js`). -/
def assignColors (player1 player2 : Player) (roundNumber : Nat) : ColorAssignment :=
  let player1LastColors := getLastColors player1 2
  let player2LastColors := getLastColors player2 2
  let player1NeedsOpposite :=
    player1LastColors.length = 2 && player1LastColors[0]? = player1LastColors[1]?
  let player2NeedsOpposite :=
    player2LastColors.length = 2 && player2LastColors[0]? = player2LastColors[1]?
  if player1NeedsOpposite && !player2NeedsOpposite then
    let neededColor : Color :=
      if player1LastColors[0]? = some Color.white then Color.black else Color.white
    if neededColor = Color.white then ⟨player1, player2⟩ else ⟨player2, player1⟩
  else if player2NeedsOpposite && !player1NeedsOpposite then
    let neededColor : Color :=
      if player2LastColors[0]? = some Color.white then Color.black else Color.white
    if neededColor = Color.white then ⟨player2, player1⟩ else ⟨player1, player2⟩
  else if player1.colorBalance < player2.colorBalance then ⟨player1, player2⟩
  else if player2.colorBalance < player1.colorBalance then ⟨player2, player1⟩
  else
    -- equal balance: odd rounds consult player1's most recent color, and
    -- fall through to the id tie-break when that is unknown
    let idTieBreak : ColorAssignment :=
      if compareIds player1.id player2.id ≤ 0 then ⟨player1, player2⟩ else ⟨player2, player1⟩
    if roundNumber % 2 = 1 then
      match player1LastColors.getLast? with
      | some Color.black => ⟨player1, player2⟩
      | some Color.white => ⟨player2, player1⟩
      | none => idTieBreak
    else idTieBreak

/-! ## History builder -/

structure History where
  playedPairs : List (PlayerId × PlayerId)
  opponentsMap : PlayerId → List PlayerId
  byeCounts : PlayerId → Nat
  lastRoundPairs : List (PlayerId × PlayerId)

def emptyHistory : History := ⟨[], fun _ => [], fun _ => 0, []⟩

/-- One iteration of the pairing loop in `buildHistory`; `isLast` tells
whether the enclosing round is the last of the sorted round list
(the source's `round === lastRound`). -/
def addPairingToHistory (h : History) (isLast : Bool) (pairing : HPairing) : History :=
  if pairing.isBye then
    match pairing.player1 with
    | some p1 =>
        { h with byeCounts := fun i => if i = p1.id then h.byeCounts p1.id + 1 else h.byeCounts i }
    | none => h
  else
    match pairing.player1, pairing.player2 with
    | some p1, some p2 =>
        let key := pairKey p1.id p2.id
        let om1 := fun i => if i = p1.id then h.opponentsMap p1.id ++ [p2.id] else h.opponentsMap i
        let om2 := fun i => if i = p2.id then om1 p2.id ++ [p1.id] else om1 i
        { h with
          playedPairs := h.playedPairs ++ [key]
          opponentsMap := om2
          lastRoundPairs := if isLast then h.lastRoundPairs ++ [key] else h.lastRoundPairs }
    | _, _ => h

/-- Ascending sort by round number (`(a, b) => a.roundNumber - b.roundNumber`). -/
def sortRoundsByNumber (rounds : List Round) : List Round :=
  sortBy (fun a b => decide (a.roundNumber ≤ b.roundNumber)) rounds

def buildHistory (rounds : List Round) : History :=
  if rounds.isEmpty then emptyHistory
  else
    let sortedRounds := sortRoundsByNumber rounds
    sortedRounds.enum.foldl
      (fun h ir =>
        let isLast := ir.1 = sortedRounds.length - 1
        ir.2.pairings.foldl (fun h p => addPairingToHistory h isLast p) h)
      emptyHistory

/-! ## Bye selector -/

/-- `comparator(a,b) ≤ 0` for the bye sort: score ascending, then rating
ascending (`rating || 0`), then id ascending. -/
def chooseByeLE (a b : Player) : Bool :=
  if a.score ≠ b.score then decide (a.score - b.score ≤ 0)
  else if a.rating ≠ b.rating then decide ((a.rating : ℤ) - (b.rating : ℤ) ≤ 0)
  else decide (compareIds a.id b.id ≤ 0)

def chooseBye (players : List Player) (history : History) : Option Player :=
  if players.length % 2 = 0 then none
  else
    let sorted := sortBy chooseByeLE players
    let noByeCandidate := sorted.find? (fun player => history.byeCounts player.id = 0)
    noByeCandidate <|> sorted.head?

/-- `buildOrderMap`: `Map` from id to position, last write wins. -/
def buildOrderMap (players : List Player) : PlayerId → Option Nat :=
  players.enum.foldl
    (fun m ip => fun i => if i = ip.2.id then some ip.1 else m i)
    (fun _ => none)

/-! ## Cost model -/

def SCORE_GAP_WEIGHT : ℚ := 1000
def COLOR_BALANCE_WEIGHT : ℚ := 10
def STREAK_WEIGHT : ℚ := 500
def REPEAT_WEIGHT : ℚ := 1000000
def CONSECUTIVE_REPEAT_WEIGHT : ℚ := 10000000

structure PairContext where
  roundNumber : Nat
  scoreGap : ℚ
  isRepeat : Bool
  isConsecutiveRepeat : Bool
  topBottomPenalty : ℚ
deriving Repr

/-- `calculatePairCost` of `swissEngine.js`. (The final
`if (topBottomPenalty) cost += topBottomPenalty` adds the penalty exactly
when it is nonzero, which is the same as always adding it.) -/
def calculatePairCost (player1 player2 : Player) (context : PairContext) : ℚ :=
  let cost := context.scoreGap * SCORE_GAP_WEIGHT
  let colorBalanceGap : ℚ := ((player1.colorBalance + player2.colorBalance).natAbs : ℚ)
  let cost := cost + colorBalanceGap * COLOR_BALANCE_WEIGHT
  let ca := assignColors player1 player2 context.roundNumber
  let cost := cost + (if wouldCreateThreeSame ca.white Color.white then STREAK_WEIGHT else 0)
  let cost := cost + (if wouldCreateThreeSame ca.black Color.black then STREAK_WEIGHT else 0)
  let cost := cost + (if context.isRepeat then REPEAT_WEIGHT else 0)
  let cost := cost + (if context.isConsecutiveRepeat then CONSECUTIVE_REPEAT_WEIGHT else 0)
  cost + context.topBottomPenalty

/-! ## Group pairing solver (`solveGroupPairings`) -/

structure GroupContext where
  roundNumber : Nat
  playedPairs : List (PlayerId × PlayerId)
  opponentsMap : PlayerId → List PlayerId
  lastRoundPairs : List (PlayerId × PlayerId)
  allowRepeats : Bool
  orderMap : PlayerId → Option Nat
  halfSize : Nat
  topBottomWeight : ℚ

/-- Candidates that `player` may still be paired with: everyone when
repeats are allowed, otherwise those not in the player's opponent set. -/
def availableOpponents (ctx : GroupContext) (player : Player) (candidates : List Player) : List Player :=
  if ctx.allowRepeats then candidates
  else
    let opps := ctx.opponentsMap player.id
    candidates.filter (fun candidate => !(opps.contains candidate.id))

structure RawPair where
  white : Player
  black : Player
  isRepeat : Bool
deriving DecidableEq, Repr

structure SolveResult where
  pairs : List RawPair
  cost : ℚ
  repeatCount : Nat
deriving DecidableEq, Repr

structure Candidate where
  opponent : Player
  white : Player
  black : Player
  isRepeat : Bool
  pairCost : ℚ
deriving DecidableEq, Repr

/-- Index of the most constrained remaining player: first index whose
available-opponent count is minimal (`bestCount` starts at `Infinity`,
modelled by `none`). -/
def mcfIndex (ctx : GroupContext) (remaining : List Player) : Nat :=
  (remaining.enum.foldl
    (fun acc ip =>
      let candidatePool := (remaining.enum.filter (fun jp => jp.1 ≠ ip.1)).map (·.2)
      let available := availableOpponents ctx ip.2 candidatePool
      match acc.2 with
      | none => (ip.1, some available.length)
      | some bestCount =>
          if available.length < bestCount then (ip.1, some available.length) else acc)
    ((0 : Nat), (none : Option Nat))).1

/-- The candidate record built for each available opponent of the chosen
player inside `backtrack`. -/
def buildCandidate (ctx : GroupContext) (player opponent : Player) : Candidate :=
  let isRepeat := ctx.playedPairs.contains (pairKey player.id opponent.id)
  let isConsecutiveRepeat := ctx.lastRoundPairs.contains (pairKey player.id opponent.id)
  let ca := assignColors player opponent ctx.roundNumber
  let topBottomPenalty : ℚ :=
    if ctx.halfSize ≠ 0 ∧ ctx.topBottomWeight ≠ 0 then
      match ctx.orderMap player.id, ctx.orderMap opponent.id with
      | some playerIndex, some opponentIndex =>
          let preferred :=
            if playerIndex < ctx.halfSize then playerIndex + ctx.halfSize
            else playerIndex - ctx.halfSize
          (((opponentIndex : ℤ) - (preferred : ℤ)).natAbs : ℚ) * ctx.topBottomWeight
      | _, _ => 0
    else 0
  let scoreGap := |player.score - opponent.score|
  let pairCost := calculatePairCost player opponent
    ⟨ctx.roundNumber, scoreGap, isRepeat, isConsecutiveRepeat, topBottomPenalty⟩
  ⟨opponent, ca.white, ca.black, isRepeat, pairCost⟩

/-- Candidate sort: ascending pair cost, ties by ascending opponent id. -/
def candLE (a b : Candidate) : Bool :=
  if a.pairCost ≠ b.pairCost then decide (a.pairCost - b.pairCost ≤ 0)
  else decide (compareIds a.opponent.id b.opponent.id ≤ 0)

/-- Is `candidateResult` better than the current `best` under the mode's
comparison (repeat count first when repeats are allowed, cost otherwise)? -/
def betterThan (allowRepeats : Bool) (cost : ℚ) (repeatCount : Nat) (b : SolveResult) : Bool :=
  if allowRepeats then
    decide (repeatCount < b.repeatCount ∨ (repeatCount = b.repeatCount ∧ cost < b.cost))
  else decide (cost < b.cost)

/-- Should the branch starting with this candidate be pruned, given the
current `best`? -/
def pruneBranch (allowRepeats : Bool) (nextCost : ℚ) (nextRepeatCount : Nat)
    (best : Option SolveResult) : Bool :=
  match best with
  | none => false
  | some b =>
      if allowRepeats then
        decide (nextRepeatCount > b.repeatCount ∨
          (nextRepeatCount = b.repeatCount ∧ nextCost ≥ b.cost))
      else decide (nextCost ≥ b.cost)

/-- The recursive backtracking search of `solveGroupPairings`, with the
mutable `best` threaded through.  `fuel` only bounds the recursion depth:
each recursive call removes two players from `remaining`, and every caller
passes `fuel ≥ remaining.length`, so the fuel-exhausted branch is never
taken (see `backtrack_fuel_irrelevant`-style hypotheses in the lemmas). -/
def backtrack (ctx : GroupContext) :
    Nat → List Player → List RawPair → ℚ → Nat → Option SolveResult → Option SolveResult
  | _, [], currentPairs, cost, repeatCount, best =>
      match best with
      | none => some ⟨currentPairs, cost, repeatCount⟩
      | some b =>
          if betterThan ctx.allowRepeats cost repeatCount b then
            some ⟨currentPairs, cost, repeatCount⟩
          else some b
  | 0, _ :: _, _, _, _, best => best
  | fuel + 1, p0 :: rest0, currentPairs, cost, repeatCount, best =>
      let remaining := p0 :: rest0
      let bestIndex := mcfIndex ctx remaining
      let player := remaining.getD bestIndex default
      let rest := remaining.eraseIdx bestIndex
      let available := availableOpponents ctx player rest
      if available.isEmpty then best
      else
        let candidatePairs := available.map (buildCandidate ctx player)
        let sortedCandidates := sortBy candLE candidatePairs
        sortedCandidates.foldl
          (fun best candidate =>
            let nextRepeatCount := repeatCount + (if candidate.isRepeat then 1 else 0)
            let nextCost := cost + candidate.pairCost
            if pruneBranch ctx.allowRepeats nextCost nextRepeatCount best then best
            else
              let nextRemaining := rest.filter (fun p => p.id ≠ candidate.opponent.id)
              backtrack ctx fuel nextRemaining
                (currentPairs ++ [⟨candidate.white, candidate.black, candidate.isRepeat⟩])
                nextCost nextRepeatCount best)
          best

def solveGroupPairings (players : List Player) (ctx : GroupContext) : Option SolveResult :=
  if players.isEmpty then some ⟨[], 0, 0⟩
  else backtrack ctx (players.length + 1) players [] 0 0 none

/-! ## Score groups and floaters (`solveScoreGroups`) -/

structure ScoreGroup where
  score : ℚ
  players : List Player
deriving Repr

/-- Partition by score, groups ordered by descending score, members in
input order (the JS `Map`-insertion/push order). -/
def groupPlayersByScore (players : List Player) (getScore : Player → ℚ) : List ScoreGroup :=
  let scores := (players.map getScore).dedup
  let sortedScores := sortBy (fun a b => decide (b - a ≤ 0)) scores
  sortedScores.map (fun score => ⟨score, players.filter (fun p => decide (getScore p = score))⟩)

/-- In-group presentation order: rating descending (`rating || 0`), then id
ascending. -/
def groupOrderedLE (a b : Player) : Bool :=
  if b.rating ≠ a.rating then decide ((b.rating : ℤ) - (a.rating : ℤ) ≤ 0)
  else decide (compareIds a.id b.id ≤ 0)

/-- Floater preference: rating ascending, then id ascending. -/
def floaterLE (a b : Player) : Bool :=
  if a.rating ≠ b.rating then decide ((a.rating : ℤ) - (b.rating : ℤ) ≤ 0)
  else decide (compareIds a.id b.id ≤ 0)

/-- `trySolve` of `solveScoreGroups`: solve one even-sized sub-pool and
recurse into the remaining groups via `recurse`. -/
def trySolveGroup (ctx : GroupContext)
    (recurse : List Player → List RawPair → ℚ → Nat → Option SolveResult → Option SolveResult)
    (pairs : List RawPair) (cost : ℚ) (repeatCount : Nat)
    (remainingPlayers nextCarry : List Player) (best : Option SolveResult) :
    Option SolveResult :=
  if remainingPlayers.length % 2 ≠ 0 then best
  else
    let contextForGroup :=
      { ctx with
        orderMap := buildOrderMap remainingPlayers
        halfSize := remainingPlayers.length / 2 }
    match solveGroupPairings remainingPlayers contextForGroup with
    | none => best
    | some groupResult =>
        recurse nextCarry (pairs ++ groupResult.pairs) (cost + groupResult.cost)
          (repeatCount + groupResult.repeatCount) best

/-- `solveGroupIndex`: walk the score groups, enumerating floater choices,
threading `best`. -/
def solveGroupIndex (ctx : GroupContext) :
    List ScoreGroup → List Player → List RawPair → ℚ → Nat → Option SolveResult →
    Option SolveResult
  | [], carryOver, pairs, cost, repeatCount, best =>
      if !carryOver.isEmpty then best
      else
        match best with
        | none => some ⟨pairs, cost, repeatCount⟩
        | some b =>
            if betterThan ctx.allowRepeats cost repeatCount b then
              some ⟨pairs, cost, repeatCount⟩
            else some b
  | group :: gs, carryOver, pairs, cost, repeatCount, best =>
      let groupOrdered := sortBy groupOrderedLE group.players
      let groupPlayers := carryOver ++ groupOrdered
      if groupPlayers.isEmpty then solveGroupIndex ctx gs [] pairs cost repeatCount best
      else
        let best :=
          if groupPlayers.length % 2 = 0 then
            trySolveGroup ctx (solveGroupIndex ctx gs) pairs cost repeatCount
              groupPlayers [] best
          else best
        let floaterCandidates := sortBy floaterLE groupOrdered
        floaterCandidates.foldl
          (fun best floater =>
            trySolveGroup ctx (solveGroupIndex ctx gs) pairs cost repeatCount
              (groupPlayers.filter (fun p => p.id ≠ floater.id)) [floater] best)
          best

def solveScoreGroups (groups : List ScoreGroup) (ctx : GroupContext) : Option SolveResult :=
  solveGroupIndex ctx groups [] [] 0 0 none

/-! ## Swiss round assembly (`generateSwissPairings` … `generateSwissRound`) -/

structure SwissOptions where
  getScore : Player → ℚ
  allowRepeats : Bool
  playedPairs : List (PlayerId × PlayerId)
  opponentsMap : PlayerId → List PlayerId
  lastRoundPairs : List (PlayerId × PlayerId)
  topBottomWeight : ℚ

def generateSwissPairings (players : List Player) (roundNumber : Nat)
    (rounds : List Round) (options : SwissOptions) : Option SolveResult :=
  let groups := groupPlayersByScore players options.getScore
  solveScoreGroups groups
    { roundNumber := roundNumber
      allowRepeats := options.allowRepeats
      playedPairs := options.playedPairs
      opponentsMap := options.opponentsMap
      lastRoundPairs := options.lastRoundPairs
      topBottomWeight := options.topBottomWeight
      orderMap := fun _ => none
      halfSize := 0 }

/-- A pairing in the serialized result. A match pairing carries no `isBye`
key in JS (read as `false`), a bye no `isRepeat` key; both are modelled as
explicit `false` fields. `rating || null` keeps the rating value for rated
players and collapses `0`/`null`, which `rating : Nat` already does. -/
structure OutPairing where
  player1 : PairingRef
  player2 : Option PairingRef
  boardNumber : Nat
  whitePlayerId : PlayerId
  blackPlayerId : Option PlayerId
  isRepeat : Bool
  isBye : Bool
deriving DecidableEq, Repr

structure PairingResult where
  pairings : List OutPairing
  forcedRepeat : Bool
  repeatCount : Nat
  forcedRepeatReason : Option String
deriving DecidableEq, Repr

def playerRef (p : Player) : PairingRef := ⟨p.id, p.name, p.rating⟩

def buildPairingResult (pairingResult : Option SolveResult) (byePlayer : Option Player)
    (forcedRepeat : Bool) (forcedReason : Option String) : PairingResult :=
  let matchPairings : List OutPairing :=
    match pairingResult with
    | none => []
    | some result =>
        result.pairs.enum.map (fun ip =>
          ⟨playerRef ip.2.white, some (playerRef ip.2.black), ip.1 + 1,
            ip.2.white.id, some ip.2.black.id, ip.2.isRepeat, false⟩)
  let pairings :=
    match byePlayer with
    | none => matchPairings
    | some bye =>
        matchPairings ++
          [⟨playerRef bye, none, matchPairings.length + 1, bye.id, none, false, true⟩]
  { pairings := pairings
    forcedRepeat := forcedRepeat
    repeatCount := match pairingResult with | some r => r.repeatCount | none => 0
    forcedRepeatReason :=
      if forcedRepeat then some (forcedReason.getD "no-repeat unsatisfiable") else none }

structure SwissConfig where
  getScore : Option (Player → ℚ)
  topBottomWeight : ℚ

def generateSwissRound (players : List Player) (roundNumber : Nat) (rounds : List Round)
    (config : SwissConfig) : PairingResult :=
  let history := buildHistory rounds
  let byePlayer := chooseBye players history
  let pairingPool :=
    match byePlayer with
    | some bye => players.filter (fun p => p.id ≠ bye.id)
    | none => players
  let getScore := config.getScore.getD (fun player => player.score)
  let noRepeatResult := generateSwissPairings pairingPool roundNumber rounds
    ⟨getScore, false, history.playedPairs, history.opponentsMap, history.lastRoundPairs,
      config.topBottomWeight⟩
  match noRepeatResult with
  | some _ => buildPairingResult noRepeatResult byePlayer false none
  | none =>
      let repeatResult := generateSwissPairings pairingPool roundNumber rounds
        ⟨getScore, true, history.playedPairs, history.opponentsMap, history.lastRoundPairs,
          config.topBottomWeight⟩
      buildPairingResult repeatResult byePlayer true (some "no-repeat unsatisfiable")

/-- `SwissFideDutch.generatePairings` (`swissFideDutch.js`). -/
def swissFideDutchGeneratePairings (players : List Player) (roundNumber : Nat)
    (allPlayers : Option (List Player)) (rounds : List Round) : PairingResult :=
  generateSwissRound players roundNumber rounds ⟨some (fun player => player.score), 10⟩

/-! ## The legacy `SwissPairing` class (`swissPairing.js`) -/

namespace SwissPairing

/-- `a < b ? "a|b" : "b|a"`. -/
def pairKey (a b : PlayerId) : PlayerId × PlayerId :=
  if a < b then (a, b) else (b, a)

/-- Played pairs and opponent map derived from the players' own
`previousOpponents` (a `Set` per player; `Map.set` overwrites). -/
def buildPlayedPairs (players : List Player) :
    List (PlayerId × PlayerId) × (PlayerId → List PlayerId) :=
  players.foldl
    (fun acc player =>
      let opps := player.previousOpponents
      (acc.1 ++ opps.map (fun oppId => pairKey player.id oppId),
       fun i => if i = player.id then opps else acc.2 i))
    ([], fun _ => [])

def isRepeat (playerA playerB : Player) (playedPairs : List (PlayerId × PlayerId)) : Bool :=
  playedPairs.contains (pairKey playerA.id playerB.id)

def availableOpponents (player : Player) (candidates : List Player)
    (playedPairs : List (PlayerId × PlayerId)) (allowRepeats : Bool)
    (opponentsMap : PlayerId → List PlayerId) : List Player :=
  if allowRepeats then candidates
  else
    candidates.filter (fun candidate =>
      if (opponentsMap player.id).contains candidate.id then false
      else !(isRepeat player candidate playedPairs))

/-- Pairs that played in the most recent round strictly before
`roundNumber`. -/
def getLastRoundPairs (rounds : List Round) (roundNumber : Nat) :
    List (PlayerId × PlayerId) :=
  if roundNumber ≤ 1 then []
  else
    let priorRounds :=
      sortBy (fun a b => decide (b.roundNumber ≤ a.roundNumber))
        (rounds.filter (fun r => r.roundNumber < roundNumber))
    match priorRounds.head? with
    | none => []
    | some lastRound =>
        lastRound.pairings.foldl
          (fun acc pairing =>
            if pairing.isBye then acc
            else
              match pairing.player1, pairing.player2 with
              | some p1, some p2 => acc ++ [pairKey p1.id p2.id]
              | _, _ => acc)
          []

def getLastColors (player : Player) (n : Nat) : List Color :=
  player.colorHistory.drop (player.colorHistory.length - n)

def wouldCreateThreeSame (player : Player) (assignedColor : Color) : Bool :=
  match getLastColors player 2 with
  | [c0, c1] => c0 = c1 && c1 = assignedColor
  | _ => false

/-- `SwissPairing.assignColors` (27A4, 27A5); identical to the engine's
rules, with the `player1.id < player2.id` tie-break. -/
def assignColors (player1 player2 : Player) (roundNumber : Nat) : ColorAssignment :=
  let player1LastColors := getLastColors player1 2
  let player2LastColors := getLastColors player2 2
  let player1NeedsOpposite :=
    player1LastColors.length = 2 && player1LastColors[0]? = player1LastColors[1]?
  let player2NeedsOpposite :=
    player2LastColors.length = 2 && player2LastColors[0]? = player2LastColors[1]?
  if player1NeedsOpposite && !player2NeedsOpposite then
    let neededColor : Color :=
      if player1LastColors[0]? = some Color.white then Color.black else Color.white
    if neededColor = Color.white then ⟨player1, player2⟩ else ⟨player2, player1⟩
  else if player2NeedsOpposite && !player1NeedsOpposite then
    let neededColor : Color :=
      if player2LastColors[0]? = some Color.white then Color.black else Color.white
    if neededColor = Color.white then ⟨player2, player1⟩ else ⟨player1, player2⟩
  else if player1.colorBalance < player2.colorBalance then ⟨player1, player2⟩
  else if player2.colorBalance < player1.colorBalance then ⟨player2, player1⟩
  else
    let idTieBreak : ColorAssignment :=
      if player1.id < player2.id then ⟨player1, player2⟩ else ⟨player2, player1⟩
    if roundNumber % 2 = 1 then
      match player1LastColors.getLast? with
      | some Color.black => ⟨player1, player2⟩
      | some Color.white => ⟨player2, player1⟩
      | none => idTieBreak
    else idTieBreak

/-- `SwissPairing.calculatePairingCost`: like the engine's cost but with
the score gap computed inside and no seed bias. -/
def calculatePairingCost (player1 player2 : Player)
    (roundNumber : Nat) (isRepeat isConsecutiveRepeat : Bool) : ℚ :=
  let scoreGap := |player1.score - player2.score|
  let cost := scoreGap * SCORE_GAP_WEIGHT
  let colorBalanceGap : ℚ := ((player1.colorBalance + player2.colorBalance).natAbs : ℚ)
  let cost := cost + colorBalanceGap * COLOR_BALANCE_WEIGHT
  let ca := assignColors player1 player2 roundNumber
  let cost := cost + (if wouldCreateThreeSame ca.white Color.white then STREAK_WEIGHT else 0)
  let cost := cost + (if wouldCreateThreeSame ca.black Color.black then STREAK_WEIGHT else 0)
  let cost := cost + (if isRepeat then REPEAT_WEIGHT else 0)
  cost + (if isConsecutiveRepeat then CONSECUTIVE_REPEAT_WEIGHT else 0)

structure FBContext where
  roundNumber : Nat
  playedPairs : List (PlayerId × PlayerId)
  opponentsMap : PlayerId → List PlayerId
  lastRoundPairs : List (PlayerId × PlayerId)
  allowRepeats : Bool

def buildCandidate (ctx : FBContext) (player opponent : Player) : Candidate :=
  let isRep := isRepeat player opponent ctx.playedPairs
  let isConsecutiveRepeat := ctx.lastRoundPairs.contains (pairKey player.id opponent.id)
  let ca := assignColors player opponent ctx.roundNumber
  let pairCost := calculatePairingCost player opponent ctx.roundNumber isRep isConsecutiveRepeat
  ⟨opponent, ca.white, ca.black, isRep, pairCost⟩

/-- Candidate sort of `findBestPairings`: cost, then opponent id, then 0. -/
def fbCandLE (a b : Candidate) : Bool :=
  if a.pairCost ≠ b.pairCost then decide (a.pairCost - b.pairCost ≤ 0)
  else if a.opponent.id ≠ b.opponent.id then
    decide ((a.opponent.id : ℤ) - (b.opponent.id : ℤ) ≤ 0)
  else true

def mcfIndex (ctx : FBContext) (remaining : List Player) : Nat :=
  (remaining.enum.foldl
    (fun acc ip =>
      let candidatePool := (remaining.enum.filter (fun jp => jp.1 ≠ ip.1)).map (·.2)
      let available :=
        availableOpponents ip.2 candidatePool ctx.playedPairs ctx.allowRepeats ctx.opponentsMap
      match acc.2 with
      | none => (ip.1, some available.length)
      | some bestCount =>
          if available.length < bestCount then (ip.1, some available.length) else acc)
    ((0 : Nat), (none : Option Nat))).1

/-- The backtracking loop of `SwissPairing.findBestPairings` (same shape as
the engine's `backtrack`, fuelled for structural recursion). -/
def backtrack (ctx : FBContext) :
    Nat → List Player → List RawPair → ℚ → Nat → Option SolveResult → Option SolveResult
  | _, [], currentPairs, cost, repeatCount, best =>
      match best with
      | none => some ⟨currentPairs, cost, repeatCount⟩
      | some b =>
          if betterThan ctx.allowRepeats cost repeatCount b then
            some ⟨currentPairs, cost, repeatCount⟩
          else some b
  | 0, _ :: _, _, _, _, best => best
  | fuel + 1, p0 :: rest0, currentPairs, cost, repeatCount, best =>
      let remaining := p0 :: rest0
      let bestIndex := mcfIndex ctx remaining
      let player := remaining.getD bestIndex default
      let rest := remaining.eraseIdx bestIndex
      let available :=
        availableOpponents player rest ctx.playedPairs ctx.allowRepeats ctx.opponentsMap
      if available.isEmpty then best
      else
        let candidatePairs := available.map (buildCandidate ctx player)
        let sortedCandidates := sortBy fbCandLE candidatePairs
        sortedCandidates.foldl
          (fun best candidate =>
            let nextRepeatCount := repeatCount + (if candidate.isRepeat then 1 else 0)
            let nextCost := cost + candidate.pairCost
            if pruneBranch ctx.allowRepeats nextCost nextRepeatCount best then best
            else
              let nextRemaining := rest.filter (fun p => p.id ≠ candidate.opponent.id)
              backtrack ctx fuel nextRemaining
                (currentPairs ++ [⟨candidate.white, candidate.black, candidate.isRepeat⟩])
                nextCost nextRepeatCount best)
          best

def findBestPairings (players : List Player) (ctx : FBContext) : Option SolveResult :=
  if players.isEmpty then some ⟨[], 0, 0⟩
  else backtrack ctx (players.length + 1) players [] 0 0 none

/-- Ranking of the whole roster by rating descending then id ascending;
pairing number is 1-based position, `|| id` for players not in the map. -/
def pairingNumberOf (allPlayers : Option (List Player)) : PlayerId → Nat :=
  match allPlayers with
  | none => fun i => i
  | some ap =>
      let ranked := sortBy
        (fun a b =>
          if a.rating ≠ b.rating then decide ((b.rating : ℤ) - (a.rating : ℤ) ≤ 0)
          else decide ((a.id : ℤ) - (b.id : ℤ) ≤ 0))
        ap
      let m := ranked.enum.foldl
        (fun m ip => fun i => if i = ip.2.id then some (ip.1 + 1) else m i)
        (fun _ => none)
      fun i => (m i).getD i

/-- The main player sort of `SwissPairing.generatePairings`: score
descending, rating descending, pairing number descending. -/
def sortedLE (pairingNumber : PlayerId → Nat) (a b : Player) : Bool :=
  if a.score ≠ b.score then decide (b.score - a.score ≤ 0)
  else if a.rating ≠ b.rating then decide ((b.rating : ℤ) - (a.rating : ℤ) ≤ 0)
  else decide ((pairingNumber b.id : ℤ) - (pairingNumber a.id : ℤ) ≤ 0)

/-- `SwissPairing.generatePairings` (the legacy `swiss` method). -/
def generatePairings (players : List Player) (roundNumber : Nat)
    (allPlayers : Option (List Player)) (rounds : List Round) : PairingResult :=
  if players.length < 2 then ⟨[], false, 0, none⟩
  else
    let pp := buildPlayedPairs players
    let playedPairs := pp.1
    let opponentsMap := pp.2
    let lastRoundPairs := getLastRoundPairs rounds roundNumber
    let pairingNumber := pairingNumberOf allPlayers
    let sortedPlayers := sortBy (sortedLE pairingNumber) players
    let hasBye := sortedPlayers.length % 2 = 1
    let byePlayer := if hasBye then sortedPlayers.getLast? else none
    let pairingPool := if hasBye then sortedPlayers.dropLast else sortedPlayers
    let noRepeatResult := findBestPairings pairingPool
      ⟨roundNumber, playedPairs, opponentsMap, lastRoundPairs, false⟩
    let pairingResult :=
      match noRepeatResult with
      | some r => some r
      | none => findBestPairings pairingPool
          ⟨roundNumber, playedPairs, opponentsMap, lastRoundPairs, true⟩
    let forcedRepeat := noRepeatResult.isNone
    let matchPairings : List OutPairing :=
      match pairingResult with
      | none => []
      | some result =>
          result.pairs.enum.map (fun ip =>
            ⟨playerRef ip.2.white, some (playerRef ip.2.black), ip.1 + 1,
              ip.2.white.id, some ip.2.black.id, ip.2.isRepeat, false⟩)
    let pairings :=
      match byePlayer with
      | none => matchPairings
      | some bye =>
          matchPairings ++
            [⟨playerRef bye, none, matchPairings.length + 1, bye.id, none, false, true⟩]
    { pairings := pairings
      forcedRepeat := forcedRepeat
      repeatCount := match pairingResult with | some r => r.repeatCount | none => 0
      forcedRepeatReason := none }

end SwissPairing

/-! ## Standings aggregator (`SwissPairing.calculateStandings`) -/

structure Tournament where
  players : List Player
  rounds : List Round

/-- A player with the accumulators reset by the `{...p, score: 0, …}`
spread at the top of `calculateStandings`. -/
structure StandPlayer where
  id : PlayerId
  name : String
  rating : Nat
  score : ℚ
  colorBalance : ℤ
  colorHistory : List Color
  previousOpponents : List PlayerId
  wins : Nat
  losses : Nat
  draws : Nat
  gamesPlayed : Nat
deriving DecidableEq, Repr

structure RankedPlayer where
  rank : Nat
  id : PlayerId
  name : String
  rating : Nat
  score : ℚ
  wins : Nat
  losses : Nat
  draws : Nat
  gamesPlayed : Nat
  colorBalance : ℤ
  colorHistory : List Color
  previousOpponents : List PlayerId
deriving DecidableEq, Repr

def initStand (p : Player) : StandPlayer :=
  ⟨p.id, p.name, p.rating, 0, 0, [], [], 0, 0, 0, 0⟩

/-- `players.find(p => p.id === pid)` followed by in-place mutation: update
the first matching element. -/
def updateFirst (players : List StandPlayer) (pid : PlayerId)
    (f : StandPlayer → StandPlayer) : List StandPlayer :=
  match players with
  | [] => []
  | p :: rest => if p.id = pid then f p :: rest else p :: updateFirst rest pid f

/-- Process one pairing of a completed round, mirroring the mutation order
of the source. -/
def applyStandPairing (players : List StandPlayer) (pairing : HPairing) : List StandPlayer :=
  if pairing.isBye then
    match pairing.player1 with
    | none => players
    | some p1ref =>
        updateFirst players p1ref.id (fun player =>
          { player with
            score := player.score + 1     -- Bye = win
            wins := player.wins + 1
            gamesPlayed := player.gamesPlayed + 1
            colorHistory := player.colorHistory ++ [Color.white] })  -- Bye gets white
  else
    match pairing.player1, pairing.player2 with
    | some p1ref, some p2ref =>
        if players.any (fun p => p.id = p1ref.id) && players.any (fun p => p.id = p2ref.id) then
          let players := updateFirst players p1ref.id (fun p =>
            { p with previousOpponents := p.previousOpponents ++ [p2ref.id] })
          let players := updateFirst players p2ref.id (fun p =>
            { p with previousOpponents := p.previousOpponents ++ [p1ref.id] })
          let players :=
            if pairing.whitePlayerId = some p1ref.id then
              let players := updateFirst players p1ref.id (fun p =>
                { p with colorBalance := p.colorBalance + 1
                         colorHistory := p.colorHistory ++ [Color.white] })
              updateFirst players p2ref.id (fun p =>
                { p with colorBalance := p.colorBalance - 1
                         colorHistory := p.colorHistory ++ [Color.black] })
            else
              let players := updateFirst players p1ref.id (fun p =>
                { p with colorBalance := p.colorBalance - 1
                         colorHistory := p.colorHistory ++ [Color.black] })
              updateFirst players p2ref.id (fun p =>
                { p with colorBalance := p.colorBalance + 1
                         colorHistory := p.colorHistory ++ [Color.white] })
          match pairing.result with
          | none => players
          | some r =>
              let players := updateFirst players p1ref.id (fun p =>
                { p with gamesPlayed := p.gamesPlayed + 1 })
              let players := updateFirst players p2ref.id (fun p =>
                { p with gamesPlayed := p.gamesPlayed + 1 })
              match r with
              | GameResult.p1win =>
                  updateFirst
                    (updateFirst players p1ref.id (fun p =>
                      { p with score := p.score + 1, wins := p.wins + 1 }))
                    p2ref.id (fun p => { p with losses := p.losses + 1 })
              | GameResult.p2win =>
                  updateFirst
                    (updateFirst players p2ref.id (fun p =>
                      { p with score := p.score + 1, wins := p.wins + 1 }))
                    p1ref.id (fun p => { p with losses := p.losses + 1 })
              | GameResult.draw =>
                  updateFirst
                    (updateFirst players p1ref.id (fun p =>
                      { p with score := p.score + 1/2, draws := p.draws + 1 }))
                    p2ref.id (fun p => { p with score := p.score + 1/2, draws := p.draws + 1 })
        else players
    | _, _ => players

/-- Standings sort: score descending, rating descending, color balance
descending. -/
def standingsSortLE (a b : StandPlayer) : Bool :=
  if a.score ≠ b.score then decide (b.score - a.score ≤ 0)
  else if a.rating ≠ b.rating then decide ((b.rating : ℤ) - (a.rating : ℤ) ≤ 0)
  else decide (b.colorBalance - a.colorBalance ≤ 0)

def rankPlayer (ip : Nat × StandPlayer) : RankedPlayer :=
  ⟨ip.1 + 1, ip.2.id, ip.2.name, ip.2.rating, ip.2.score, ip.2.wins, ip.2.losses,
    ip.2.draws, ip.2.gamesPlayed, ip.2.colorBalance, ip.2.colorHistory, ip.2.previousOpponents⟩

def calculateStandings (tournament : Tournament) : List RankedPlayer :=
  let players := tournament.players.map initStand
  let players := tournament.rounds.foldl
    (fun players round =>
      if !round.completed then players
      else round.pairings.foldl applyStandPairing players)
    players
  let sorted := sortBy standingsSortLE players
  sorted.enum.map rankPlayer

/-! # Verification

## Generic facts about the stable sort

Every comparator in the source is of the lexicographic shape
`c(a,b) ≤ 0 ↔ κ a ≤ κ b` for a key map `κ` into a linear order; `LexKeyed`
records this and yields sortedness and (for key-injective lists)
uniqueness of the sorted result. -/

def LexKeyed {K : Type _} [LinearOrder K] (le : α → α → Bool) (κ : α → K) : Prop :=
  ∀ a b, le a b = decide (κ a ≤ κ b)

/-- Sort key of the bye order: score ascending, rating ascending, id
ascending. -/
def chooseByeKey (p : Player) : ℚ ×ₗ (ℤ ×ₗ ℤ) :=
  toLex (p.score, toLex ((p.rating : ℤ), (p.id : ℤ)))

/-- Sort key of the standings order: score descending, rating descending,
color balance descending. -/
def standingsKey (p : StandPlayer) : ℚ ×ₗ (ℤ ×ₗ ℤ) :=
  toLex (-p.score, toLex (-(p.rating : ℤ), -p.colorBalance))

def rankedKey (p : RankedPlayer) : ℚ ×ₗ (ℤ ×ₗ ℤ) :=
  toLex (-p.score, toLex (-(p.rating : ℤ), -p.colorBalance))

def pairsFlat (l : List RawPair) : List Player :=
  l.flatMap (fun pr => [pr.white, pr.black])

/-- Invariants every pair stored by the backtracking search satisfies. -/
def PairOk (ctx : GroupContext) (pr : RawPair) : Prop :=
  pr.isRepeat = ctx.playedPairs.contains (pairKey pr.white.id pr.black.id) ∧
  (ctx.allowRepeats = false →
    (ctx.opponentsMap pr.white.id).contains pr.black.id = false ∨
    (ctx.opponentsMap pr.black.id).contains pr.white.id = false)

/-- Invariants of a complete solver result relative to the pool `full` it
was computed from: its pairs mention exactly the pool, the repeat counter
counts the flagged pairs, and every pair is well-formed. -/
def ResultOk (ctx : GroupContext) (full : List Player) (b : SolveResult) : Prop :=
  (pairsFlat b.pairs).Perm full ∧
  b.repeatCount = b.pairs.countP (fun pr => pr.isRepeat) ∧
  ∀ pr ∈ b.pairs, PairOk ctx pr

/-- A perfect matching of `l` avoiding the opponent relation `om`, in both
orientations. -/
def FreeMatching (om : PlayerId → List PlayerId) (l : List Player)
    (m : List (Player × Player)) : Prop :=
  (m.flatMap (fun q => [q.1, q.2])).Perm l ∧
  ∀ q ∈ m, (om q.1.id).contains q.2.id = false ∧ (om q.2.id).contains q.1.id = false

def groupsPlayers (gs : List ScoreGroup) : List Player := gs.flatMap (fun g => g.players)

/-- The invariant maintained by `buildHistory`: the opponents map holds
exactly the other ends of the recorded played-pair keys. -/
def HistOk (h : History) : Prop :=
  ∀ a b : PlayerId, (h.opponentsMap a).contains b = h.playedPairs.contains (pairKey a b)

def c4players : List Player :=
  [⟨1, "a", 0, 0, 0, [], []⟩, ⟨2, "b", 0, 0, 0, [], []⟩, ⟨3, "c", 0, 0, 0, [], []⟩]

def c4rounds : List Round :=
  [⟨1, [⟨some ⟨1, "a", 0⟩, none, true, none, none⟩,
        ⟨some ⟨2, "b", 0⟩, some ⟨3, "c", 0⟩, false, some 2, some GameResult.draw⟩], true⟩]

/-- The competitor ids a serialized pairing mentions (white, then black for
a match pairing; just the bye recipient for a bye entry). -/
def pairingIds (op : OutPairing) : List PlayerId :=
  match op.blackPlayerId with
  | some b => [op.whitePlayerId, b]
  | none => [op.whitePlayerId]

/-- All competitor ids mentioned by a pairing result, in board order. -/
def resultIds (r : PairingResult) : List PlayerId :=
  r.pairings.flatMap pairingIds

def c1players : List Player :=
  [⟨1, "a", 1200, 0, 0, [], []⟩, ⟨2, "b", 1100, 0, 0, [], []⟩, ⟨3, "c", 1000, 0, 0, [], []⟩]

def c1solo : Player := ⟨7, "solo", 0, 0, 0, [], []⟩

def c2wplayers : List Player :=
  [⟨1, "a", 0, 0, 0, [], []⟩, ⟨2, "b", 0, 0, 0, [], []⟩]

def c2players : List Player :=
  [⟨1, "a", 0, 2, 0, [], []⟩, ⟨2, "b", 0, 1, 0, [], []⟩,
   ⟨3, "c", 0, 1, 0, [], []⟩, ⟨4, "d", 0, 0, 0, [], []⟩]

def c2rounds : List Round :=
  [⟨1, [⟨some ⟨1, "a", 0⟩, some ⟨2, "b", 0⟩, false, some 1, some GameResult.p1win⟩], true⟩,
   ⟨2, [⟨some ⟨1, "a", 0⟩, some ⟨3, "c", 0⟩, false, some 1, some GameResult.p1win⟩], true⟩]

/-- A score-group decomposition of a pair list: block by block, each score
group (with the incoming carry) is either empty, solved whole (when even),
or solved minus one floater taken from the group's own members, exactly the
shapes `solveGroupIndex` enumerates. -/
def DecompCover : List ScoreGroup → List Player → List RawPair → Prop
  | [], carry, ps => carry = [] ∧ ps = []
  | g :: gs, carry, ps =>
      ((carry ++ sortBy groupOrderedLE g.players) = [] ∧ DecompCover gs [] ps) ∨
      (∃ ps1 ps2, ps = ps1 ++ ps2 ∧
        (pairsFlat ps1).Perm (carry ++ sortBy groupOrderedLE g.players) ∧
        DecompCover gs [] ps2) ∨
      (∃ f, f ∈ sortBy floaterLE (sortBy groupOrderedLE g.players) ∧ ∃ ps1 ps2,
        ps = ps1 ++ ps2 ∧
        (pairsFlat ps1).Perm ((carry ++ sortBy groupOrderedLE g.players).filter
          (fun p => decide (p.id ≠ f.id))) ∧
        DecompCover gs [f] ps2)

theorem insertSorted_perm (le : α → α → Bool) (a : α) (l : List α) :
    (insertSorted le a l).Perm (a :: l) := by
  induction l with
  | nil => simp [insertSorted]
  | cons b l ih =>
      simp only [insertSorted]
      split
      · exact List.Perm.refl _
      · exact (List.Perm.cons b ih).trans (List.Perm.swap a b l)

theorem sortBy_perm (le : α → α → Bool) (l : List α) : (sortBy le l).Perm l := by
  induction l with
  | nil => simp [sortBy]
  | cons a l ih =>
      exact (insertSorted_perm le a (sortBy le l)).trans (ih.cons a)

theorem pairwise_insertSorted {K : Type _} [LinearOrder K] {le : α → α → Bool} {κ : α → K}
    (hk : LexKeyed le κ) (a : α) {l : List α}
    (hl : l.Pairwise (fun x y => κ x ≤ κ y)) :
    (insertSorted le a l).Pairwise (fun x y => κ x ≤ κ y) := by
  induction l with
  | nil => simp [insertSorted]
  | cons b l ih =>
      simp only [insertSorted]
      rcases List.pairwise_cons.mp hl with ⟨hb, hl'⟩
      by_cases hab : le a b = true
      · rw [if_pos hab]
        have hab' : κ a ≤ κ b := by
          have := hk a b; rw [hab] at this; exact of_decide_eq_true this.symm
        refine List.pairwise_cons.mpr ⟨?_, hl⟩
        intro x hx
        rcases List.mem_cons.mp hx with h | h
        · exact h ▸ hab'
        · exact le_trans hab' (hb x h)
      · rw [if_neg hab]
        have hba : κ b ≤ κ a := by
          have h1 := hk a b
          have h2 : ¬ κ a ≤ κ b := by
            intro h
            exact hab (by rw [h1]; exact decide_eq_true h)
          exact le_of_not_le h2
        refine List.pairwise_cons.mpr ⟨?_, ih hl'⟩
        intro x hx
        have hx' := (insertSorted_perm le a l).mem_iff.mp hx
        rcases List.mem_cons.mp hx' with h | h
        · exact h ▸ hba
        · exact hb x h

theorem pairwise_sortBy {K : Type _} [LinearOrder K] {le : α → α → Bool} {κ : α → K}
    (hk : LexKeyed le κ) (l : List α) :
    (sortBy le l).Pairwise (fun x y => κ x ≤ κ y) := by
  induction l with
  | nil => simp [sortBy]
  | cons a l ih => exact pairwise_insertSorted hk a ih

/-- Two key-sorted permutations of each other with injective keys are
equal. -/
theorem eq_of_perm_of_pairwise_keyed {K : Type _} [LinearOrder K] (κ : α → K)
    {l₁ l₂ : List α} (hperm : l₁.Perm l₂)
    (h₁ : l₁.Pairwise (fun x y => κ x ≤ κ y)) (h₂ : l₂.Pairwise (fun x y => κ x ≤ κ y))
    (hinj : (l₁.map κ).Nodup) : l₁ = l₂ := by
  induction l₁ generalizing l₂ with
  | nil => simpa using hperm.nil_eq
  | cons a l₁ ih =>
      match l₂, hperm with
      | [], hperm => exact absurd hperm.symm.nil_eq (by simp)
      | b :: l₂, hperm =>
          rcases List.pairwise_cons.mp h₁ with ⟨ha, h₁'⟩
          rcases List.pairwise_cons.mp h₂ with ⟨hb, h₂'⟩
          have hab : a = b := by
            have hbmem : b ∈ a :: l₁ := hperm.symm.subset (by simp)
            have hamem : a ∈ b :: l₂ := hperm.subset (by simp)
            rcases List.mem_cons.mp hbmem with h | h
            · exact h.symm
            · rcases List.mem_cons.mp hamem with h' | h'
              · exact h'
              · -- a and b are distinct positions with κ a ≤ κ b ≤ κ a
                have h1 : κ a ≤ κ b := ha b h
                have h2 : κ b ≤ κ a := hb a h'
                have hκ : κ a = κ b := le_antisymm h1 h2
                have : κ b ∈ l₁.map κ := List.mem_map_of_mem κ h
                rw [List.map_cons] at hinj
                exact absurd (hκ ▸ this) (List.nodup_cons.mp hinj).1
          subst hab
          have hperm' : l₁.Perm l₂ := (List.perm_cons a).mp hperm
          have := ih hperm' h₁' h₂' ((List.nodup_cons.mp (by simpa using hinj)).2)
          rw [this]

/-- For key-injective inputs, the stable sort depends only on the multiset
of elements. -/
theorem sortBy_eq_of_perm {K : Type _} [LinearOrder K] {le : α → α → Bool} {κ : α → K}
    (hk : LexKeyed le κ) {l₁ l₂ : List α} (hperm : l₁.Perm l₂)
    (hinj : (l₁.map κ).Nodup) : sortBy le l₁ = sortBy le l₂ := by
  refine eq_of_perm_of_pairwise_keyed κ
    ((sortBy_perm le l₁).trans (hperm.trans (sortBy_perm le l₂).symm))
    (pairwise_sortBy hk l₁) (pairwise_sortBy hk l₂) ?_
  exact ((sortBy_perm le l₁).map κ).symm.nodup hinj

/-- Bridge for one comparator tier `if x !== y then x - y else rest`. -/
theorem tierBool_eq {γ : Type _} [LinearOrderedAddCommGroup γ] (x y : γ) (P : Prop)
    [Decidable P] (hP : P ↔ x ≠ y) {r : Bool} {R : Prop} [Decidable R] (hr : r = decide R) :
    (if P then decide (x - y ≤ 0) else r) = decide (x < y ∨ (x = y ∧ R)) := by
  by_cases h : x = y
  · rw [if_neg (fun hp => (hP.mp hp) h), hr, decide_eq_decide]
    subst h
    simp
  · rw [if_pos (hP.mpr h), decide_eq_decide, sub_nonpos]
    constructor
    · intro hle
      exact Or.inl (lt_of_le_of_ne hle h)
    · rintro (hlt | ⟨he, _⟩)
      · exact le_of_lt hlt
      · exact absurd he h

theorem lastTierBool_eq {γ : Type _} [LinearOrderedAddCommGroup γ] {x y : γ} :
    decide (x - y ≤ 0) = decide (x ≤ y) := by
  rw [decide_eq_decide, sub_nonpos]

theorem chooseByeLE_keyed : LexKeyed chooseByeLE chooseByeKey := by
  intro a b
  have last : decide (compareIds a.id b.id ≤ 0) = decide ((a.id : ℤ) ≤ (b.id : ℤ)) := by
    unfold compareIds
    exact lastTierBool_eq
  have t2 := tierBool_eq ((a.rating : ℤ)) ((b.rating : ℤ))
    (a.rating ≠ b.rating) (by simp) last
  have t1 := tierBool_eq a.score b.score
    (a.score ≠ b.score) Iff.rfl t2
  unfold chooseByeLE
  rw [t1, decide_eq_decide]
  unfold chooseByeKey
  rw [Prod.Lex.le_iff]
  simp only [Prod.Lex.le_iff]

theorem standingsSortLE_keyed : LexKeyed standingsSortLE standingsKey := by
  intro a b
  have last : decide (b.colorBalance - a.colorBalance ≤ 0) =
      decide (-a.colorBalance ≤ -b.colorBalance) := by
    rw [decide_eq_decide, sub_nonpos, neg_le_neg_iff]
  have t2 := tierBool_eq (-(a.rating : ℤ)) (-(b.rating : ℤ))
    (a.rating ≠ b.rating) (by simp) last
  have t1 := tierBool_eq (-a.score) (-b.score)
    (a.score ≠ b.score) (by constructor <;> intro h <;> simp_all) t2
  have h1 : (b.score - a.score ≤ 0) = (-a.score - -b.score ≤ 0) := by
    rw [eq_iff_iff]
    constructor <;> intro <;> linarith
  have h2 : ((b.rating : ℤ) - (a.rating : ℤ) ≤ 0) =
      (-(a.rating : ℤ) - -(b.rating : ℤ) ≤ 0) := by
    rw [eq_iff_iff]
    omega
  unfold standingsSortLE
  simp only [h1, h2]
  rw [t1, decide_eq_decide]
  unfold standingsKey
  rw [Prod.Lex.le_iff]
  simp only [Prod.Lex.le_iff]

/-- Sort key of the round-number sort. -/
theorem roundsLE_keyed :
    LexKeyed (fun a b => decide (a.roundNumber ≤ b.roundNumber)) Round.roundNumber :=
  fun _ _ => rfl

/-! ## Bye parity (C8) -/

theorem chooseBye_isSome_iff (players : List Player) (h : History) :
    (chooseBye players h).isSome ↔ players.length % 2 = 1 := by
  unfold chooseBye
  by_cases he : players.length % 2 = 0
  · simp [he]
  · have h1 : players.length % 2 = 1 := Nat.mod_two_eq_zero_or_one _ |>.resolve_left he
    rw [if_neg he]
    simp only [h1, iff_true]
    have hlen : (sortBy chooseByeLE players).length = players.length :=
      (sortBy_perm chooseByeLE players).length_eq
    have hne : sortBy chooseByeLE players ≠ [] := by
      intro hnil
      rw [hnil] at hlen
      simp at hlen
      omega
    cases hfind : (sortBy chooseByeLE players).find? (fun player => h.byeCounts player.id = 0) with
    | some p => simp [Option.orElse, hfind]
    | none =>
        cases hhead : (sortBy chooseByeLE players).head? with
        | some p => simp [Option.orElse, hfind, hhead]
        | none => exact absurd (List.head?_eq_none_iff.mp hhead) hne

theorem matchPairings_no_bye (result : SolveResult) :
    (result.pairs.enum.map (fun ip =>
      (⟨playerRef ip.2.white, some (playerRef ip.2.black), ip.1 + 1,
        ip.2.white.id, some ip.2.black.id, ip.2.isRepeat, false⟩ : OutPairing))).countP
      (·.isBye) = 0 := by
  rw [List.countP_eq_zero]
  intro a ha
  obtain ⟨ip, _, rfl⟩ := List.mem_map.mp ha
  simp

theorem buildPairingResult_countP_isBye (pr : Option SolveResult) (bye : Option Player)
    (f : Bool) (reason : Option String) :
    ((buildPairingResult pr bye f reason).pairings.countP (·.isBye)) =
      if bye.isSome then 1 else 0 := by
  unfold buildPairingResult
  cases bye with
  | none =>
      cases pr with
      | none => simp
      | some result => simpa using matchPairings_no_bye result
  | some b =>
      cases pr with
      | none => simp
      | some result =>
          simp only [List.countP_append, Option.isSome_some, if_true]
          rw [matchPairings_no_bye result]
          simp [List.countP_cons]

/-- C8: a `generateSwissRound` result contains exactly one bye entry when
the pool size is odd and none when it is even. -/
theorem c8_bye_parity (players : List Player) (roundNumber : Nat) (rounds : List Round)
    (config : SwissConfig) :
    ((generateSwissRound players roundNumber rounds config).pairings.countP (·.isBye)) =
      (if players.length % 2 = 1 then 1 else 0) := by
  unfold generateSwissRound
  have hbye : (chooseBye players (buildHistory rounds)).isSome ↔ players.length % 2 = 1 :=
    chooseBye_isSome_iff players (buildHistory rounds)
  cases hnr : generateSwissPairings
      (match chooseBye players (buildHistory rounds) with
        | some bye => players.filter (fun p => p.id ≠ bye.id)
        | none => players) roundNumber rounds
      ⟨(SwissConfig.getScore config).getD (fun player => player.score), false,
        (buildHistory rounds).playedPairs, (buildHistory rounds).opponentsMap,
        (buildHistory rounds).lastRoundPairs, config.topBottomWeight⟩ with
  | some r =>
      simp only [hnr]
      rw [buildPairingResult_countP_isBye]
      by_cases hodd : players.length % 2 = 1
      · simp [hodd, hbye.mpr hodd]
      · simp only [hodd, if_false]
        rw [if_neg]
        intro hs
        exact hodd (hbye.mp hs)
  | none =>
      simp only [hnr]
      rw [buildPairingResult_countP_isBye]
      by_cases hodd : players.length % 2 = 1
      · simp [hodd, hbye.mpr hodd]
      · simp only [hodd, if_false]
        rw [if_neg]
        intro hs
        exact hodd (hbye.mp hs)

/-! ## Tiny pools (C7) -/

theorem generateSwissPairings_nil (roundNumber : Nat) (rounds : List Round)
    (options : SwissOptions) :
    generateSwissPairings [] roundNumber rounds options = some ⟨[], 0, 0⟩ := by
  unfold generateSwissPairings groupPlayersByScore solveScoreGroups solveGroupIndex
  simp [sortBy]

theorem chooseBye_nil (h : History) : chooseBye [] h = none := by
  unfold chooseBye
  simp

theorem generateSwissRound_nil (roundNumber : Nat) (rounds : List Round)
    (config : SwissConfig) :
    generateSwissRound [] roundNumber rounds config =
      ⟨[], false, 0, none⟩ := by
  simp only [generateSwissRound]
  rw [chooseBye_nil]
  simp only []
  rw [generateSwissPairings_nil]
  unfold buildPairingResult
  simp

theorem chooseBye_singleton (p : Player) (h : History) :
    chooseBye [p] h = some p := by
  unfold chooseBye
  simp only [List.length_singleton]
  rw [if_neg (by omega)]
  simp only [sortBy, insertSorted]
  by_cases hb : h.byeCounts p.id = 0
  · simp [List.find?, hb]
  · simp [List.find?, hb, Option.orElse]

theorem generateSwissRound_singleton (p : Player) (roundNumber : Nat) (rounds : List Round)
    (config : SwissConfig) :
    generateSwissRound [p] roundNumber rounds config =
      ⟨[⟨playerRef p, none, 1, p.id, none, false, true⟩], false, 0, none⟩ := by
  simp only [generateSwissRound]
  rw [chooseBye_singleton]
  simp only []
  rw [show List.filter (fun q => decide (q.id ≠ p.id)) [p] = [] by simp]
  rw [generateSwissPairings_nil]
  unfold buildPairingResult
  simp

/-- C7 counterexample: a singleton pool makes `generateSwissRound` return a
result whose pairings list holds the bye entry, not the empty list the
claim demands. -/
theorem c7_counterexample :
    (generateSwissRound [⟨7, "solo", 0, 0, 0, [], []⟩] 1 [] ⟨none, 0⟩).pairings ≠ [] := by
  rw [generateSwissRound_singleton]
  simp

/-- C7 (amended): a pool of size 0 yields the empty pairing result from
`generateSwissRound`, and `SwissPairing.generatePairings` yields the empty
result for any pool of size `< 2`; but `generateSwissRound` on a singleton
pool returns the single bye entry for that competitor (with
`forcedRepeat = false` and `repeatCount = 0`); no case is an error. -/
theorem c7_small_pools (p : Player) (roundNumber : Nat) (rounds : List Round)
    (config : SwissConfig) (players : List Player) (allPlayers : Option (List Player))
    (hsmall : players.length < 2) :
    generateSwissRound [] roundNumber rounds config = ⟨[], false, 0, none⟩ ∧
    generateSwissRound [p] roundNumber rounds config =
      ⟨[⟨playerRef p, none, 1, p.id, none, false, true⟩], false, 0, none⟩ ∧
    SwissPairing.generatePairings players roundNumber allPlayers rounds =
      ⟨[], false, 0, none⟩ := by
  refine ⟨generateSwissRound_nil roundNumber rounds config,
    generateSwissRound_singleton p roundNumber rounds config, ?_⟩
  unfold SwissPairing.generatePairings
  rw [if_pos hsmall]

/-- Closed instance of `c7_small_pools`. -/
theorem c7_small_pools_witness :
    ([(⟨7, "solo", 0, 0, 0, [], []⟩ : Player)].length < 2 → False) ∨
    (generateSwissRound [] 1 [] ⟨none, 0⟩ = ⟨[], false, 0, none⟩ ∧
      SwissPairing.generatePairings [⟨7, "solo", 0, 0, 0, [], []⟩] 1 none [] =
        ⟨[], false, 0, none⟩) := by
  refine Or.inr ⟨?_, ?_⟩
  · exact (c7_small_pools ⟨7, "solo", 0, 0, 0, [], []⟩ 1 [] ⟨none, 0⟩ [] none (by decide)).1
  · exact (c7_small_pools ⟨7, "solo", 0, 0, 0, [], []⟩ 1 [] ⟨none, 0⟩
      [⟨7, "solo", 0, 0, 0, [], []⟩] none (by decide)).2.2

/-! ## Color assignment symmetry (C5) -/

theorem assignColors_even_comm (x y : Player) (r : Nat) (hr : r % 2 = 0) (hid : x.id ≠ y.id) :
    assignColors x y r = assignColors y x r := by
  have hodd : ¬ (r % 2 = 1) := by omega
  have hkey : ¬(((x.id : ℤ) - (y.id : ℤ) ≤ 0) ∧ ((y.id : ℤ) - (x.id : ℤ) ≤ 0)) := by
    rintro ⟨a, b⟩
    exact hid (by exact_mod_cast le_antisymm (sub_nonpos.mp a) (sub_nonpos.mp b))
  simp only [assignColors, compareIds, hodd, if_false]
  split_ifs <;>
    first
      | rfl
      | omega
      | (exfalso; exact hkey ⟨by assumption, by assumption⟩)
      | (exfalso; simp_all)

theorem swissPairing_assignColors_even_comm (x y : Player) (r : Nat) (hr : r % 2 = 0)
    (hid : x.id ≠ y.id) :
    SwissPairing.assignColors x y r = SwissPairing.assignColors y x r := by
  have hodd : ¬ (r % 2 = 1) := by omega
  have hkey : ∀ (_ : ¬(x.id < y.id)) (_ : ¬(y.id < x.id)), False := fun a b =>
    hid (le_antisymm (Nat.not_lt.mp b) (Nat.not_lt.mp a))
  simp only [SwissPairing.assignColors, hodd, if_false]
  split_ifs <;>
    first
      | rfl
      | omega
      | (exfalso; exact hkey (by assumption) (by assumption))
      | (exfalso; exact Nat.lt_asymm (by assumption) (by assumption))
      | (exfalso; simp_all)

/-- C5 counterexample: on an odd round with equal color balances, two
competitors whose most recent color is the same (here both `black`, with
histories `[white, black]`, so neither "needs opposite") receive opposite
white-role choices when the argument order is swapped. -/
theorem c5_counterexample :
    (assignColors ⟨1, "x", 0, 0, 0, [Color.white, Color.black], []⟩
        ⟨2, "y", 0, 0, 0, [Color.white, Color.black], []⟩ 3).white ≠
      (assignColors ⟨2, "y", 0, 0, 0, [Color.white, Color.black], []⟩
        ⟨1, "x", 0, 0, 0, [Color.white, Color.black], []⟩ 3).white := by
  with_unfolding_all decide

/-- C5 (amended): `assignColors` is order-independent under role swap
except in the odd-round equal-balance tie-break, which consults only the
first argument's most recent color; in particular on every even round
number both `assignColors` and `SwissPairing.assignColors` return the very
same `{white, black}` assignment for swapped arguments (distinct ids). -/
theorem c5_assign_colors_even_symm (x y : Player) (r : Nat) (hr : r % 2 = 0)
    (hid : x.id ≠ y.id) :
    assignColors x y r = assignColors y x r ∧
    SwissPairing.assignColors x y r = SwissPairing.assignColors y x r :=
  ⟨assignColors_even_comm x y r hr hid, swissPairing_assignColors_even_comm x y r hr hid⟩

/-- Closed instance of `c5_assign_colors_even_symm`. -/
theorem c5_assign_colors_even_symm_witness :
    (2 % 2 = 0 ∧ (1 : PlayerId) ≠ 2) ∧
    assignColors ⟨1, "x", 0, 0, 0, [Color.white, Color.black], []⟩
        ⟨2, "y", 0, 1, 0, [], []⟩ 2 =
      assignColors ⟨2, "y", 0, 1, 0, [], []⟩
        ⟨1, "x", 0, 0, 0, [Color.white, Color.black], []⟩ 2 :=
  ⟨⟨by decide, by decide⟩,
    (c5_assign_colors_even_symm ⟨1, "x", 0, 0, 0, [Color.white, Color.black], []⟩
      ⟨2, "y", 0, 1, 0, [], []⟩ 2 (by decide) (by decide)).1⟩

/-! ## Cost tier dominance (C6) -/

/-- C6 counterexample: the score-gap tier is unbounded, so a repeat does
not always dominate it — a non-repeat pairing with score gap `2000` costs
`2000000`, more than the `1000000` of a zero-gap repeat pairing. -/
theorem c6_counterexample :
    calculatePairCost ⟨1, "a", 0, 2000, 0, [], []⟩ ⟨2, "b", 0, 0, 0, [], []⟩
        ⟨1, 2000, false, false, 0⟩ >
      calculatePairCost ⟨3, "c", 0, 0, 0, [], []⟩ ⟨4, "d", 0, 0, 0, [], []⟩
        ⟨1, 0, true, false, 0⟩ := by
  with_unfolding_all decide

/-- C6 (amended): the strict tier dominance asserted by the claim holds
only on bounded inputs, since the score-gap and color-balance
contributions are unbounded.  For pairs whose repeat-free side has score
gap at most `900`, color-balance-sum magnitude at most `90` and seed
penalty at most `90`: any pairing cost carrying the repeat flag exceeds
any cost carrying neither repeat flag, and any cost carrying the
consecutive-repeat flag exceeds any cost without it (even one with the
plain repeat flag). -/
theorem c6_bounded_tier_dominance (pa pb qa qb : Player) (ca cb : PairContext)
    (hgapA : ca.scoreGap ≤ 900)
    (hbalA : (((pa.colorBalance + pb.colorBalance).natAbs : ℚ)) ≤ 90)
    (htbA : ca.topBottomPenalty ≤ 90)
    (hgapB : 0 ≤ cb.scoreGap) (htbB : 0 ≤ cb.topBottomPenalty) :
    (cb.isRepeat = true → ca.isRepeat = false → ca.isConsecutiveRepeat = false →
      calculatePairCost qa qb cb > calculatePairCost pa pb ca) ∧
    (cb.isConsecutiveRepeat = true → ca.isConsecutiveRepeat = false →
      calculatePairCost qa qb cb > calculatePairCost pa pb ca) := by
  have hnnB : (0 : ℚ) ≤ ((qa.colorBalance + qb.colorBalance).natAbs : ℚ) := by positivity
  have hnnA : (0 : ℚ) ≤ ((pa.colorBalance + pb.colorBalance).natAbs : ℚ) := by positivity
  unfold calculatePairCost
  constructor
  · intro hbr har harc
    simp only [SCORE_GAP_WEIGHT, COLOR_BALANCE_WEIGHT, STREAK_WEIGHT, REPEAT_WEIGHT,
      CONSECUTIVE_REPEAT_WEIGHT]
    simp [hbr, har, harc]
    split_ifs <;> first | linarith | simp_all
  · intro hbc hac
    simp only [SCORE_GAP_WEIGHT, COLOR_BALANCE_WEIGHT, STREAK_WEIGHT, REPEAT_WEIGHT,
      CONSECUTIVE_REPEAT_WEIGHT]
    simp [hbc, hac]
    split_ifs <;> first | linarith | simp_all

/-- Closed instance of `c6_bounded_tier_dominance`. -/
theorem c6_bounded_tier_dominance_witness :
    calculatePairCost ⟨3, "c", 0, 0, 0, [], []⟩ ⟨4, "d", 0, 0, 0, [], []⟩
        ⟨1, 0, true, false, 0⟩ >
      calculatePairCost ⟨1, "a", 0, 1, 0, [], []⟩ ⟨2, "b", 0, 0, 0, [], []⟩
        ⟨1, 1, false, false, 0⟩ :=
  (c6_bounded_tier_dominance ⟨1, "a", 0, 1, 0, [], []⟩ ⟨2, "b", 0, 0, 0, [], []⟩
      ⟨3, "c", 0, 0, 0, [], []⟩ ⟨4, "d", 0, 0, 0, [], []⟩
      ⟨1, 1, false, false, 0⟩ ⟨1, 0, true, false, 0⟩
      (by norm_num) (by norm_num) (by norm_num) (by norm_num) (by norm_num)).1
    rfl rfl rfl

/-! ## Determinism (C3) -/

theorem sortRounds_eq_of_perm {rounds₁ rounds₂ : List Round} (hperm : rounds₁.Perm rounds₂)
    (hn : (rounds₁.map Round.roundNumber).Nodup) :
    sortRoundsByNumber rounds₁ = sortRoundsByNumber rounds₂ :=
  sortBy_eq_of_perm roundsLE_keyed hperm hn

theorem buildHistory_eq_of_perm {rounds₁ rounds₂ : List Round} (hperm : rounds₁.Perm rounds₂)
    (hn : (rounds₁.map Round.roundNumber).Nodup) :
    buildHistory rounds₁ = buildHistory rounds₂ := by
  have he : rounds₁.isEmpty = rounds₂.isEmpty := by
    rcases h1 : rounds₁ with _ | ⟨a, l⟩
    · rw [h1] at hperm
      rw [hperm.nil_eq.symm]
    · rcases h2 : rounds₂ with _ | ⟨b, m⟩
      · rw [h1, h2] at hperm
        exact absurd hperm.symm.nil_eq (by simp)
      · rfl
  unfold buildHistory
  rw [he, sortRounds_eq_of_perm hperm hn]

/-- `generateSwissPairings` never reads its `rounds` argument. -/
theorem generateSwissPairings_rounds_irrel (players : List Player) (roundNumber : Nat)
    (rounds : List Round) (options : SwissOptions) :
    generateSwissPairings players roundNumber rounds options =
      generateSwissPairings players roundNumber [] options := rfl

/-- C3: the engine is deterministic — syntactically equal inputs give equal
results, and moreover the result does not depend on the order in which the
prior rounds are listed (their multiset determines the outcome when round
numbers are distinct), so no iteration-order nondeterminism can leak into
the result. -/
theorem c3_determinism (players₁ players₂ : List Player) (r₁ r₂ : Nat)
    (rounds₁ rounds₂ rounds₂' : List Round) (cfg₁ cfg₂ : SwissConfig)
    (hp : players₁ = players₂) (hr : r₁ = r₂) (hro : rounds₁ = rounds₂) (hc : cfg₁ = cfg₂) :
    generateSwissRound players₁ r₁ rounds₁ cfg₁ = generateSwissRound players₂ r₂ rounds₂ cfg₂ ∧
    (rounds₁.Perm rounds₂' → (rounds₁.map Round.roundNumber).Nodup →
      generateSwissRound players₁ r₁ rounds₁ cfg₁ =
        generateSwissRound players₁ r₁ rounds₂' cfg₁) := by
  subst hp hr hro hc
  refine ⟨rfl, fun hperm hn => ?_⟩
  simp only [generateSwissRound]
  rw [buildHistory_eq_of_perm hperm hn]
  simp only [generateSwissPairings_rounds_irrel]

/-- Closed instance of `c3_determinism`: swapping the two history rounds
changes nothing. -/
theorem c3_determinism_witness :
    generateSwissRound
        [⟨1, "a", 0, 1, 1, [Color.white], []⟩, ⟨2, "b", 0, 1, -1, [Color.black], []⟩,
         ⟨3, "c", 0, 1, 1, [Color.white], []⟩, ⟨4, "d", 0, 1, -1, [Color.black], []⟩] 3
        [⟨1, [⟨some ⟨1, "a", 0⟩, some ⟨2, "b", 0⟩, false, some 1, some .p1win⟩], true⟩,
         ⟨2, [⟨some ⟨3, "c", 0⟩, some ⟨4, "d", 0⟩, false, some 3, some .p1win⟩], true⟩]
        ⟨none, 0⟩ =
      generateSwissRound
        [⟨1, "a", 0, 1, 1, [Color.white], []⟩, ⟨2, "b", 0, 1, -1, [Color.black], []⟩,
         ⟨3, "c", 0, 1, 1, [Color.white], []⟩, ⟨4, "d", 0, 1, -1, [Color.black], []⟩] 3
        [⟨2, [⟨some ⟨3, "c", 0⟩, some ⟨4, "d", 0⟩, false, some 3, some .p1win⟩], true⟩,
         ⟨1, [⟨some ⟨1, "a", 0⟩, some ⟨2, "b", 0⟩, false, some 1, some .p1win⟩], true⟩]
        ⟨none, 0⟩ :=
  (c3_determinism _ _ 3 3 _ _
      [⟨2, [⟨some ⟨3, "c", 0⟩, some ⟨4, "d", 0⟩, false, some 3, some .p1win⟩], true⟩,
       ⟨1, [⟨some ⟨1, "a", 0⟩, some ⟨2, "b", 0⟩, false, some 1, some .p1win⟩], true⟩]
      ⟨none, 0⟩ ⟨none, 0⟩ rfl rfl rfl rfl).2
    (by decide) (by decide)

/-! ## Bye processing in the standings aggregator (C10) -/

theorem updateFirst_length (l : List StandPlayer) (pid : PlayerId) (f : StandPlayer → StandPlayer) :
    (updateFirst l pid f).length = l.length := by
  induction l with
  | nil => rfl
  | cons p rest ih =>
      unfold updateFirst
      split <;> simp [ih]

theorem mem_updateFirst_of_ne {l : List StandPlayer} {pid : PlayerId}
    {f : StandPlayer → StandPlayer} {p : StandPlayer} (hp : p ∈ l) (hne : p.id ≠ pid) :
    p ∈ updateFirst l pid f := by
  induction l with
  | nil => simp at hp
  | cons q rest ih =>
      unfold updateFirst
      rcases List.mem_cons.mp hp with h | h
      · subst h
        rw [if_neg hne]
        exact List.mem_cons_self _ _
      · split
        · exact List.mem_cons_of_mem _ h
        · exact List.mem_cons_of_mem _ (ih h)

theorem mem_updateFirst_self {l : List StandPlayer} {pid : PlayerId}
    {f : StandPlayer → StandPlayer} {p : StandPlayer} (hp : p ∈ l) (hpid : p.id = pid)
    (hn : (l.map (fun x => x.id)).Nodup) : f p ∈ updateFirst l pid f := by
  induction l with
  | nil => simp at hp
  | cons q rest ih =>
      unfold updateFirst
      rcases List.mem_cons.mp hp with h | h
      · subst h
        rw [if_pos hpid]
        exact List.mem_cons_self _ _
      · by_cases hq : q.id = pid
        · -- the id pid would occur twice, contradicting Nodup
          exfalso
          rw [List.map_cons, List.nodup_cons] at hn
          exact hn.1 (by rw [hq, ← hpid]; exact List.mem_map_of_mem _ h)
        · rw [if_neg hq]
          rw [List.map_cons, List.nodup_cons] at hn
          exact List.mem_cons_of_mem _ (ih h hn.2)

/-- C10: processing a bye entry adds exactly one point, one win and one
game to the bye competitor, appends `white` to their color history, and
leaves their color balance, losses, draws and previous opponents — and
every other competitor — unchanged. -/
theorem c10_bye_frame_effect (players : List StandPlayer) (pairing : HPairing)
    (bref : PairingRef) (hbye : pairing.isBye = true) (hp1 : pairing.player1 = some bref)
    (hn : (players.map (fun x => x.id)).Nodup) :
    (applyStandPairing players pairing).length = players.length ∧
    (∀ p ∈ players, p.id ≠ bref.id → p ∈ applyStandPairing players pairing) ∧
    (∀ p ∈ players, p.id = bref.id →
      ∃ q ∈ applyStandPairing players pairing,
        q.id = p.id ∧ q.name = p.name ∧ q.rating = p.rating ∧
        q.score = p.score + 1 ∧ q.wins = p.wins + 1 ∧
        q.gamesPlayed = p.gamesPlayed + 1 ∧
        q.colorHistory = p.colorHistory ++ [Color.white] ∧
        q.colorBalance = p.colorBalance ∧ q.losses = p.losses ∧
        q.draws = p.draws ∧ q.previousOpponents = p.previousOpponents) := by
  have happ : applyStandPairing players pairing =
      updateFirst players bref.id (fun player =>
        { player with
          score := player.score + 1
          wins := player.wins + 1
          gamesPlayed := player.gamesPlayed + 1
          colorHistory := player.colorHistory ++ [Color.white] }) := by
    unfold applyStandPairing
    rw [if_pos hbye, hp1]
  rw [happ]
  refine ⟨updateFirst_length _ _ _, fun p hp hne => mem_updateFirst_of_ne hp hne,
    fun p hp hpid => ?_⟩
  refine ⟨_, mem_updateFirst_self hp hpid hn, ?_⟩
  simp

/-- Closed instance of `c10_bye_frame_effect`. -/
theorem c10_bye_frame_effect_witness :
    ([⟨5, "e", 0, 2, -1, [Color.black], [3], 2, 0, 0, 2⟩,
      ⟨6, "f", 0, 1, 1, [Color.white], [4], 1, 1, 0, 2⟩] :
        List StandPlayer).length =
      (applyStandPairing
        [⟨5, "e", 0, 2, -1, [Color.black], [3], 2, 0, 0, 2⟩,
         ⟨6, "f", 0, 1, 1, [Color.white], [4], 1, 1, 0, 2⟩]
        ⟨some ⟨5, "e", 0⟩, none, true, some 5, some .p1win⟩).length := by
  have h := c10_bye_frame_effect
    [⟨5, "e", 0, 2, -1, [Color.black], [3], 2, 0, 0, 2⟩,
     ⟨6, "f", 0, 1, 1, [Color.white], [4], 1, 1, 0, 2⟩]
    ⟨some ⟨5, "e", 0⟩, none, true, some 5, some .p1win⟩ ⟨5, "e", 0⟩
    rfl rfl (by decide)
  exact h.1.symm

/-! ## Standings aggregation (C9) -/

theorem foldRounds_filter_completed (rounds : List Round) (ps : List StandPlayer) :
    rounds.foldl
      (fun players round =>
        if !round.completed then players
        else round.pairings.foldl applyStandPairing players) ps =
    (rounds.filter (fun r => r.completed)).foldl
      (fun players round =>
        if !round.completed then players
        else round.pairings.foldl applyStandPairing players) ps := by
  induction rounds generalizing ps with
  | nil => rfl
  | cons r rest ih =>
      rw [List.foldl_cons, List.filter_cons]
      cases hc : r.completed with
      | false =>
          rw [if_pos (show (!false) = true from rfl), if_neg (show ¬(false = true) by simp)]
          exact ih ps
      | true =>
          rw [if_neg (show ¬((!true) = true) by simp),
            if_pos (show true = true from rfl), List.foldl_cons]
          rw [hc, if_neg (by simp)]
          exact ih _

/-- `calculateStandings` replays exactly the completed rounds. -/
theorem calculateStandings_filter (t : Tournament) :
    calculateStandings t =
      calculateStandings ⟨t.players, t.rounds.filter (fun r => r.completed)⟩ := by
  simp only [calculateStandings]
  rw [foldRounds_filter_completed]

theorem pairwise_enumFrom {R : α → α → Prop} {l : List α} (h : l.Pairwise R) (n : Nat) :
    (l.enumFrom n).Pairwise (fun a b => R a.2 b.2) := by
  induction l generalizing n with
  | nil => simp
  | cons a l ih =>
      rw [List.enumFrom_cons, List.pairwise_cons]
      rcases List.pairwise_cons.mp h with ⟨ha, hl⟩
      refine ⟨fun b hb => ?_, ih hl (n + 1)⟩
      refine ha b.2 ?_
      have h3 := (List.mem_enumFrom hb).2.2
      rw [h3]
      exact List.getElem_mem _

theorem pairwise_enum {R : α → α → Prop} {l : List α} (h : l.Pairwise R) :
    l.enum.Pairwise (fun a b => R a.2 b.2) :=
  pairwise_enumFrom h 0

theorem applyStandPairing_length (players : List StandPlayer) (pairing : HPairing) :
    (applyStandPairing players pairing).length = players.length := by
  unfold applyStandPairing
  split
  · split <;> simp [updateFirst_length]
  · split
    · split
      · split
        · split
          · simp only [updateFirst_length]
          · split <;> simp only [updateFirst_length]
        · split
          · simp only [updateFirst_length]
          · split <;> simp only [updateFirst_length]
      · rfl
    · rfl

theorem foldPairings_length (pairings : List HPairing) (ps : List StandPlayer) :
    (pairings.foldl applyStandPairing ps).length = ps.length := by
  induction pairings generalizing ps with
  | nil => rfl
  | cons p rest ih => rw [List.foldl_cons, ih, applyStandPairing_length]

theorem foldRounds_length (rounds : List Round) (ps : List StandPlayer) :
    (rounds.foldl
      (fun players round =>
        if !round.completed then players
        else round.pairings.foldl applyStandPairing players) ps).length = ps.length := by
  induction rounds generalizing ps with
  | nil => rfl
  | cons r rest ih =>
      rw [List.foldl_cons, ih]
      split
      · rfl
      · exact foldPairings_length _ _

theorem enumFrom_ranks (l : List α) (n : Nat) :
    ((l.enumFrom n).map (fun ip => ip.1 + 1)) = List.range' (n + 1) l.length := by
  induction l generalizing n with
  | nil => rfl
  | cons a l ih =>
      rw [List.enumFrom_cons, List.map_cons, List.length_cons, List.range'_succ, ih]

theorem enum_ranks (l : List α) :
    (l.enum.map (fun ip => ip.1 + 1)) = List.range' 1 l.length :=
  enumFrom_ranks l 0

/-- C9: `calculateStandings` replays exactly the completed rounds in list
order, sorts by (score desc, rating desc with absent rating as 0, color
balance desc) and assigns the distinct dense ranks `1..N`. -/
theorem c9_standings (t : Tournament) :
    calculateStandings t =
      calculateStandings ⟨t.players, t.rounds.filter (fun r => r.completed)⟩ ∧
    (calculateStandings t).Pairwise (fun a b => rankedKey a ≤ rankedKey b) ∧
    (calculateStandings t).map (fun p => p.rank) = List.range' 1 t.players.length ∧
    (calculateStandings t).length = t.players.length := by
  refine ⟨calculateStandings_filter t, ?_, ?_, ?_⟩
  · simp only [calculateStandings]
    refine List.Pairwise.map rankPlayer ?_
      (pairwise_enum (pairwise_sortBy standingsSortLE_keyed _))
    intro a b hab
    exact hab
  · simp only [calculateStandings]
    rw [List.map_map]
    have hcomp : ((fun p : RankedPlayer => p.rank) ∘ rankPlayer) =
        (fun ip : Nat × StandPlayer => ip.1 + 1) := rfl
    rw [hcomp, enum_ranks]
    congr 1
    rw [(sortBy_perm standingsSortLE _).length_eq, foldRounds_length, List.length_map]
  · simp only [calculateStandings]
    rw [List.length_map, List.enum_length,
      (sortBy_perm standingsSortLE _).length_eq, foldRounds_length, List.length_map]

/-! ## Helper lemmas for the solver proofs -/

theorem foldl_preserve {l : List α} {f : β → α → β} (P : β → Prop) {b0 : β}
    (h0 : P b0) (hstep : ∀ b, ∀ a ∈ l, P b → P (f b a)) : P (l.foldl f b0) := by
  induction l generalizing b0 with
  | nil => exact h0
  | cons a l ih =>
      rw [List.foldl_cons]
      exact ih (hstep b0 a (List.mem_cons_self a l) h0)
        (fun b x hx hb => hstep b x (List.mem_cons_of_mem a hx) hb)

/-- If some element of the list turns `none` into `some`, and every step
preserves `some`, the fold ends in `some`. -/
theorem foldl_isSome_of_mem {l : List α} {f : Option β → α → Option β} {c : α}
    (hc : c ∈ l) (h1 : (f none c).isSome)
    (hmono : ∀ acc, ∀ a ∈ l, acc.isSome → (f acc a).isSome) {init : Option β} :
    (l.foldl f init).isSome := by
  induction l generalizing init with
  | nil => simp at hc
  | cons a l ih =>
      rw [List.foldl_cons]
      rcases List.mem_cons.mp hc with h | h
      · subst h
        refine foldl_preserve _ ?_ (fun b x hx hb => hmono b x (List.mem_cons_of_mem _ hx) hb)
        cases init with
        | none => exact h1
        | some v => exact hmono (some v) _ (List.mem_cons_self _ _) (by simp)
      · exact ih h (fun acc x hx hacc => hmono acc x (List.mem_cons_of_mem _ hx) hacc)

theorem pairKey_comm (a b : Nat) : pairKey a b = pairKey b a := by
  unfold pairKey compareIds
  rcases Nat.lt_trichotomy a b with h | h | h
  · rw [if_pos (by push_cast; omega), if_neg (by push_cast; omega)]
  · subst h
    rfl
  · rw [if_neg (by push_cast; omega), if_pos (by push_cast; omega)]

theorem assignColors_cases (p q : Player) (r : Nat) :
    assignColors p q r = ⟨p, q⟩ ∨ assignColors p q r = ⟨q, p⟩ := by
  simp only [assignColors]
  split_ifs <;> try first | exact Or.inl rfl | exact Or.inr rfl
  all_goals rcases (getLastColors p 2).getLast? with _ | c
  all_goals try first | exact Or.inl rfl | exact Or.inr rfl
  all_goals cases c
  all_goals first | exact Or.inl rfl | exact Or.inr rfl

/-- Filtering away one id of a nodup-id list removes exactly that member. -/
theorem perm_cons_filter_ne {l : List Player} {a : Player}
    (hn : (l.map (fun p => p.id)).Nodup) (ha : a ∈ l) :
    l.Perm (a :: l.filter (fun p => decide (p.id ≠ a.id))) := by
  induction l with
  | nil => simp at ha
  | cons x l ih =>
      rw [List.map_cons, List.nodup_cons] at hn
      rcases List.mem_cons.mp ha with h | h
      · rw [h]
        have hfl : l.filter (fun p => decide (p.id ≠ x.id)) = l := by
          refine List.filter_eq_self.mpr (fun p hp => ?_)
          simp only [decide_eq_true_iff]
          intro hid
          exact hn.1 (hid ▸ List.mem_map_of_mem _ hp)
        rw [List.filter_cons]
        rw [show (decide (x.id ≠ x.id)) = false by simp]
        simp only [Bool.false_eq_true, if_false, hfl]
        exact List.Perm.refl _
      · have hxa : x.id ≠ a.id := by
          intro hid
          exact hn.1 (hid ▸ List.mem_map_of_mem _ h)
        rw [List.filter_cons, if_pos (by simpa using hxa)]
        exact ((ih hn.2 h).cons x).trans (List.Perm.swap a x _)

/-- The id multiset of a sub-collection of a nodup-id collection is nodup. -/
theorem nodup_ids_of_append_perm {A B full : List Player}
    (hperm : (A ++ B).Perm full) (hn : (full.map (fun p => p.id)).Nodup) :
    (B.map (fun p => p.id)).Nodup := by
  have h1 : ((A ++ B).map (fun p => p.id)).Nodup := (hperm.map _).symm.nodup hn
  rw [List.map_append] at h1
  exact h1.of_append_right

theorem nodup_ids_of_perm {A full : List Player} (hperm : A.Perm full)
    (hn : (full.map (fun p => p.id)).Nodup) : (A.map (fun p => p.id)).Nodup :=
  (hperm.map _).symm.nodup hn

theorem perm_getD_cons_eraseIdx {l : List Player} {i : Nat} (h : i < l.length) :
    l.Perm (l.getD i default :: l.eraseIdx i) := by
  induction l generalizing i with
  | nil => simp at h
  | cons x t ih =>
      cases i with
      | zero => exact List.Perm.refl _
      | succ j =>
          have hj : j < t.length := by simpa using h
          have := (ih hj).cons x
          simp only [List.getD_cons_succ, List.eraseIdx_cons_succ]
          exact this.trans (List.Perm.swap _ x _)

theorem mcfIndex_lt (ctx : GroupContext) (remaining : List Player) (h : remaining ≠ []) :
    mcfIndex ctx remaining < remaining.length := by
  obtain ⟨p, rest, rfl⟩ := List.exists_cons_of_ne_nil h
  unfold mcfIndex
  rw [List.enum_cons]
  rw [List.foldl_cons]
  have hstart :
      ((0 : Nat), (none : Option Nat)).2 = none := rfl
  refine (foldl_preserve (fun acc : Nat × Option Nat =>
    acc.2.isSome ∧ acc.1 < (p :: rest).length) ?_ ?_).2
  · constructor
    · simp
    · simp
  · intro b a ha hb
    have hidx : a.1 < (p :: rest).length := by
      have := (List.mem_enumFrom ha).2.1
      simp only [List.length_cons]
      omega
    rcases hb2 : b.2 with _ | bc
    · rw [hb2] at hb
      simp at hb
    · simp only [hb2]
      split
      · exact ⟨by simp, hidx⟩
      · exact hb

theorem backtrack_isSome_mono (ctx : GroupContext) :
    ∀ (fuel : Nat) (remaining : List Player) (cur : List RawPair) (cost : ℚ) (rc : Nat)
      (best : Option SolveResult), best.isSome →
      (backtrack ctx fuel remaining cur cost rc best).isSome := by
  intro fuel
  induction fuel with
  | zero =>
      intro remaining cur cost rc best hb
      cases remaining with
      | nil =>
          obtain ⟨b, rfl⟩ := Option.isSome_iff_exists.mp hb
          simp only [backtrack]
          split <;> simp
      | cons p rest => simpa [backtrack] using hb
  | succ n ih =>
      intro remaining cur cost rc best hb
      cases remaining with
      | nil =>
          obtain ⟨b, rfl⟩ := Option.isSome_iff_exists.mp hb
          simp only [backtrack]
          split <;> simp
      | cons p rest =>
          simp only [backtrack]
          split
          · exact hb
          · refine foldl_preserve (fun acc : Option SolveResult => acc.isSome = true)
              hb ?_
            intro acc cand hcand hacc
            dsimp only
            split <;> split <;> first | exact hacc | exact ih _ _ _ _ _ hacc

theorem availableOpponents_subset (ctx : GroupContext) (player : Player)
    {candidates : List Player} {x : Player}
    (hx : x ∈ availableOpponents ctx player candidates) : x ∈ candidates := by
  unfold availableOpponents at hx
  split at hx
  · exact hx
  · exact List.mem_of_mem_filter hx

theorem availableOpponents_not_opp (ctx : GroupContext) (player : Player)
    {candidates : List Player} {x : Player} (hmode : ctx.allowRepeats = false)
    (hx : x ∈ availableOpponents ctx player candidates) :
    (ctx.opponentsMap player.id).contains x.id = false := by
  unfold availableOpponents at hx
  rw [hmode] at hx
  simp only [Bool.false_eq_true, if_false] at hx
  have := List.of_mem_filter hx
  simpa using this

theorem pairsFlat_append_single (l : List RawPair) (x : RawPair) :
    pairsFlat (l ++ [x]) = pairsFlat l ++ [x.white, x.black] := by
  unfold pairsFlat
  rw [List.flatMap_append]
  rfl

theorem candidate_mem_map (ctx : GroupContext) (player : Player) {available : List Player}
    {cand : Candidate}
    (hcand : cand ∈ sortBy candLE (available.map (buildCandidate ctx player))) :
    ∃ opp ∈ available, cand = buildCandidate ctx player opp := by
  have h1 : cand ∈ available.map (buildCandidate ctx player) :=
    (sortBy_perm candLE _).subset hcand
  obtain ⟨opp, ho, he⟩ := List.mem_map.mp h1
  exact ⟨opp, ho, he.symm⟩

theorem buildCandidate_roles (ctx : GroupContext) (player opp : Player) :
    ((buildCandidate ctx player opp).white = player ∧
      (buildCandidate ctx player opp).black = opp) ∨
    ((buildCandidate ctx player opp).white = opp ∧
      (buildCandidate ctx player opp).black = player) := by
  simp only [buildCandidate]
  rcases assignColors_cases player opp ctx.roundNumber with h | h <;> rw [h]
  · exact Or.inl ⟨rfl, rfl⟩
  · exact Or.inr ⟨rfl, rfl⟩

theorem buildCandidate_pairOk (ctx : GroupContext) {player opp : Player} {rest : List Player}
    (hav : opp ∈ availableOpponents ctx player rest) :
    PairOk ctx ⟨(buildCandidate ctx player opp).white, (buildCandidate ctx player opp).black,
      (buildCandidate ctx player opp).isRepeat⟩ := by
  have hrep : (buildCandidate ctx player opp).isRepeat =
      ctx.playedPairs.contains (pairKey player.id opp.id) := rfl
  rcases buildCandidate_roles ctx player opp with ⟨hw, hb⟩ | ⟨hw, hb⟩ <;>
    refine ⟨?_, fun hmode => ?_⟩
  · rw [hw, hb, hrep]
  · rw [hw, hb]
    exact Or.inl (availableOpponents_not_opp ctx player hmode hav)
  · rw [hw, hb, hrep, pairKey_comm]
  · rw [hw, hb]
    exact Or.inr (availableOpponents_not_opp ctx player hmode hav)

theorem buildCandidate_flat_perm (ctx : GroupContext) (player opp : Player) :
    ([(buildCandidate ctx player opp).white, (buildCandidate ctx player opp).black] :
      List Player).Perm [player, opp] := by
  rcases buildCandidate_roles ctx player opp with ⟨hw, hb⟩ | ⟨hw, hb⟩ <;> rw [hw, hb] <;>
    first
      | exact List.Perm.refl _
      | exact List.Perm.swap _ _ _

theorem backtrack_nil_resultOk (ctx : GroupContext) (full : List Player)
    (fuel : Nat) (cur : List RawPair) (cost : ℚ) (rc : Nat) (best : Option SolveResult)
    (hperm : (pairsFlat cur ++ ([] : List Player)).Perm full)
    (hrc : rc = cur.countP (fun pr => pr.isRepeat))
    (hcur : ∀ pr ∈ cur, PairOk ctx pr)
    (hbest : ∀ b, best = some b → ResultOk ctx full b) :
    ∀ b, backtrack ctx fuel [] cur cost rc best = some b → ResultOk ctx full b := by
  intro b hb
  cases best with
  | none =>
      have he : backtrack ctx fuel [] cur cost rc none = some ⟨cur, cost, rc⟩ := by
        cases fuel <;> rfl
      rw [he, Option.some_inj] at hb
      subst hb
      exact ⟨by simpa using hperm, hrc, hcur⟩
  | some b0 =>
      have he : backtrack ctx fuel [] cur cost rc (some b0) =
          if betterThan ctx.allowRepeats cost rc b0 then some ⟨cur, cost, rc⟩ else some b0 := by
        cases fuel <;> rfl
      rw [he] at hb
      split at hb <;> rw [Option.some_inj] at hb <;> subst hb
      · exact ⟨by simpa using hperm, hrc, hcur⟩
      · exact hbest b0 rfl

theorem backtrack_resultOk (ctx : GroupContext) (full : List Player)
    (hfull : (full.map (fun p => p.id)).Nodup) :
    ∀ (fuel : Nat) (remaining : List Player) (cur : List RawPair) (cost : ℚ) (rc : Nat)
      (best : Option SolveResult),
      (pairsFlat cur ++ remaining).Perm full →
      rc = cur.countP (fun pr => pr.isRepeat) →
      (∀ pr ∈ cur, PairOk ctx pr) →
      (∀ b0, best = some b0 → ResultOk ctx full b0) →
      ∀ b, backtrack ctx fuel remaining cur cost rc best = some b → ResultOk ctx full b := by
  intro fuel
  induction fuel with
  | zero =>
      intro remaining cur cost rc best hperm hrc hcur hbest b hb
      cases remaining with
      | nil => exact backtrack_nil_resultOk ctx full 0 cur cost rc best hperm hrc hcur hbest b hb
      | cons p rest =>
          have he : backtrack ctx 0 (p :: rest) cur cost rc best = best := rfl
          rw [he] at hb
          exact hbest b hb
  | succ n ih =>
      intro remaining cur cost rc best hperm hrc hcur hbest b hb
      cases remaining with
      | nil =>
          exact backtrack_nil_resultOk ctx full (n + 1) cur cost rc best hperm hrc hcur hbest b hb
      | cons p rest =>
          simp only [backtrack] at hb
          set player := (p :: rest).getD (mcfIndex ctx (p :: rest)) default with hplayer
          set rest1 := (p :: rest).eraseIdx (mcfIndex ctx (p :: rest)) with hrest1
          have hpr : (p :: rest).Perm (player :: rest1) :=
            perm_getD_cons_eraseIdx (mcfIndex_lt ctx (p :: rest) (by simp))
          have hnodup : ((p :: rest).map (fun q => q.id)).Nodup :=
            nodup_ids_of_append_perm hperm hfull
          have hnodup1 : ((player :: rest1).map (fun q => q.id)).Nodup :=
            (hpr.map _).nodup hnodup
          have hrest1_nodup : (rest1.map (fun q => q.id)).Nodup := by
            rw [List.map_cons, List.nodup_cons] at hnodup1
            exact hnodup1.2
          split at hb
          · exact hbest b hb
          · refine foldl_preserve (fun acc : Option SolveResult =>
              ∀ b0, acc = some b0 → ResultOk ctx full b0) hbest ?_ b hb
            intro acc cand hcand hP
            obtain ⟨opp, hoppav, rfl⟩ := candidate_mem_map ctx player hcand
            have hoppeq : (buildCandidate ctx player opp).opponent = opp := rfl
            rw [hoppeq]
            have hopp_rest : opp ∈ rest1 := availableOpponents_subset ctx player hoppav
            have hK2 : rest1.Perm (opp :: rest1.filter (fun q => decide (q.id ≠ opp.id))) :=
              perm_cons_filter_ne hrest1_nodup hopp_rest
            have hflatperm :
                (pairsFlat (cur ++ [⟨(buildCandidate ctx player opp).white,
                    (buildCandidate ctx player opp).black,
                    (buildCandidate ctx player opp).isRepeat⟩]) ++
                  rest1.filter (fun q => decide (q.id ≠ opp.id))).Perm full := by
              rw [pairsFlat_append_single, List.append_assoc]
              refine List.Perm.trans ?_ hperm
              refine List.Perm.append_left (pairsFlat cur) ?_
              refine List.Perm.trans ?_ hpr.symm
              have h1 := (buildCandidate_flat_perm ctx player opp).append_right
                (rest1.filter (fun q => decide (q.id ≠ opp.id)))
              refine h1.trans ?_
              exact (hK2.symm.cons player)
            have hcurok : ∀ pr ∈ cur ++ [⟨(buildCandidate ctx player opp).white,
                (buildCandidate ctx player opp).black,
                (buildCandidate ctx player opp).isRepeat⟩], PairOk ctx pr := by
              intro pr hpr2
              rcases List.mem_append.mp hpr2 with h | h
              · exact hcur pr h
              · rw [List.mem_singleton] at h
                subst h
                exact buildCandidate_pairOk ctx hoppav
            split
            · split
              · exact hP
              · intro b0 hb0
                refine ih _ _ _ _ acc hflatperm ?_ hcurok hP b0 hb0
                rename_i hrep _
                simp [List.countP_append, List.countP_cons, hrep, hrc]
            · split
              · exact hP
              · intro b0 hb0
                refine ih _ _ _ _ acc hflatperm ?_ hcurok hP b0 hb0
                rename_i hrep _
                simp [List.countP_append, List.countP_cons, hrep, hrc]

theorem backtrack_nil_isSome (ctx : GroupContext) (fuel : Nat) (cur : List RawPair)
    (cost : ℚ) (rc : Nat) (best : Option SolveResult) :
    (backtrack ctx fuel [] cur cost rc best).isSome := by
  cases best with
  | none =>
      have he : backtrack ctx fuel [] cur cost rc none = some ⟨cur, cost, rc⟩ := by
        cases fuel <;> rfl
      rw [he]
      rfl
  | some b0 =>
      have he : backtrack ctx fuel [] cur cost rc (some b0) =
          if betterThan ctx.allowRepeats cost rc b0 then some ⟨cur, cost, rc⟩ else some b0 := by
        cases fuel <;> rfl
      rw [he]
      split <;> rfl

theorem pruneBranch_none (a : Bool) (c : ℚ) (r : Nat) : pruneBranch a c r none = false := rfl

theorem backtrack_isSome_of_allowRepeats (ctx : GroupContext) (hmode : ctx.allowRepeats = true) :
    ∀ (fuel : Nat) (remaining : List Player) (cur : List RawPair) (cost : ℚ) (rc : Nat)
      (best : Option SolveResult),
      remaining.length % 2 = 0 →
      remaining.length ≤ fuel →
      (remaining.map (fun q => q.id)).Nodup →
      (backtrack ctx fuel remaining cur cost rc best).isSome := by
  intro fuel
  induction fuel with
  | zero =>
      intro remaining cur cost rc best heven hlen hnd
      cases remaining with
      | nil => exact backtrack_nil_isSome ctx 0 cur cost rc best
      | cons p rest => simp at hlen
  | succ n ih =>
      intro remaining cur cost rc best heven hlen hnd
      cases remaining with
      | nil => exact backtrack_nil_isSome ctx (n + 1) cur cost rc best
      | cons p rest =>
          simp only [backtrack]
          set player := (p :: rest).getD (mcfIndex ctx (p :: rest)) default with hplayer
          set rest1 := (p :: rest).eraseIdx (mcfIndex ctx (p :: rest)) with hrest1
          have hpr : (p :: rest).Perm (player :: rest1) :=
            perm_getD_cons_eraseIdx (mcfIndex_lt ctx (p :: rest) (by simp))
          have hnodup1 : ((player :: rest1).map (fun q => q.id)).Nodup := (hpr.map _).nodup hnd
          have hrest1_nodup : (rest1.map (fun q => q.id)).Nodup := by
            rw [List.map_cons, List.nodup_cons] at hnodup1
            exact hnodup1.2
          have hav : availableOpponents ctx player rest1 = rest1 := by
            unfold availableOpponents
            rw [hmode]
            simp
          rw [hav]
          have hlen1 : rest1.length = rest.length := by
            rw [hrest1, List.length_eraseIdx,
              if_pos (mcfIndex_lt ctx (p :: rest) (by simp))]
            simp
          have hne : rest1 ≠ [] := by
            intro h
            rw [h] at hlen1
            simp only [List.length_nil] at hlen1
            rw [List.length_cons, ← hlen1] at heven
            omega
          rw [if_neg (by simpa [List.isEmpty_iff] using hne)]
          have hsne : sortBy candLE (rest1.map (buildCandidate ctx player)) ≠ [] := by
            intro h
            have := (sortBy_perm candLE (rest1.map (buildCandidate ctx player))).length_eq
            rw [h] at this
            simp only [List.length_nil, List.length_map] at this
            exact hne (List.length_eq_zero.mp this.symm)
          obtain ⟨c, cs, hcs⟩ := List.exists_cons_of_ne_nil hsne
          have hcmem : c ∈ sortBy candLE (rest1.map (buildCandidate ctx player)) := by
            rw [hcs]
            exact List.mem_cons_self _ _
          obtain ⟨opp, hopp, rfl⟩ := candidate_mem_map ctx player hcmem
          refine foldl_isSome_of_mem hcmem ?_ ?_
          · -- the chosen candidate turns `none` into `some`
            have hoppeq : (buildCandidate ctx player opp).opponent = opp := rfl
            rw [hoppeq, pruneBranch_none]
            simp only [Bool.false_eq_true, if_false]
            have hK2 : rest1.Perm (opp :: rest1.filter (fun q => decide (q.id ≠ opp.id))) :=
              perm_cons_filter_ne hrest1_nodup hopp
            have hfl : (rest1.filter (fun q => decide (q.id ≠ opp.id))).length + 1 =
                rest1.length := by
              rw [hK2.length_eq]
              simp [Nat.add_comm]
            refine ih _ _ _ _ none ?_ ?_ ?_
            · rw [List.length_cons] at heven
              omega
            · rw [List.length_cons] at hlen
              omega
            · have hsub : (rest1.filter (fun q => decide (q.id ≠ opp.id))).Sublist rest1 :=
                List.filter_sublist _
              exact ((hsub.map _).nodup hrest1_nodup)
          · intro acc a ha hacc
            dsimp only
            split <;> split <;>
              first
                | exact hacc
                | exact backtrack_isSome_mono ctx n _ _ _ _ acc hacc

theorem backtrack_isSome_of_matching (ctx : GroupContext) (hmode : ctx.allowRepeats = false) :
    ∀ (fuel : Nat) (remaining : List Player) (cur : List RawPair) (cost : ℚ) (rc : Nat)
      (best : Option SolveResult) (m : List (Player × Player)),
      FreeMatching ctx.opponentsMap remaining m →
      remaining.length ≤ fuel →
      (remaining.map (fun q => q.id)).Nodup →
      (backtrack ctx fuel remaining cur cost rc best).isSome := by
  intro fuel
  induction fuel with
  | zero =>
      intro remaining cur cost rc best m hm hlen hnd
      cases remaining with
      | nil => exact backtrack_nil_isSome ctx 0 cur cost rc best
      | cons p rest => simp at hlen
  | succ n ih =>
      intro remaining cur cost rc best m hm hlen hnd
      cases remaining with
      | nil => exact backtrack_nil_isSome ctx (n + 1) cur cost rc best
      | cons p rest =>
          simp only [backtrack]
          set player := (p :: rest).getD (mcfIndex ctx (p :: rest)) default with hplayer
          set rest1 := (p :: rest).eraseIdx (mcfIndex ctx (p :: rest)) with hrest1
          have hpr : (p :: rest).Perm (player :: rest1) :=
            perm_getD_cons_eraseIdx (mcfIndex_lt ctx (p :: rest) (by simp))
          have hnodup1 : ((player :: rest1).map (fun q => q.id)).Nodup := (hpr.map _).nodup hnd
          have hrest1_nodup : (rest1.map (fun q => q.id)).Nodup := by
            rw [List.map_cons, List.nodup_cons] at hnodup1
            exact hnodup1.2
          -- locate player's pair inside the matching
          have hplayer_mem : player ∈ m.flatMap (fun q => [q.1, q.2]) :=
            hm.1.symm.subset (hpr.symm.subset (List.mem_cons_self _ _))
          obtain ⟨q, hq, hpq⟩ := List.mem_flatMap.mp hplayer_mem
          obtain ⟨m₁, m₂, hmsplit⟩ := List.append_of_mem hq
          have hflat_eq : m.flatMap (fun q => [q.1, q.2]) =
              m₁.flatMap (fun q => [q.1, q.2]) ++
                ([q.1, q.2] ++ m₂.flatMap (fun q => [q.1, q.2])) := by
            rw [hmsplit, List.flatMap_append, List.flatMap_cons]
          have hmid : (m.flatMap (fun q => [q.1, q.2])).Perm
              ([q.1, q.2] ++ ((m₁ ++ m₂).flatMap (fun q => [q.1, q.2]))) := by
            rw [hflat_eq, List.flatMap_append, ← List.append_assoc, ← List.append_assoc]
            exact List.Perm.append_right _ List.perm_append_comm
          have hq12 : q.1.id ≠ q.2.id := by
            have hfnd : ((m.flatMap (fun q => [q.1, q.2])).map
                (fun x => x.id)).Nodup := (hm.1.map _).symm.nodup hnd
            have hsub : ([q.1, q.2] : List Player).Sublist (m.flatMap (fun q => [q.1, q.2])) := by
              rw [hflat_eq]
              exact ((List.sublist_append_left _ _).trans (List.sublist_append_right _ _))
            have h2 := (hsub.map (fun x => x.id)).nodup hfnd
            have h3 : q.1.id ∉ [q.2.id] := (List.nodup_cons.mp h2).1
            simpa using h3
          have hqprops := hm.2 q hq
          obtain ⟨partner, hq12perm, homf, hpartner_ne⟩ :
              ∃ partner, ([q.1, q.2] : List Player).Perm [player, partner] ∧
                (ctx.opponentsMap player.id).contains partner.id = false ∧
                partner.id ≠ player.id := by
            rcases (by simpa using hpq : player = q.1 ∨ player = q.2) with h | h
            · exact ⟨q.2, by rw [h], by rw [h]; exact hqprops.1, by rw [h]; exact hq12.symm⟩
            · exact ⟨q.1, by rw [h]; exact List.Perm.swap _ _ _,
                by rw [h]; exact hqprops.2, by rw [h]; exact hq12⟩
          have hpartner_remaining : partner ∈ p :: rest := by
            refine hm.1.subset ?_
            refine hmid.symm.subset ?_
            exact List.mem_append.mpr (Or.inl (hq12perm.symm.subset (by simp)))
          have hpartner_rest1 : partner ∈ rest1 := by
            rcases List.mem_cons.mp (hpr.subset hpartner_remaining) with h | h
            · exact absurd (congrArg Player.id h) hpartner_ne
            · exact h
          have hpartner_av : partner ∈ availableOpponents ctx player rest1 := by
            unfold availableOpponents
            rw [hmode]
            simp only [Bool.false_eq_true, if_false]
            refine List.mem_filter.mpr ⟨hpartner_rest1, ?_⟩
            rw [homf]
            rfl
          have hav_ne : (availableOpponents ctx player rest1).isEmpty = false := by
            rcases h : (availableOpponents ctx player rest1) with _ | ⟨x, xs⟩
            · rw [h] at hpartner_av
              simp at hpartner_av
            · rfl
          rw [hav_ne]
          simp only [Bool.false_eq_true, if_false]
          have hcmem : buildCandidate ctx player partner ∈
              sortBy candLE ((availableOpponents ctx player rest1).map
                (buildCandidate ctx player)) := by
            refine (sortBy_perm candLE _).mem_iff.mpr ?_
            exact List.mem_map_of_mem _ hpartner_av
          refine foldl_isSome_of_mem hcmem ?_ ?_
          · have hoppeq : (buildCandidate ctx player partner).opponent = partner := rfl
            rw [hoppeq, pruneBranch_none]
            simp only [Bool.false_eq_true, if_false]
            have hK2 : rest1.Perm (partner :: rest1.filter (fun x => decide (x.id ≠ partner.id))) :=
              perm_cons_filter_ne hrest1_nodup hpartner_rest1
            have hchain : (player :: partner ::
                ((m₁ ++ m₂).flatMap (fun q => [q.1, q.2]))).Perm
                (player :: partner :: rest1.filter (fun x => decide (x.id ≠ partner.id))) := by
              have s1 : ([player, partner] ++ ((m₁ ++ m₂).flatMap (fun q => [q.1, q.2]))).Perm
                  (m.flatMap (fun q => [q.1, q.2])) := by
                refine List.Perm.trans ?_ hmid.symm
                exact List.Perm.append_right _ hq12perm.symm
              have s2 : (m.flatMap (fun q => [q.1, q.2])).Perm (player :: rest1) :=
                hm.1.trans hpr
              have s3 : (player :: rest1).Perm
                  (player :: partner :: rest1.filter (fun x => decide (x.id ≠ partner.id))) :=
                hK2.cons player
              exact (s1.trans s2).trans s3
            have hm' : FreeMatching ctx.opponentsMap
                (rest1.filter (fun x => decide (x.id ≠ partner.id))) (m₁ ++ m₂) := by
              constructor
              · have := (List.perm_cons partner).mp ((List.perm_cons player).mp hchain)
                exact this
              · intro q' hq'
                refine hm.2 q' ?_
                rw [hmsplit]
                rcases List.mem_append.mp hq' with h | h
                · exact List.mem_append.mpr (Or.inl h)
                · exact List.mem_append.mpr (Or.inr (List.mem_cons_of_mem _ h))
            refine ih _ _ _ _ none (m₁ ++ m₂) hm' ?_ ?_
            · have hlenf : (rest1.filter (fun x => decide (x.id ≠ partner.id))).length + 1 =
                  rest1.length := by
                rw [hK2.length_eq]
                simp [Nat.add_comm]
              have hlen1 : rest1.length + 1 = (p :: rest).length := by
                rw [hrest1, List.length_eraseIdx,
                  if_pos (mcfIndex_lt ctx (p :: rest) (by simp))]
                simp only [List.length_cons]
                omega
              omega
            · exact ((List.filter_sublist _).map _).nodup hrest1_nodup
          · intro acc a ha hacc
            dsimp only
            split <;> split <;>
              first
                | exact hacc
                | exact backtrack_isSome_mono ctx n _ _ _ _ acc hacc

theorem pairsFlat_append (a b : List RawPair) :
    pairsFlat (a ++ b) = pairsFlat a ++ pairsFlat b := by
  unfold pairsFlat
  rw [List.flatMap_append]

theorem nodup_ids_of_subperm {A full : List Player} (h : A.Subperm full)
    (hf : (full.map (fun p => p.id)).Nodup) : (A.map (fun p => p.id)).Nodup := by
  obtain ⟨l, hperm, hsub⟩ := h
  exact (hperm.map _).nodup (((hsub.map (fun p => p.id))).nodup hf)

theorem solveGroupPairings_resultOk (ctx : GroupContext) (players : List Player)
    (hnd : (players.map (fun p => p.id)).Nodup) :
    ∀ b, solveGroupPairings players ctx = some b → ResultOk ctx players b := by
  intro b hb
  unfold solveGroupPairings at hb
  split at hb
  · rw [Option.some_inj] at hb
    subst hb
    refine ⟨?_, rfl, by simp [pairsFlat]⟩
    have : players = [] := by simpa [List.isEmpty_iff] using (by assumption : players.isEmpty = true)
    rw [this]
    rfl
  · exact backtrack_resultOk ctx players hnd _ players [] 0 0 none (by simp [pairsFlat])
      rfl (by simp) (by simp) b hb

theorem solveGroupPairings_isSome_allowRepeats (ctx : GroupContext)
    (hmode : ctx.allowRepeats = true) (players : List Player)
    (heven : players.length % 2 = 0) (hnd : (players.map (fun p => p.id)).Nodup) :
    (solveGroupPairings players ctx).isSome := by
  unfold solveGroupPairings
  split
  · rfl
  · exact backtrack_isSome_of_allowRepeats ctx hmode _ players [] 0 0 none heven
      (Nat.le_succ _) hnd

theorem solveGroupPairings_isSome_matching (ctx : GroupContext)
    (hmode : ctx.allowRepeats = false) (players : List Player)
    (m : List (Player × Player)) (hm : FreeMatching ctx.opponentsMap players m)
    (hnd : (players.map (fun p => p.id)).Nodup) :
    (solveGroupPairings players ctx).isSome := by
  unfold solveGroupPairings
  split
  · rfl
  · exact backtrack_isSome_of_matching ctx hmode _ players [] 0 0 none m hm
      (Nat.le_succ _) hnd

theorem groupsPlayers_cons (g : ScoreGroup) (gs : List ScoreGroup) :
    groupsPlayers (g :: gs) = g.players ++ groupsPlayers gs := by
  unfold groupsPlayers
  rw [List.flatMap_cons]

theorem trySolveGroup_isSome_mono (ctx : GroupContext) (gs : List ScoreGroup)
    (ihmono : ∀ carry pairs cost rc best, (best : Option SolveResult).isSome →
      (solveGroupIndex ctx gs carry pairs cost rc best).isSome)
    (pairs : List RawPair) (cost : ℚ) (rc : Nat) (remaining nextCarry : List Player)
    (best : Option SolveResult) (hb : best.isSome) :
    (trySolveGroup ctx (solveGroupIndex ctx gs) pairs cost rc remaining nextCarry best).isSome := by
  unfold trySolveGroup
  split
  · exact hb
  · dsimp only
    split
    · exact hb
    · exact ihmono _ _ _ _ _ hb

theorem solveGroupIndex_isSome_mono (ctx : GroupContext) :
    ∀ (groups : List ScoreGroup) (carry : List Player) (pairs : List RawPair) (cost : ℚ)
      (rc : Nat) (best : Option SolveResult), best.isSome →
      (solveGroupIndex ctx groups carry pairs cost rc best).isSome := by
  intro groups
  induction groups with
  | nil =>
      intro carry pairs cost rc best hb
      simp only [solveGroupIndex]
      split
      · exact hb
      · obtain ⟨b0, rfl⟩ := Option.isSome_iff_exists.mp hb
        split <;> first | rfl | (split <;> rfl)
  | cons g gs ih =>
      intro carry pairs cost rc best hb
      simp only [solveGroupIndex]
      split
      · exact ih _ _ _ _ _ hb
      · refine foldl_preserve (fun acc : Option SolveResult => acc.isSome = true) ?_ ?_
        · split
          · exact trySolveGroup_isSome_mono ctx gs ih _ _ _ _ _ _ hb
          · exact hb
        · intro acc f hf hacc
          exact trySolveGroup_isSome_mono ctx gs ih _ _ _ _ _ _ hacc

theorem trySolveGroup_resultOk (ctx : GroupContext) (full : List Player)
    (hfull : (full.map (fun p => p.id)).Nodup) (gs : List ScoreGroup)
    (ihgs : ∀ (carry : List Player) (pairs : List RawPair) (cost : ℚ) (rc : Nat)
      (best : Option SolveResult),
      (pairsFlat pairs ++ (carry ++ groupsPlayers gs)).Perm full →
      rc = pairs.countP (fun pr => pr.isRepeat) →
      (∀ pr ∈ pairs, PairOk ctx pr) →
      (∀ b0, best = some b0 → ResultOk ctx full b0) →
      ∀ b, solveGroupIndex ctx gs carry pairs cost rc best = some b → ResultOk ctx full b)
    (pairs : List RawPair) (cost : ℚ) (rc : Nat) (remaining nextCarry : List Player)
    (best : Option SolveResult)
    (hperm : (pairsFlat pairs ++ (remaining ++ (nextCarry ++ groupsPlayers gs))).Perm full)
    (hrc : rc = pairs.countP (fun pr => pr.isRepeat))
    (hpairs : ∀ pr ∈ pairs, PairOk ctx pr)
    (hbest : ∀ b0, best = some b0 → ResultOk ctx full b0) :
    ∀ b, trySolveGroup ctx (solveGroupIndex ctx gs) pairs cost rc remaining nextCarry best =
      some b → ResultOk ctx full b := by
  intro b hb
  unfold trySolveGroup at hb
  split at hb
  · exact hbest b hb
  · dsimp only at hb
    split at hb
    · exact hbest b hb
    · rename_i gr hsolve
      have hnd_rem : (remaining.map (fun p => p.id)).Nodup := by
        refine nodup_ids_of_subperm ?_ hfull
        refine List.Subperm.trans ?_ hperm.subperm
        refine List.Sublist.subperm ?_
        refine List.Sublist.trans ?_ (List.sublist_append_right (pairsFlat pairs) _)
        exact List.sublist_append_left _ _
      have hgr := solveGroupPairings_resultOk _ remaining hnd_rem gr hsolve
      refine ihgs nextCarry (pairs ++ gr.pairs) _ (rc + gr.repeatCount) best ?_ ?_ ?_ hbest b hb
      · rw [pairsFlat_append, List.append_assoc]
        refine List.Perm.trans (List.Perm.append_left (pairsFlat pairs) ?_) hperm
        exact hgr.1.append_right _
      · rw [List.countP_append, hrc, hgr.2.1]
      · intro pr hpr
        rcases List.mem_append.mp hpr with h | h
        · exact hpairs pr h
        · exact hgr.2.2 pr h

theorem solveGroupIndex_resultOk (ctx : GroupContext) (full : List Player)
    (hfull : (full.map (fun p => p.id)).Nodup) :
    ∀ (groups : List ScoreGroup) (carry : List Player) (pairs : List RawPair) (cost : ℚ)
      (rc : Nat) (best : Option SolveResult),
      (pairsFlat pairs ++ (carry ++ groupsPlayers groups)).Perm full →
      rc = pairs.countP (fun pr => pr.isRepeat) →
      (∀ pr ∈ pairs, PairOk ctx pr) →
      (∀ b0, best = some b0 → ResultOk ctx full b0) →
      ∀ b, solveGroupIndex ctx groups carry pairs cost rc best = some b →
        ResultOk ctx full b := by
  intro groups
  induction groups with
  | nil =>
      intro carry pairs cost rc best hperm hrc hpok hbest b hb
      simp only [solveGroupIndex] at hb
      split at hb
      · exact hbest b hb
      · rename_i hcarry
        have hc : carry = [] := by
          rcases carry with _ | ⟨x, xs⟩
          · rfl
          · simp at hcarry
        subst hc
        split at hb
        · rw [Option.some_inj] at hb
          subst hb
          exact ⟨by simpa [groupsPlayers, pairsFlat] using hperm, hrc, hpok⟩
        · split at hb <;> rw [Option.some_inj] at hb <;> subst hb
          · exact ⟨by simpa [groupsPlayers, pairsFlat] using hperm, hrc, hpok⟩
          · exact hbest _ rfl
  | cons g gs ih =>
      intro carry pairs cost rc best hperm hrc hpok hbest b hb
      simp only [solveGroupIndex] at hb
      rw [groupsPlayers_cons] at hperm
      have hgo : (sortBy groupOrderedLE g.players).Perm g.players :=
        sortBy_perm groupOrderedLE g.players
      split at hb
      · rename_i hempty
        have h2 : carry = [] ∧ sortBy groupOrderedLE g.players = [] := by
          rcases hae : carry ++ sortBy groupOrderedLE g.players with _ | ⟨x, xs⟩
          · exact List.append_eq_nil.mp hae
          · rw [hae] at hempty
            simp at hempty
        have hgp : g.players = [] := by
          have h3 := hgo.length_eq
          rw [h2.2] at h3
          have h4 : g.players.length = 0 := by simpa using h3.symm
          exact List.length_eq_zero.mp h4
        refine ih [] pairs cost rc best ?_ hrc hpok hbest b hb
        rw [h2.1, hgp] at hperm
        simpa using hperm
      · have hpermgp :
            (pairsFlat pairs ++ ((carry ++ sortBy groupOrderedLE g.players) ++
              groupsPlayers gs)).Perm full := by
          refine List.Perm.trans ?_ hperm
          rw [List.append_assoc]
          refine List.Perm.append_left (pairsFlat pairs) ?_
          refine List.Perm.append_left carry ?_
          exact hgo.append_right _
        refine foldl_preserve (fun acc : Option SolveResult =>
          ∀ b0, acc = some b0 → ResultOk ctx full b0) ?_ ?_ b hb
        · split
          · refine trySolveGroup_resultOk ctx full hfull gs ih pairs cost rc _ [] best ?_
              hrc hpok hbest
            simpa using hpermgp
          · exact hbest
        · intro acc f hf hP
          have hfgo : f ∈ sortBy groupOrderedLE g.players :=
            (sortBy_perm floaterLE _).subset hf
          have hfgp : f ∈ carry ++ sortBy groupOrderedLE g.players :=
            List.mem_append.mpr (Or.inr hfgo)
          have hgpnd : ((carry ++ sortBy groupOrderedLE g.players).map
              (fun p => p.id)).Nodup := by
            refine nodup_ids_of_subperm ?_ hfull
            refine List.Subperm.trans ?_ hpermgp.subperm
            refine List.Sublist.subperm ?_
            refine List.Sublist.trans (List.sublist_append_left _ _)
              (List.sublist_append_right (pairsFlat pairs) _)
          refine trySolveGroup_resultOk ctx full hfull gs ih pairs cost rc _ [f] acc ?_
            hrc hpok hP
          have hsplit : ((carry ++ sortBy groupOrderedLE g.players).filter
              (fun p => decide (p.id ≠ f.id)) ++ [f]).Perm
              (carry ++ sortBy groupOrderedLE g.players) := by
            refine List.Perm.trans List.perm_append_comm ?_
            exact (perm_cons_filter_ne hgpnd hfgp).symm
          refine List.Perm.trans ?_ hpermgp
          refine List.Perm.append_left (pairsFlat pairs) ?_
          rw [← List.append_assoc]
          exact hsplit.append_right _

theorem solveGroupIndex_isSome_allowRepeats (ctx : GroupContext)
    (hmode : ctx.allowRepeats = true) :
    ∀ (groups : List ScoreGroup) (carry : List Player) (pairs : List RawPair) (cost : ℚ)
      (rc : Nat) (best : Option SolveResult),
      ((carry ++ groupsPlayers groups).map (fun p => p.id)).Nodup →
      carry.length ≤ 1 →
      (carry ++ groupsPlayers groups).length % 2 = 0 →
      (∀ g ∈ groups, g.players ≠ []) →
      (solveGroupIndex ctx groups carry pairs cost rc best).isSome := by
  intro groups
  induction groups with
  | nil =>
      intro carry pairs cost rc best hnd hc1 hpar hne
      have hc : carry = [] := by
        have h0 : carry.length = 0 := by
          simp only [groupsPlayers, List.flatMap_nil, List.append_nil] at hpar
          omega
        exact List.length_eq_zero.mp h0
      subst hc
      simp only [solveGroupIndex]
      rw [if_neg (by simp)]
      cases best with
      | none => rfl
      | some b =>
          dsimp only
          split <;> rfl
  | cons g gs ih =>
      intro carry pairs cost rc best hnd hc1 hpar hne
      rw [groupsPlayers_cons] at hnd hpar
      simp only [solveGroupIndex]
      have hgo : (sortBy groupOrderedLE g.players).Perm g.players :=
        sortBy_perm groupOrderedLE g.players
      have hpermCA : (carry ++ sortBy groupOrderedLE g.players).Perm (carry ++ g.players) :=
        List.Perm.append_left carry hgo
      have hsubCA : (carry ++ g.players).Sublist (carry ++ (g.players ++ groupsPlayers gs)) :=
        (List.sublist_append_left g.players (groupsPlayers gs)).append_left carry
      have hndGP : ((carry ++ sortBy groupOrderedLE g.players).map (fun p => p.id)).Nodup :=
        nodup_ids_of_subperm (hpermCA.subperm.trans hsubCA.subperm) hnd
      have hndgs : ((groupsPlayers gs).map (fun p => p.id)).Nodup :=
        nodup_ids_of_subperm
          (((List.sublist_append_right g.players (groupsPlayers gs)).trans
            (List.sublist_append_right carry (g.players ++ groupsPlayers gs))).subperm) hnd
      have hGPlen : (carry ++ sortBy groupOrderedLE g.players).length =
          carry.length + g.players.length := by
        rw [List.length_append, hgo.length_eq]
      have hparlen : (carry.length + (g.players.length + (groupsPlayers gs).length)) % 2 = 0 := by
        simpa [List.length_append] using hpar
      have hne' : ∀ g' ∈ gs, g'.players ≠ [] := fun g' h => hne g' (List.mem_cons_of_mem _ h)
      have hmono : ∀ (c : List Player) (p : List RawPair) (co : ℚ) (r : Nat)
          (b : Option SolveResult), b.isSome →
          (solveGroupIndex ctx gs c p co r b).isSome :=
        fun c p co r b hb => solveGroupIndex_isSome_mono ctx gs c p co r b hb
      split
      · rename_i hempty
        exfalso
        have h2 : carry = [] ∧ sortBy groupOrderedLE g.players = [] :=
          List.append_eq_nil.mp (by simpa [List.isEmpty_iff] using hempty)
        have hgp : g.players = [] := by
          have h3 := hgo.length_eq
          rw [h2.2] at h3
          exact List.length_eq_zero.mp (by simpa using h3.symm)
        exact hne g (List.mem_cons_self _ _) hgp
      · by_cases hpar2 : (carry ++ sortBy groupOrderedLE g.players).length % 2 = 0
        · refine foldl_preserve (fun acc : Option SolveResult => acc.isSome = true) ?_ ?_
          · rw [if_pos hpar2]
            unfold trySolveGroup
            rw [if_neg (by omega)]
            dsimp only
            split
            · rename_i heq
              have hsolve := solveGroupPairings_isSome_allowRepeats
                { ctx with
                    orderMap := buildOrderMap (carry ++ sortBy groupOrderedLE g.players)
                    halfSize := (carry ++ sortBy groupOrderedLE g.players).length / 2 }
                hmode (carry ++ sortBy groupOrderedLE g.players) hpar2 hndGP
              rw [heq] at hsolve
              simp at hsolve
            · have hp2 : (carry.length + g.players.length) % 2 = 0 := by
                rw [← hGPlen]
                exact hpar2
              refine ih [] _ _ _ best (by simpa using hndgs) (by simp) ?_ hne'
              simp only [List.nil_append]
              omega
          · intro acc f hf hacc
            exact trySolveGroup_isSome_mono ctx gs hmono _ _ _ _ _ _ hacc
        · have hsne : sortBy floaterLE (sortBy groupOrderedLE g.players) ≠ [] := by
            intro h
            have h3 := ((sortBy_perm floaterLE _).trans hgo).length_eq
            rw [h] at h3
            exact hne g (List.mem_cons_self _ _)
              (List.length_eq_zero.mp (by simpa using h3.symm))
          obtain ⟨f, fs, hfs⟩ := List.exists_cons_of_ne_nil hsne
          have hfmem : f ∈ sortBy floaterLE (sortBy groupOrderedLE g.players) := by
            rw [hfs]
            exact List.mem_cons_self _ _
          have hfGP : f ∈ carry ++ sortBy groupOrderedLE g.players :=
            List.mem_append.mpr (Or.inr ((sortBy_perm floaterLE _).subset hfmem))
          have hK : (carry ++ sortBy groupOrderedLE g.players).Perm
              (f :: (carry ++ sortBy groupOrderedLE g.players).filter
                (fun p => decide (p.id ≠ f.id))) :=
            perm_cons_filter_ne hndGP hfGP
          have hflen : ((carry ++ sortBy groupOrderedLE g.players).filter
              (fun p => decide (p.id ≠ f.id))).length + 1 =
              (carry ++ sortBy groupOrderedLE g.players).length := by
            rw [hK.length_eq]
            simp [Nat.add_comm]
          have hndfil : (((carry ++ sortBy groupOrderedLE g.players).filter
              (fun p => decide (p.id ≠ f.id))).map (fun p => p.id)).Nodup :=
            ((List.filter_sublist _).map _).nodup hndGP
          refine foldl_isSome_of_mem hfmem ?_ ?_
          · unfold trySolveGroup
            rw [if_neg (by omega)]
            dsimp only
            split
            · rename_i heq
              have hsolve := solveGroupPairings_isSome_allowRepeats
                { ctx with
                    orderMap := buildOrderMap ((carry ++ sortBy groupOrderedLE g.players).filter
                      (fun p => decide (p.id ≠ f.id)))
                    halfSize := ((carry ++ sortBy groupOrderedLE g.players).filter
                      (fun p => decide (p.id ≠ f.id))).length / 2 }
                hmode _ (by omega) hndfil
              rw [heq] at hsolve
              simp at hsolve
            · have hfA : f ∈ carry ++ g.players := hpermCA.subset hfGP
              have hfid : f.id ∈ (carry ++ g.players).map (fun p => p.id) :=
                List.mem_map_of_mem _ hfA
              have hnd2 : (((carry ++ g.players).map (fun p => p.id)) ++
                  ((groupsPlayers gs).map (fun p => p.id))).Nodup := by
                simpa [List.map_append, List.append_assoc] using hnd
              have hdisj := List.disjoint_of_nodup_append hnd2
              refine ih [f] _ _ _ none ?_ (by simp) ?_ hne'
              · simp only [List.singleton_append, List.map_cons]
                exact List.nodup_cons.mpr ⟨fun hmem => hdisj hfid hmem, hndgs⟩
              · have h5 : ([f] ++ groupsPlayers gs).length = (groupsPlayers gs).length + 1 := by
                  simp
                omega
          · intro acc a ha hacc
            exact trySolveGroup_isSome_mono ctx gs hmono _ _ _ _ _ _ hacc

/-! ## History consistency: opponent sets mirror the played-pair keys -/

theorem pairKey_eq_iff_nat (a b x y : Nat) :
    pairKey a b = pairKey x y ↔ (a = x ∧ b = y) ∨ (a = y ∧ b = x) := by
  have h : ∀ (u v w z : Nat), ((u, v) : PlayerId × PlayerId) = (w, z) ↔ (u = w ∧ v = z) := by
    intro u v w z
    rw [Prod.mk.injEq]
  unfold pairKey compareIds
  split <;> split <;> rw [h] <;> omega

theorem pairKey_eq_iff (a b x y : PlayerId) :
    pairKey a b = pairKey x y ↔ (a = x ∧ b = y) ∨ (a = y ∧ b = x) :=
  pairKey_eq_iff_nat a b x y

theorem contains_eq_decide_mem_id (l : List PlayerId) (x : PlayerId) :
    l.contains x = decide (x ∈ l) := by
  induction l with
  | nil => rfl
  | cons y l ih => simp [List.contains_cons, ih, List.mem_cons]

theorem contains_eq_decide_mem_pair (l : List (PlayerId × PlayerId)) (x : PlayerId × PlayerId) :
    l.contains x = decide (x ∈ l) := by
  induction l with
  | nil => rfl
  | cons y l ih => simp [List.contains_cons, ih, List.mem_cons]

theorem histOk_empty : HistOk emptyHistory := by
  intro a b
  rfl

theorem histOk_update (om : PlayerId → List PlayerId) (pp : List (PlayerId × PlayerId))
    (hh : ∀ a b, (om a).contains b = pp.contains (pairKey a b)) (x y : PlayerId)
    (a b : PlayerId) :
    ((if a = y then (if y = x then om x ++ [y] else om y) ++ [x]
      else if a = x then om x ++ [y] else om a).contains b)
    = (pp ++ [pairKey x y]).contains (pairKey a b) := by
  have hab := hh a b
  have hxb := hh x b
  have hyb := hh y b
  simp only [contains_eq_decide_mem_id, contains_eq_decide_mem_pair] at hab hxb hyb ⊢
  rw [decide_eq_decide] at hab hxb hyb
  rw [decide_eq_decide]
  by_cases hay : a = y
  · rw [if_pos hay]
    by_cases hyx : y = x
    · rw [if_pos hyx, hay, hyx]
      simp only [List.mem_append, List.mem_singleton, pairKey_eq_iff, eq_self_iff_true,
        true_and, and_true]
      tauto
    · rw [if_neg hyx, hay]
      simp only [List.mem_append, List.mem_singleton, pairKey_eq_iff, eq_self_iff_true,
        true_and, and_true]
      tauto
  · rw [if_neg hay]
    by_cases hax : a = x
    · rw [if_pos hax, hax]
      rw [hax] at hay
      simp only [List.mem_append, List.mem_singleton, pairKey_eq_iff, eq_self_iff_true,
        true_and, and_true]
      tauto
    · rw [if_neg hax]
      simp only [List.mem_append, List.mem_singleton, pairKey_eq_iff, eq_self_iff_true,
        true_and, and_true]
      tauto

theorem histOk_add (h : History) (isLast : Bool) (p : HPairing) (hh : HistOk h) :
    HistOk (addPairingToHistory h isLast p) := by
  unfold addPairingToHistory
  split
  · split
    · exact hh
    · exact hh
  · split
    · rename_i p1 p2 heq1 heq2
      intro a b
      exact histOk_update h.opponentsMap h.playedPairs hh p1.id p2.id a b
    all_goals exact hh

theorem histOk_buildHistory (rounds : List Round) : HistOk (buildHistory rounds) := by
  unfold buildHistory
  split
  · exact histOk_empty
  · refine foldl_preserve (HistOk) histOk_empty ?_
    intro h ir hir hh
    dsimp only
    exact foldl_preserve (HistOk) hh (fun h' pr hpr hh' => histOk_add h' _ pr hh')

theorem histOk_no_played {h : History} (hh : HistOk h) {w b : PlayerId}
    (hor : (h.opponentsMap w).contains b = false ∨ (h.opponentsMap b).contains w = false) :
    h.playedPairs.contains (pairKey w b) = false := by
  rcases hor with h1 | h1
  · rw [← hh w b]
    exact h1
  · rw [pairKey_comm w b, ← hh b w]
    exact h1

/-! ## The score groups partition the pool -/

theorem flatMap_congr_mem {f g : α → List β} :
    ∀ {l : List α}, (∀ a ∈ l, f a = g a) → l.flatMap f = l.flatMap g := by
  intro l
  induction l with
  | nil => intro _; rfl
  | cons a l ih =>
      intro h
      rw [List.flatMap_cons, List.flatMap_cons, h a (List.mem_cons_self _ _),
        ih (fun x hx => h x (List.mem_cons_of_mem _ hx))]

theorem flatMap_filter_perm (getScore : Player → ℚ) :
    ∀ (ss : List ℚ) (players : List Player), ss.Nodup →
      (∀ p ∈ players, getScore p ∈ ss) →
      (ss.flatMap (fun s => players.filter (fun p => decide (getScore p = s)))).Perm players := by
  intro ss
  induction ss with
  | nil =>
      intro players _ hcov
      cases players with
      | nil => rfl
      | cons q l => exact absurd (hcov q (List.mem_cons_self _ _)) (by simp)
  | cons s ss ih =>
      intro players hnd hcov
      rw [List.nodup_cons] at hnd
      rw [List.flatMap_cons]
      have hstep : ∀ t ∈ ss,
          players.filter (fun p => decide (getScore p = t)) =
          (players.filter (fun p => !decide (getScore p = s))).filter
            (fun p => decide (getScore p = t)) := by
        intro t ht
        rw [List.filter_filter]
        refine List.filter_congr ?_
        intro p hp
        have hts : ¬ t = s := fun he => hnd.1 (he ▸ ht)
        by_cases hgt : getScore p = t
        · have hgs : ¬ getScore p = s := by
            rw [hgt]
            exact hts
          simp [hgt, hgs, hts]
        · simp [hgt]
      rw [flatMap_congr_mem hstep]
      have hcov' : ∀ p ∈ players.filter (fun p => !decide (getScore p = s)),
          getScore p ∈ ss := by
        intro p hp
        rw [List.mem_filter] at hp
        rcases List.mem_cons.mp (hcov p hp.1) with h | h
        · exfalso
          have h2 := hp.2
          simp [h] at h2
        · exact h
      have hih := ih (players.filter (fun p => !decide (getScore p = s))) hnd.2 hcov'
      exact (List.Perm.append_left _ hih).trans
        (List.filter_append_perm (fun p => decide (getScore p = s)) players)

theorem groupsPlayers_groupPlayersByScore (players : List Player) (getScore : Player → ℚ) :
    (groupsPlayers (groupPlayersByScore players getScore)).Perm players := by
  unfold groupsPlayers groupPlayersByScore
  dsimp only
  rw [List.flatMap_map]
  refine flatMap_filter_perm getScore _ players ?_ ?_
  · exact (sortBy_perm _ _).symm.nodup (List.nodup_dedup _)
  · intro p hp
    exact (sortBy_perm _ _).symm.subset (List.mem_dedup.mpr (List.mem_map_of_mem _ hp))

theorem groupPlayersByScore_nonempty (players : List Player) (getScore : Player → ℚ) :
    ∀ g ∈ groupPlayersByScore players getScore, g.players ≠ [] := by
  intro g hg
  unfold groupPlayersByScore at hg
  dsimp only at hg
  obtain ⟨s, hs, rfl⟩ := List.mem_map.mp hg
  have hs2 : s ∈ (players.map getScore).dedup := (sortBy_perm _ _).subset hs
  have hs3 : s ∈ players.map getScore := List.mem_dedup.mp hs2
  obtain ⟨p, hp, rfl⟩ := List.mem_map.mp hs3
  intro hemp
  have hmem : p ∈ players.filter (fun q => decide (getScore q = getScore p)) :=
    List.mem_filter.mpr ⟨hp, by simp⟩
  rw [show (⟨getScore p, players.filter (fun q => decide (getScore q = getScore p))⟩ :
      ScoreGroup).players = players.filter (fun q => decide (getScore q = getScore p)) from rfl]
    at hemp
  rw [hemp] at hmem
  simp at hmem

/-! ## `generateSwissPairings`: coverage and repeat-mode existence -/

theorem generateSwissPairings_resultOk (players : List Player) (roundNumber : Nat)
    (rounds : List Round) (options : SwissOptions)
    (hnd : (players.map (fun p => p.id)).Nodup) :
    ∀ b, generateSwissPairings players roundNumber rounds options = some b →
      ResultOk
        ⟨roundNumber, options.playedPairs, options.opponentsMap, options.lastRoundPairs,
          options.allowRepeats, fun _ => none, 0, options.topBottomWeight⟩ players b := by
  intro b hb
  unfold generateSwissPairings solveScoreGroups at hb
  dsimp only at hb
  refine solveGroupIndex_resultOk _ players hnd _ [] [] 0 0 none ?_ rfl ?_ ?_ b hb
  · simp only [pairsFlat, List.flatMap_nil, List.nil_append]
    exact groupsPlayers_groupPlayersByScore players _
  · intro pr hpr
    simp at hpr
  · intro b0 h0
    exact absurd h0 (by simp)

theorem generateSwissPairings_isSome (players : List Player) (roundNumber : Nat)
    (rounds : List Round) (options : SwissOptions) (hmode : options.allowRepeats = true)
    (hnd : (players.map (fun p => p.id)).Nodup) (heven : players.length % 2 = 0) :
    (generateSwissPairings players roundNumber rounds options).isSome := by
  unfold generateSwissPairings solveScoreGroups
  dsimp only
  refine solveGroupIndex_isSome_allowRepeats _ hmode _ [] [] 0 0 none ?_ (by simp) ?_ ?_
  · simp only [List.nil_append]
    exact nodup_ids_of_perm (groupsPlayers_groupPlayersByScore players _) hnd
  · simp only [List.nil_append]
    rw [(groupsPlayers_groupPlayersByScore players _).length_eq]
    exact heven
  · exact groupPlayersByScore_nonempty players _

/-! ## `chooseBye`: parity, membership and order -/

theorem chooseBye_of_even {players : List Player} {history : History}
    (heven : players.length % 2 = 0) : chooseBye players history = none := by
  unfold chooseBye
  rw [if_pos heven]

theorem chooseBye_isSome_of_odd {players : List Player} {history : History}
    (hodd : players.length % 2 = 1) : (chooseBye players history).isSome := by
  unfold chooseBye
  rw [if_neg (by omega)]
  dsimp only
  cases hfind : (sortBy chooseByeLE players).find?
      (fun player => decide (history.byeCounts player.id = 0)) with
  | some b => rfl
  | none =>
      have hne : sortBy chooseByeLE players ≠ [] := by
        intro h
        have h2 := (sortBy_perm chooseByeLE players).length_eq
        rw [h] at h2
        simp only [List.length_nil] at h2
        omega
      obtain ⟨x, xs, hxs⟩ := List.exists_cons_of_ne_nil hne
      rw [hxs]
      rfl

theorem chooseBye_odd_of_some {players : List Player} {history : History} {b : Player}
    (h : chooseBye players history = some b) : players.length % 2 = 1 := by
  rcases Nat.mod_two_eq_zero_or_one players.length with he | ho
  · rw [chooseBye_of_even he] at h
    exact absurd h (by simp)
  · exact ho

theorem chooseBye_mem {players : List Player} {history : History} {b : Player}
    (h : chooseBye players history = some b) : b ∈ players := by
  unfold chooseBye at h
  split at h
  · exact absurd h (by simp)
  · dsimp only at h
    cases hfind : (sortBy chooseByeLE players).find?
        (fun player => decide (history.byeCounts player.id = 0)) with
    | some c =>
        rw [hfind] at h
        have hcb : c = b := by
          have he : (some c <|> (sortBy chooseByeLE players).head?) = some c := rfl
          rw [he] at h
          exact Option.some_inj.mp h
        subst hcb
        exact (sortBy_perm chooseByeLE players).subset (List.mem_of_find?_eq_some hfind)
    | none =>
        rw [hfind] at h
        have hh : (sortBy chooseByeLE players).head? = some b := by
          have he : ((none : Option Player) <|> (sortBy chooseByeLE players).head?) =
              (sortBy chooseByeLE players).head? := rfl
          rw [he] at h
          exact h
        cases hsl : sortBy chooseByeLE players with
        | nil =>
            rw [hsl] at hh
            exact absurd hh (by simp)
        | cons x xs =>
            rw [hsl] at hh
            have hxb : x = b := by simpa using hh
            subst hxb
            exact (sortBy_perm chooseByeLE players).subset
              (by rw [hsl]; exact List.mem_cons_self _ _)

/-- In a key-sorted list, `find?` returns a satisfying element that is
key-minimal among all satisfying elements. -/
theorem find?_key_min {K : Type _} [LinearOrder K] {κ : Player → K} :
    ∀ {l : List Player} {pred : Player → Bool} {b : Player},
      l.Pairwise (fun x y => κ x ≤ κ y) → l.find? pred = some b →
      pred b = true ∧ ∀ p ∈ l, pred p = true → κ b ≤ κ p := by
  intro l
  induction l with
  | nil =>
      intro pred b _ hfind
      exact absurd hfind (by simp)
  | cons x xs ih =>
      intro pred b hs hfind
      rw [List.pairwise_cons] at hs
      by_cases hx : pred x = true
      · rw [List.find?_cons_of_pos _ hx] at hfind
        rw [Option.some_inj] at hfind
        subst hfind
        refine ⟨hx, ?_⟩
        intro p hp hpred
        rcases List.mem_cons.mp hp with h | h
        · subst h
          exact le_refl _
        · exact hs.1 p h
      · rw [List.find?_cons_of_neg _ (by simpa using hx)] at hfind
        obtain ⟨h1, h2⟩ := ih hs.2 hfind
        refine ⟨h1, ?_⟩
        intro p hp hpred
        rcases List.mem_cons.mp hp with h | h
        · subst h
          exact absurd hpred hx
        · exact h2 p h hpred

/-- C4 (engine part, amended): for every odd pool `chooseBye` returns a
member of the pool; when some member has zero recorded byes the choice has
zero byes and is minimal in the (score asc, rating asc, id asc) key order
among the zero-bye members; when every member already has a bye the choice
is minimal in that order over the whole pool. -/
theorem c4_bye_selection (players : List Player) (history : History)
    (hodd : players.length % 2 = 1) :
    ∃ b, chooseBye players history = some b ∧ b ∈ players ∧
      ((∃ p ∈ players, history.byeCounts p.id = 0) →
        history.byeCounts b.id = 0 ∧
        ∀ p ∈ players, history.byeCounts p.id = 0 → chooseByeKey b ≤ chooseByeKey p) ∧
      ((∀ p ∈ players, history.byeCounts p.id ≠ 0) →
        ∀ p ∈ players, chooseByeKey b ≤ chooseByeKey p) := by
  have hpw := pairwise_sortBy chooseByeLE_keyed players
  unfold chooseBye
  rw [if_neg (by omega)]
  dsimp only
  cases hfind : (sortBy chooseByeLE players).find?
      (fun player => decide (history.byeCounts player.id = 0)) with
  | some b =>
      obtain ⟨h1, h2⟩ := find?_key_min hpw hfind
      have hbmem : b ∈ players :=
        (sortBy_perm chooseByeLE players).subset (List.mem_of_find?_eq_some hfind)
      refine ⟨b, rfl, hbmem, ?_, ?_⟩
      · intro _
        refine ⟨by simpa using h1, ?_⟩
        intro p hp hp0
        exact h2 p ((sortBy_perm chooseByeLE players).symm.subset hp) (by simpa using hp0)
      · intro hall
        exact absurd (by simpa using h1) (hall b hbmem)
  | none =>
      have hne : sortBy chooseByeLE players ≠ [] := by
        intro h
        have h2 := (sortBy_perm chooseByeLE players).length_eq
        rw [h] at h2
        simp only [List.length_nil] at h2
        omega
      obtain ⟨x, xs, hxs⟩ := List.exists_cons_of_ne_nil hne
      rw [hxs]
      rw [hxs] at hpw
      rw [List.pairwise_cons] at hpw
      refine ⟨x, rfl, ?_, ?_, ?_⟩
      · exact (sortBy_perm chooseByeLE players).subset
          (by rw [hxs]; exact List.mem_cons_self _ _)
      · rintro ⟨p, hp, hp0⟩
        exfalso
        have hps : p ∈ sortBy chooseByeLE players :=
          (sortBy_perm chooseByeLE players).symm.subset hp
        have hnone := List.find?_eq_none.mp hfind p hps
        simp [hp0] at hnone
      · intro hall p hp
        have hps : p ∈ sortBy chooseByeLE players :=
          (sortBy_perm chooseByeLE players).symm.subset hp
        rw [hxs] at hps
        rcases List.mem_cons.mp hps with h | h
        · subst h
          exact le_refl _
        · exact hpw.1 p h

/-- Closed instance of `c4_bye_selection`. -/
theorem c4_bye_selection_witness :
    ∃ b, chooseBye c4players emptyHistory = some b ∧ b ∈ c4players ∧
      ((∃ p ∈ c4players, emptyHistory.byeCounts p.id = 0) →
        emptyHistory.byeCounts b.id = 0 ∧
        ∀ p ∈ c4players, emptyHistory.byeCounts p.id = 0 →
          chooseByeKey b ≤ chooseByeKey p) ∧
      ((∀ p ∈ c4players, emptyHistory.byeCounts p.id ≠ 0) →
        ∀ p ∈ c4players, chooseByeKey b ≤ chooseByeKey p) :=
  c4_bye_selection c4players emptyHistory (by decide)

/-- C4 counterexample for the legacy entry point: with a one-round history
in which competitor 1 already received the bye, the engine's `chooseBye`
picks competitor 2 (the first zero-bye member in the bye order), but
`SwissPairing.generatePairings` still hands the bye to competitor 1 even
though both 2 and 3 have zero prior byes. -/
theorem c4_counterexample :
    (buildHistory c4rounds).byeCounts 1 = 1 ∧
    (buildHistory c4rounds).byeCounts 2 = 0 ∧
    (buildHistory c4rounds).byeCounts 3 = 0 ∧
    chooseBye c4players (buildHistory c4rounds) = some ⟨2, "b", 0, 0, 0, [], []⟩ ∧
    ((SwissPairing.generatePairings c4players 2 none c4rounds).pairings.filter
      (fun op => op.isBye)).map (fun op => op.whitePlayerId) = [1] := by
  refine ⟨?_, ?_, ?_, ?_, ?_⟩ <;> with_unfolding_all decide

/-! ## Competitor ids mentioned by a serialized pairing result -/

theorem flatMap_pairingIds_enumFrom (l : List RawPair) (n : Nat) :
    ((List.enumFrom n l).map (fun ip =>
      (⟨playerRef ip.2.white, some (playerRef ip.2.black), ip.1 + 1, ip.2.white.id,
        some ip.2.black.id, ip.2.isRepeat, false⟩ : OutPairing))).flatMap pairingIds =
    (pairsFlat l).map (fun p => p.id) := by
  induction l generalizing n with
  | nil => rfl
  | cons pr l ih =>
      simp only [List.enumFrom, List.map_cons, List.flatMap_cons, pairsFlat,
        List.map_append]
      rw [show pairingIds (⟨playerRef pr.white, some (playerRef pr.black), n + 1, pr.white.id,
          some pr.black.id, pr.isRepeat, false⟩ : OutPairing) = [pr.white.id, pr.black.id]
        from rfl]
      have ih' := ih (n + 1)
      simp only [pairsFlat] at ih'
      rw [ih']
      rfl

theorem resultIds_buildPairingResult (r : SolveResult) (byePlayer : Option Player)
    (f : Bool) (reason : Option String) :
    resultIds (buildPairingResult (some r) byePlayer f reason) =
      (pairsFlat r.pairs).map (fun p => p.id) ++
        (match byePlayer with | some bye => [bye.id] | none => []) := by
  unfold buildPairingResult resultIds
  dsimp only
  cases byePlayer with
  | none =>
      rw [List.append_nil]
      exact flatMap_pairingIds_enumFrom r.pairs 0
  | some bye =>
      rw [List.flatMap_append,
        show r.pairs.enum = List.enumFrom 0 r.pairs from rfl,
        flatMap_pairingIds_enumFrom r.pairs 0]
      rfl

/-! ## `generateSwissRound`: the solver result behind every output -/

/-- Every `generateSwissRound` output is `buildPairingResult` applied to a
solver result covering the bye-removed pool, with the solver run in
no-repeat mode exactly when `forcedRepeat` is `false`. -/
theorem generateSwissRound_solve (players : List Player) (roundNumber : Nat)
    (rounds : List Round) (config : SwissConfig)
    (hnd : (players.map (fun p => p.id)).Nodup) :
    ∃ r : SolveResult,
      generateSwissRound players roundNumber rounds config =
        buildPairingResult (some r) (chooseBye players (buildHistory rounds))
          ((generateSwissRound players roundNumber rounds config).forcedRepeat)
          (if (generateSwissRound players roundNumber rounds config).forcedRepeat = true
            then some "no-repeat unsatisfiable" else none) ∧
      (match chooseBye players (buildHistory rounds) with
        | some bye =>
            ResultOk
              ⟨roundNumber, (buildHistory rounds).playedPairs,
                (buildHistory rounds).opponentsMap, (buildHistory rounds).lastRoundPairs,
                (generateSwissRound players roundNumber rounds config).forcedRepeat,
                fun _ => none, 0, config.topBottomWeight⟩
              (players.filter (fun p => decide (p.id ≠ bye.id))) r ∧
            players.Perm (bye :: players.filter (fun p => decide (p.id ≠ bye.id))) ∧
            ((generateSwissRound players roundNumber rounds config).forcedRepeat = true →
              generateSwissPairings (players.filter (fun p => decide (p.id ≠ bye.id)))
                roundNumber rounds
                ⟨config.getScore.getD (fun player => player.score), false,
                  (buildHistory rounds).playedPairs, (buildHistory rounds).opponentsMap,
                  (buildHistory rounds).lastRoundPairs, config.topBottomWeight⟩ = none ∧
              generateSwissPairings (players.filter (fun p => decide (p.id ≠ bye.id)))
                roundNumber rounds
                ⟨config.getScore.getD (fun player => player.score), true,
                  (buildHistory rounds).playedPairs, (buildHistory rounds).opponentsMap,
                  (buildHistory rounds).lastRoundPairs, config.topBottomWeight⟩ = some r)
        | none =>
            ResultOk
              ⟨roundNumber, (buildHistory rounds).playedPairs,
                (buildHistory rounds).opponentsMap, (buildHistory rounds).lastRoundPairs,
                (generateSwissRound players roundNumber rounds config).forcedRepeat,
                fun _ => none, 0, config.topBottomWeight⟩
              players r ∧
            ((generateSwissRound players roundNumber rounds config).forcedRepeat = true →
              generateSwissPairings players roundNumber rounds
                ⟨config.getScore.getD (fun player => player.score), false,
                  (buildHistory rounds).playedPairs, (buildHistory rounds).opponentsMap,
                  (buildHistory rounds).lastRoundPairs, config.topBottomWeight⟩ = none ∧
              generateSwissPairings players roundNumber rounds
                ⟨config.getScore.getD (fun player => player.score), true,
                  (buildHistory rounds).playedPairs, (buildHistory rounds).opponentsMap,
                  (buildHistory rounds).lastRoundPairs, config.topBottomWeight⟩ = some r)) := by
  cases hbye : chooseBye players (buildHistory rounds) with
  | none =>
      have heven : players.length % 2 = 0 := by
        rcases Nat.mod_two_eq_zero_or_one players.length with h | h
        · exact h
        · have hs := @chooseBye_isSome_of_odd players (buildHistory rounds) h
          rw [hbye] at hs
          simp at hs
      cases hnr : generateSwissPairings players roundNumber rounds
          ⟨config.getScore.getD (fun player => player.score), false,
            (buildHistory rounds).playedPairs, (buildHistory rounds).opponentsMap,
            (buildHistory rounds).lastRoundPairs, config.topBottomWeight⟩ with
      | some r =>
          have hmain : generateSwissRound players roundNumber rounds config =
              buildPairingResult (some r) none false none := by
            simp only [generateSwissRound]
            rw [hbye]
            dsimp only
            rw [hnr]
          refine ⟨r, ?_, ?_⟩
          · rw [hmain]
            rfl
          · dsimp only
            rw [hmain]
            refine ⟨generateSwissPairings_resultOk players roundNumber rounds _ hnd r hnr, ?_⟩
            intro hfr
            simp [buildPairingResult] at hfr
      | none =>
          have hrep := generateSwissPairings_isSome players roundNumber rounds
            ⟨config.getScore.getD (fun player => player.score), true,
              (buildHistory rounds).playedPairs, (buildHistory rounds).opponentsMap,
              (buildHistory rounds).lastRoundPairs, config.topBottomWeight⟩
            rfl hnd heven
          obtain ⟨r2, hr2⟩ := Option.isSome_iff_exists.mp hrep
          have hmain : generateSwissRound players roundNumber rounds config =
              buildPairingResult (some r2) none true (some "no-repeat unsatisfiable") := by
            simp only [generateSwissRound]
            rw [hbye]
            dsimp only
            rw [hnr]
            dsimp only
            rw [hr2]
          refine ⟨r2, ?_, ?_⟩
          · rw [hmain]
            rfl
          · dsimp only
            rw [hmain]
            exact ⟨generateSwissPairings_resultOk players roundNumber rounds _ hnd r2 hr2,
              fun hfr => ⟨by first | exact hnr | rfl, hr2⟩⟩
  | some bye =>
      have hodd : players.length % 2 = 1 := chooseBye_odd_of_some hbye
      have hmem : bye ∈ players := chooseBye_mem hbye
      have hperm : players.Perm (bye :: players.filter (fun p => decide (p.id ≠ bye.id))) :=
        perm_cons_filter_ne hnd hmem
      have hpoolnd : ((players.filter (fun p => decide (p.id ≠ bye.id))).map
          (fun p => p.id)).Nodup :=
        nodup_ids_of_subperm (List.filter_sublist _).subperm hnd
      have hpooleven : (players.filter (fun p => decide (p.id ≠ bye.id))).length % 2 = 0 := by
        have hlen := hperm.length_eq
        rw [List.length_cons] at hlen
        omega
      cases hnr : generateSwissPairings (players.filter (fun p => decide (p.id ≠ bye.id)))
          roundNumber rounds
          ⟨config.getScore.getD (fun player => player.score), false,
            (buildHistory rounds).playedPairs, (buildHistory rounds).opponentsMap,
            (buildHistory rounds).lastRoundPairs, config.topBottomWeight⟩ with
      | some r =>
          have hmain : generateSwissRound players roundNumber rounds config =
              buildPairingResult (some r) (some bye) false none := by
            simp only [generateSwissRound]
            rw [hbye]
            dsimp only
            rw [hnr]
          refine ⟨r, ?_, ?_⟩
          · rw [hmain]
            rfl
          · dsimp only
            rw [hmain]
            exact ⟨generateSwissPairings_resultOk _ roundNumber rounds _ hpoolnd r hnr, hperm,
              fun hfr => by simp [buildPairingResult] at hfr⟩
      | none =>
          have hrep := generateSwissPairings_isSome
            (players.filter (fun p => decide (p.id ≠ bye.id))) roundNumber rounds
            ⟨config.getScore.getD (fun player => player.score), true,
              (buildHistory rounds).playedPairs, (buildHistory rounds).opponentsMap,
              (buildHistory rounds).lastRoundPairs, config.topBottomWeight⟩
            rfl hpoolnd hpooleven
          obtain ⟨r2, hr2⟩ := Option.isSome_iff_exists.mp hrep
          have hmain : generateSwissRound players roundNumber rounds config =
              buildPairingResult (some r2) (some bye) true (some "no-repeat unsatisfiable") := by
            simp only [generateSwissRound]
            rw [hbye]
            dsimp only
            rw [hnr]
            dsimp only
            rw [hr2]
          refine ⟨r2, ?_, ?_⟩
          · rw [hmain]
            rfl
          · dsimp only
            rw [hmain]
            exact ⟨generateSwissPairings_resultOk _ roundNumber rounds _ hpoolnd r2 hr2, hperm,
              fun hfr => ⟨by first | exact hnr | rfl, hr2⟩⟩

theorem mem_buildPairingResult {r : SolveResult} {byeP : Option Player} {f : Bool}
    {reason : Option String} {op : OutPairing}
    (hop : op ∈ (buildPairingResult (some r) byeP f reason).pairings)
    (hnb : op.isBye = false) :
    ∃ pr ∈ r.pairs, op.whitePlayerId = pr.white.id ∧ op.blackPlayerId = some pr.black.id ∧
      op.isRepeat = pr.isRepeat := by
  unfold buildPairingResult at hop
  dsimp only at hop
  have hmatch : ∀ op2 ∈ r.pairs.enum.map (fun ip =>
      (⟨playerRef ip.2.white, some (playerRef ip.2.black), ip.1 + 1, ip.2.white.id,
        some ip.2.black.id, ip.2.isRepeat, false⟩ : OutPairing)),
      ∃ pr ∈ r.pairs, op2.whitePlayerId = pr.white.id ∧
        op2.blackPlayerId = some pr.black.id ∧ op2.isRepeat = pr.isRepeat := by
    intro op2 hop2
    obtain ⟨ip, hip, heq⟩ := List.mem_map.mp hop2
    have hmem : ip.2 ∈ r.pairs := by
      have h1 : ip.2 ∈ r.pairs.enum.map Prod.snd := List.mem_map_of_mem _ hip
      rw [List.enum_map_snd] at h1
      exact h1
    refine ⟨ip.2, hmem, ?_, ?_, ?_⟩ <;> rw [← heq]
  cases byeP with
  | none => exact hmatch op hop
  | some bye =>
      rcases List.mem_append.mp hop with h | h
      · exact hmatch op h
      · exfalso
        rw [List.mem_singleton] at h
        rw [h] at hnb
        simp at hnb

/-! ## The legacy solver: coverage and repeat-mode existence -/

theorem sp_assignColors_cases (p q : Player) (r : Nat) :
    SwissPairing.assignColors p q r = ⟨p, q⟩ ∨ SwissPairing.assignColors p q r = ⟨q, p⟩ := by
  simp only [SwissPairing.assignColors]
  split_ifs <;> try first | exact Or.inl rfl | exact Or.inr rfl
  all_goals rcases (SwissPairing.getLastColors p 2).getLast? with _ | c
  all_goals try first | exact Or.inl rfl | exact Or.inr rfl
  all_goals cases c
  all_goals first | exact Or.inl rfl | exact Or.inr rfl

theorem sp_buildCandidate_roles (ctx : SwissPairing.FBContext) (player opp : Player) :
    ((SwissPairing.buildCandidate ctx player opp).white = player ∧
      (SwissPairing.buildCandidate ctx player opp).black = opp) ∨
    ((SwissPairing.buildCandidate ctx player opp).white = opp ∧
      (SwissPairing.buildCandidate ctx player opp).black = player) := by
  simp only [SwissPairing.buildCandidate]
  rcases sp_assignColors_cases player opp ctx.roundNumber with h | h <;> rw [h]
  · exact Or.inl ⟨rfl, rfl⟩
  · exact Or.inr ⟨rfl, rfl⟩

theorem sp_buildCandidate_flat_perm (ctx : SwissPairing.FBContext) (player opp : Player) :
    ([(SwissPairing.buildCandidate ctx player opp).white,
      (SwissPairing.buildCandidate ctx player opp).black] : List Player).Perm [player, opp] := by
  rcases sp_buildCandidate_roles ctx player opp with ⟨hw, hb⟩ | ⟨hw, hb⟩ <;> rw [hw, hb] <;>
    first
      | exact List.Perm.refl _
      | exact List.Perm.swap _ _ _

theorem sp_availableOpponents_subset (player : Player) {candidates : List Player}
    (pp : List (PlayerId × PlayerId)) (ar : Bool) (om : PlayerId → List PlayerId) {x : Player}
    (hx : x ∈ SwissPairing.availableOpponents player candidates pp ar om) : x ∈ candidates := by
  unfold SwissPairing.availableOpponents at hx
  split at hx
  · exact hx
  · exact List.mem_of_mem_filter hx

theorem sp_candidate_mem_map (ctx : SwissPairing.FBContext) (player : Player)
    {available : List Player} {cand : Candidate}
    (hcand : cand ∈ sortBy SwissPairing.fbCandLE
      (available.map (SwissPairing.buildCandidate ctx player))) :
    ∃ opp ∈ available, cand = SwissPairing.buildCandidate ctx player opp := by
  have h1 : cand ∈ available.map (SwissPairing.buildCandidate ctx player) :=
    (sortBy_perm SwissPairing.fbCandLE _).subset hcand
  obtain ⟨opp, ho, he⟩ := List.mem_map.mp h1
  exact ⟨opp, ho, he.symm⟩

theorem sp_mcfIndex_lt (ctx : SwissPairing.FBContext) (remaining : List Player)
    (h : remaining ≠ []) : SwissPairing.mcfIndex ctx remaining < remaining.length := by
  obtain ⟨p, rest, rfl⟩ := List.exists_cons_of_ne_nil h
  unfold SwissPairing.mcfIndex
  rw [List.enum_cons]
  rw [List.foldl_cons]
  refine (foldl_preserve (fun acc : Nat × Option Nat =>
    acc.2.isSome ∧ acc.1 < (p :: rest).length) ?_ ?_).2
  · constructor
    · simp
    · simp
  · intro b a ha hb
    have hidx : a.1 < (p :: rest).length := by
      have := (List.mem_enumFrom ha).2.1
      simp only [List.length_cons]
      omega
    rcases hb2 : b.2 with _ | bc
    · rw [hb2] at hb
      simp at hb
    · simp only [hb2]
      split
      · exact ⟨by simp, hidx⟩
      · exact hb

theorem sp_backtrack_isSome_mono (ctx : SwissPairing.FBContext) :
    ∀ (fuel : Nat) (remaining : List Player) (cur : List RawPair) (cost : ℚ) (rc : Nat)
      (best : Option SolveResult), best.isSome →
      (SwissPairing.backtrack ctx fuel remaining cur cost rc best).isSome := by
  intro fuel
  induction fuel with
  | zero =>
      intro remaining cur cost rc best hb
      cases remaining with
      | nil =>
          obtain ⟨b, rfl⟩ := Option.isSome_iff_exists.mp hb
          simp only [SwissPairing.backtrack]
          split <;> simp
      | cons p rest => simpa [SwissPairing.backtrack] using hb
  | succ n ih =>
      intro remaining cur cost rc best hb
      cases remaining with
      | nil =>
          obtain ⟨b, rfl⟩ := Option.isSome_iff_exists.mp hb
          simp only [SwissPairing.backtrack]
          split <;> simp
      | cons p rest =>
          simp only [SwissPairing.backtrack]
          split
          · exact hb
          · refine foldl_preserve (fun acc : Option SolveResult => acc.isSome = true)
              hb ?_
            intro acc cand hcand hacc
            dsimp only
            split <;> split <;> first | exact hacc | exact ih _ _ _ _ _ hacc

theorem sp_backtrack_nil_cover (ctx : SwissPairing.FBContext) (full : List Player)
    (fuel : Nat) (cur : List RawPair) (cost : ℚ) (rc : Nat) (best : Option SolveResult)
    (hperm : (pairsFlat cur ++ ([] : List Player)).Perm full)
    (hbest : ∀ b, best = some b → (pairsFlat b.pairs).Perm full) :
    ∀ b, SwissPairing.backtrack ctx fuel [] cur cost rc best = some b →
      (pairsFlat b.pairs).Perm full := by
  intro b hb
  cases best with
  | none =>
      have he : SwissPairing.backtrack ctx fuel [] cur cost rc none =
          some ⟨cur, cost, rc⟩ := by
        cases fuel <;> rfl
      rw [he, Option.some_inj] at hb
      subst hb
      simpa using hperm
  | some b0 =>
      have he : SwissPairing.backtrack ctx fuel [] cur cost rc (some b0) =
          if betterThan ctx.allowRepeats cost rc b0 then some ⟨cur, cost, rc⟩ else some b0 := by
        cases fuel <;> rfl
      rw [he] at hb
      split at hb <;> rw [Option.some_inj] at hb <;> subst hb
      · simpa using hperm
      · exact hbest b0 rfl

theorem sp_backtrack_cover (ctx : SwissPairing.FBContext) (full : List Player)
    (hfull : (full.map (fun p => p.id)).Nodup) :
    ∀ (fuel : Nat) (remaining : List Player) (cur : List RawPair) (cost : ℚ) (rc : Nat)
      (best : Option SolveResult),
      (pairsFlat cur ++ remaining).Perm full →
      (∀ b0, best = some b0 → (pairsFlat b0.pairs).Perm full) →
      ∀ b, SwissPairing.backtrack ctx fuel remaining cur cost rc best = some b →
        (pairsFlat b.pairs).Perm full := by
  intro fuel
  induction fuel with
  | zero =>
      intro remaining cur cost rc best hperm hbest b hb
      cases remaining with
      | nil => exact sp_backtrack_nil_cover ctx full 0 cur cost rc best hperm hbest b hb
      | cons p rest =>
          have he : SwissPairing.backtrack ctx 0 (p :: rest) cur cost rc best = best := rfl
          rw [he] at hb
          exact hbest b hb
  | succ n ih =>
      intro remaining cur cost rc best hperm hbest b hb
      cases remaining with
      | nil =>
          exact sp_backtrack_nil_cover ctx full (n + 1) cur cost rc best hperm hbest b hb
      | cons p rest =>
          simp only [SwissPairing.backtrack] at hb
          set player := (p :: rest).getD (SwissPairing.mcfIndex ctx (p :: rest)) default
            with hplayer
          set rest1 := (p :: rest).eraseIdx (SwissPairing.mcfIndex ctx (p :: rest)) with hrest1
          have hpr : (p :: rest).Perm (player :: rest1) :=
            perm_getD_cons_eraseIdx (sp_mcfIndex_lt ctx (p :: rest) (by simp))
          have hnodup : ((p :: rest).map (fun q => q.id)).Nodup :=
            nodup_ids_of_append_perm hperm hfull
          have hnodup1 : ((player :: rest1).map (fun q => q.id)).Nodup :=
            (hpr.map _).nodup hnodup
          have hrest1_nodup : (rest1.map (fun q => q.id)).Nodup := by
            rw [List.map_cons, List.nodup_cons] at hnodup1
            exact hnodup1.2
          split at hb
          · exact hbest b hb
          · refine foldl_preserve (fun acc : Option SolveResult =>
              ∀ b0, acc = some b0 → (pairsFlat b0.pairs).Perm full) hbest ?_ b hb
            intro acc cand hcand hP
            obtain ⟨opp, hoppav, rfl⟩ := sp_candidate_mem_map ctx player hcand
            have hoppeq : (SwissPairing.buildCandidate ctx player opp).opponent = opp := rfl
            rw [hoppeq]
            have hopp_rest : opp ∈ rest1 :=
              sp_availableOpponents_subset player ctx.playedPairs ctx.allowRepeats
                ctx.opponentsMap hoppav
            have hK2 : rest1.Perm (opp :: rest1.filter (fun q => decide (q.id ≠ opp.id))) :=
              perm_cons_filter_ne hrest1_nodup hopp_rest
            have hflatperm :
                (pairsFlat (cur ++ [⟨(SwissPairing.buildCandidate ctx player opp).white,
                    (SwissPairing.buildCandidate ctx player opp).black,
                    (SwissPairing.buildCandidate ctx player opp).isRepeat⟩]) ++
                  rest1.filter (fun q => decide (q.id ≠ opp.id))).Perm full := by
              rw [pairsFlat_append_single, List.append_assoc]
              refine List.Perm.trans ?_ hperm
              refine List.Perm.append_left (pairsFlat cur) ?_
              refine List.Perm.trans ?_ hpr.symm
              have h1 := (sp_buildCandidate_flat_perm ctx player opp).append_right
                (rest1.filter (fun q => decide (q.id ≠ opp.id)))
              refine h1.trans ?_
              exact (hK2.symm.cons player)
            split
            · split
              · exact hP
              · intro b0 hb0
                exact ih _ _ _ _ acc hflatperm hP b0 hb0
            · split
              · exact hP
              · intro b0 hb0
                exact ih _ _ _ _ acc hflatperm hP b0 hb0

theorem sp_backtrack_nil_isSome (ctx : SwissPairing.FBContext) (fuel : Nat)
    (cur : List RawPair) (cost : ℚ) (rc : Nat) (best : Option SolveResult) :
    (SwissPairing.backtrack ctx fuel [] cur cost rc best).isSome := by
  cases best with
  | none =>
      have he : SwissPairing.backtrack ctx fuel [] cur cost rc none =
          some ⟨cur, cost, rc⟩ := by
        cases fuel <;> rfl
      rw [he]
      rfl
  | some b0 =>
      have he : SwissPairing.backtrack ctx fuel [] cur cost rc (some b0) =
          if betterThan ctx.allowRepeats cost rc b0 then some ⟨cur, cost, rc⟩ else some b0 := by
        cases fuel <;> rfl
      rw [he]
      split <;> rfl

theorem sp_backtrack_isSome_of_allowRepeats (ctx : SwissPairing.FBContext)
    (hmode : ctx.allowRepeats = true) :
    ∀ (fuel : Nat) (remaining : List Player) (cur : List RawPair) (cost : ℚ) (rc : Nat)
      (best : Option SolveResult),
      remaining.length % 2 = 0 →
      remaining.length ≤ fuel →
      (remaining.map (fun q => q.id)).Nodup →
      (SwissPairing.backtrack ctx fuel remaining cur cost rc best).isSome := by
  intro fuel
  induction fuel with
  | zero =>
      intro remaining cur cost rc best heven hlen hnd
      cases remaining with
      | nil => exact sp_backtrack_nil_isSome ctx 0 cur cost rc best
      | cons p rest => simp at hlen
  | succ n ih =>
      intro remaining cur cost rc best heven hlen hnd
      cases remaining with
      | nil => exact sp_backtrack_nil_isSome ctx (n + 1) cur cost rc best
      | cons p rest =>
          simp only [SwissPairing.backtrack]
          set player := (p :: rest).getD (SwissPairing.mcfIndex ctx (p :: rest)) default
            with hplayer
          set rest1 := (p :: rest).eraseIdx (SwissPairing.mcfIndex ctx (p :: rest)) with hrest1
          have hpr : (p :: rest).Perm (player :: rest1) :=
            perm_getD_cons_eraseIdx (sp_mcfIndex_lt ctx (p :: rest) (by simp))
          have hnodup1 : ((player :: rest1).map (fun q => q.id)).Nodup := (hpr.map _).nodup hnd
          have hrest1_nodup : (rest1.map (fun q => q.id)).Nodup := by
            rw [List.map_cons, List.nodup_cons] at hnodup1
            exact hnodup1.2
          have hav : SwissPairing.availableOpponents player rest1 ctx.playedPairs
              ctx.allowRepeats ctx.opponentsMap = rest1 := by
            unfold SwissPairing.availableOpponents
            rw [hmode]
            simp
          rw [hav]
          have hlen1 : rest1.length = rest.length := by
            rw [hrest1, List.length_eraseIdx,
              if_pos (sp_mcfIndex_lt ctx (p :: rest) (by simp))]
            simp
          have hne : rest1 ≠ [] := by
            intro h
            rw [h] at hlen1
            simp only [List.length_nil] at hlen1
            rw [List.length_cons, ← hlen1] at heven
            omega
          rw [if_neg (by simpa [List.isEmpty_iff] using hne)]
          have hsne : sortBy SwissPairing.fbCandLE
              (rest1.map (SwissPairing.buildCandidate ctx player)) ≠ [] := by
            intro h
            have h2 := (sortBy_perm SwissPairing.fbCandLE
              (rest1.map (SwissPairing.buildCandidate ctx player))).length_eq
            rw [h] at h2
            simp only [List.length_nil, List.length_map] at h2
            exact hne (List.length_eq_zero.mp h2.symm)
          obtain ⟨c, cs, hcs⟩ := List.exists_cons_of_ne_nil hsne
          have hcmem : c ∈ sortBy SwissPairing.fbCandLE
              (rest1.map (SwissPairing.buildCandidate ctx player)) := by
            rw [hcs]
            exact List.mem_cons_self _ _
          obtain ⟨opp, hopp, rfl⟩ := sp_candidate_mem_map ctx player hcmem
          refine foldl_isSome_of_mem hcmem ?_ ?_
          · have hoppeq : (SwissPairing.buildCandidate ctx player opp).opponent = opp := rfl
            rw [hoppeq, pruneBranch_none]
            simp only [Bool.false_eq_true, if_false]
            have hK2 : rest1.Perm (opp :: rest1.filter (fun q => decide (q.id ≠ opp.id))) :=
              perm_cons_filter_ne hrest1_nodup hopp
            have hfl : (rest1.filter (fun q => decide (q.id ≠ opp.id))).length + 1 =
                rest1.length := by
              rw [hK2.length_eq]
              simp [Nat.add_comm]
            refine ih _ _ _ _ none ?_ ?_ ?_
            · rw [List.length_cons] at heven
              omega
            · rw [List.length_cons] at hlen
              omega
            · have hsub : (rest1.filter (fun q => decide (q.id ≠ opp.id))).Sublist rest1 :=
                List.filter_sublist _
              exact ((hsub.map _).nodup hrest1_nodup)
          · intro acc a ha hacc
            dsimp only
            split <;> split <;>
              first
                | exact hacc
                | exact sp_backtrack_isSome_mono ctx n _ _ _ _ acc hacc

theorem sp_findBestPairings_cover (ctx : SwissPairing.FBContext) (players : List Player)
    (hnd : (players.map (fun p => p.id)).Nodup) :
    ∀ b, SwissPairing.findBestPairings players ctx = some b →
      (pairsFlat b.pairs).Perm players := by
  intro b hb
  unfold SwissPairing.findBestPairings at hb
  split at hb
  · rw [Option.some_inj] at hb
    subst hb
    have hpl : players = [] := by
      simpa [List.isEmpty_iff] using (by assumption : players.isEmpty = true)
    rw [hpl]
    simp [pairsFlat]
  · exact sp_backtrack_cover ctx players hnd _ players [] 0 0 none (by simp [pairsFlat])
      (fun b0 h0 => absurd h0 (by simp)) b hb

theorem sp_findBestPairings_isSome_allowRepeats (ctx : SwissPairing.FBContext)
    (hmode : ctx.allowRepeats = true) (players : List Player)
    (heven : players.length % 2 = 0) (hnd : (players.map (fun p => p.id)).Nodup) :
    (SwissPairing.findBestPairings players ctx).isSome := by
  unfold SwissPairing.findBestPairings
  split
  · rfl
  · exact sp_backtrack_isSome_of_allowRepeats ctx hmode _ players [] 0 0 none heven
      (Nat.le_succ _) hnd


theorem flatMap_single_bye (p1 : PairingRef) (bn : Nat) (w : PlayerId) :
    ([(⟨p1, none, bn, w, none, false, true⟩ : OutPairing)]).flatMap pairingIds = [w] := rfl

/-- Completeness of the legacy entry point on pools of size ≥ 2: the result
mentions every competitor of the pool exactly once. -/
theorem sp_generatePairings_complete (players : List Player) (roundNumber : Nat)
    (allPlayers : Option (List Player)) (rounds : List Round)
    (hnd : (players.map (fun p => p.id)).Nodup) (hlen : 2 ≤ players.length) :
    (resultIds (SwissPairing.generatePairings players roundNumber allPlayers rounds)).Perm
      (players.map (fun p => p.id)) := by
  have hsp : (sortBy (SwissPairing.sortedLE (SwissPairing.pairingNumberOf allPlayers))
      players).Perm players :=
    sortBy_perm _ _
  have hsnd : ((sortBy (SwissPairing.sortedLE (SwissPairing.pairingNumberOf allPlayers))
      players).map (fun p => p.id)).Nodup := nodup_ids_of_perm hsp hnd
  simp only [SwissPairing.generatePairings]
  rw [if_neg (by omega)]
  by_cases hpar : (sortBy (SwissPairing.sortedLE (SwissPairing.pairingNumberOf allPlayers))
      players).length % 2 = 1
  · have hne : sortBy (SwissPairing.sortedLE (SwissPairing.pairingNumberOf allPlayers))
        players ≠ [] := by
      intro h
      rw [h] at hpar
      simp at hpar
    have hlast := List.getLast?_eq_getLast _ hne
    have hsplitL := List.dropLast_append_getLast hne
    have hpoolnd : (((sortBy (SwissPairing.sortedLE (SwissPairing.pairingNumberOf allPlayers))
        players).dropLast).map (fun p => p.id)).Nodup :=
      nodup_ids_of_subperm (List.dropLast_sublist _).subperm hsnd
    have hpooleven : ((sortBy (SwissPairing.sortedLE (SwissPairing.pairingNumberOf allPlayers))
        players).dropLast).length % 2 = 0 := by
      rw [List.length_dropLast]
      omega
    rw [if_pos hpar, if_pos hpar, hlast]
    dsimp only
    cases hnr : SwissPairing.findBestPairings
        ((sortBy (SwissPairing.sortedLE (SwissPairing.pairingNumberOf allPlayers))
          players).dropLast)
        ⟨roundNumber, (SwissPairing.buildPlayedPairs players).1,
          (SwissPairing.buildPlayedPairs players).2,
          SwissPairing.getLastRoundPairs rounds roundNumber, false⟩ with
    | some r =>
        dsimp only
        have hcov := sp_findBestPairings_cover _ _ hpoolnd r hnr
        simp only [resultIds]
        rw [List.flatMap_append,
          show r.pairs.enum = List.enumFrom 0 r.pairs from rfl,
          flatMap_pairingIds_enumFrom r.pairs 0, flatMap_single_bye]
        refine ((hcov.map (fun p => p.id)).append_right _).trans ?_
        have h2 : ((sortBy (SwissPairing.sortedLE (SwissPairing.pairingNumberOf allPlayers))
            players).dropLast).map (fun p => p.id) ++
            [((sortBy (SwissPairing.sortedLE (SwissPairing.pairingNumberOf allPlayers))
              players).getLast hne).id] =
            (((sortBy (SwissPairing.sortedLE (SwissPairing.pairingNumberOf allPlayers))
              players).dropLast) ++
              [(sortBy (SwissPairing.sortedLE (SwissPairing.pairingNumberOf allPlayers))
                players).getLast hne]).map (fun p => p.id) := by
          simp
        rw [h2, hsplitL]
        exact hsp.map _
    | none =>
        have hsome := sp_findBestPairings_isSome_allowRepeats
          ⟨roundNumber, (SwissPairing.buildPlayedPairs players).1,
            (SwissPairing.buildPlayedPairs players).2,
            SwissPairing.getLastRoundPairs rounds roundNumber, true⟩
          rfl _ hpooleven hpoolnd
        obtain ⟨r2, hr2⟩ := Option.isSome_iff_exists.mp hsome
        dsimp only
        rw [hr2]
        dsimp only
        have hcov := sp_findBestPairings_cover _ _ hpoolnd r2 hr2
        simp only [resultIds]
        rw [List.flatMap_append,
          show r2.pairs.enum = List.enumFrom 0 r2.pairs from rfl,
          flatMap_pairingIds_enumFrom r2.pairs 0, flatMap_single_bye]
        refine ((hcov.map (fun p => p.id)).append_right _).trans ?_
        have h2 : ((sortBy (SwissPairing.sortedLE (SwissPairing.pairingNumberOf allPlayers))
            players).dropLast).map (fun p => p.id) ++
            [((sortBy (SwissPairing.sortedLE (SwissPairing.pairingNumberOf allPlayers))
              players).getLast hne).id] =
            (((sortBy (SwissPairing.sortedLE (SwissPairing.pairingNumberOf allPlayers))
              players).dropLast) ++
              [(sortBy (SwissPairing.sortedLE (SwissPairing.pairingNumberOf allPlayers))
                players).getLast hne]).map (fun p => p.id) := by
          simp
        rw [h2, hsplitL]
        exact hsp.map _
  · have heven : (sortBy (SwissPairing.sortedLE (SwissPairing.pairingNumberOf allPlayers))
        players).length % 2 = 0 := by
      omega
    rw [if_neg hpar, if_neg hpar]
    dsimp only
    cases hnr : SwissPairing.findBestPairings
        (sortBy (SwissPairing.sortedLE (SwissPairing.pairingNumberOf allPlayers)) players)
        ⟨roundNumber, (SwissPairing.buildPlayedPairs players).1,
          (SwissPairing.buildPlayedPairs players).2,
          SwissPairing.getLastRoundPairs rounds roundNumber, false⟩ with
    | some r =>
        dsimp only
        have hcov := sp_findBestPairings_cover _ _ hsnd r hnr
        simp only [resultIds]
        rw [show r.pairs.enum = List.enumFrom 0 r.pairs from rfl,
          flatMap_pairingIds_enumFrom r.pairs 0]
        exact (hcov.map (fun p => p.id)).trans (hsp.map _)
    | none =>
        have hsome := sp_findBestPairings_isSome_allowRepeats
          ⟨roundNumber, (SwissPairing.buildPlayedPairs players).1,
            (SwissPairing.buildPlayedPairs players).2,
            SwissPairing.getLastRoundPairs rounds roundNumber, true⟩
          rfl _ heven hsnd
        obtain ⟨r2, hr2⟩ := Option.isSome_iff_exists.mp hsome
        dsimp only
        rw [hr2]
        dsimp only
        have hcov := sp_findBestPairings_cover _ _ hsnd r2 hr2
        simp only [resultIds]
        rw [show r2.pairs.enum = List.enumFrom 0 r2.pairs from rfl,
          flatMap_pairingIds_enumFrom r2.pairs 0]
        exact (hcov.map (fun p => p.id)).trans (hsp.map _)

/-- C1 (amended): for a pool with distinct ids, the pairing result of
`generateSwissRound` mentions every competitor of the pool exactly once —
the multiset of ids over all match pairings and the bye entry is exactly
the pool's id multiset — and for pools of size ≥ 2 the result of
`SwissPairing.generatePairings` does the same. -/
theorem c1_completeness (players : List Player) (roundNumber : Nat) (rounds : List Round)
    (config : SwissConfig) (allPlayers : Option (List Player))
    (hnd : (players.map (fun p => p.id)).Nodup) :
    (resultIds (generateSwissRound players roundNumber rounds config)).Perm
      (players.map (fun p => p.id)) ∧
    (2 ≤ players.length →
      (resultIds (SwissPairing.generatePairings players roundNumber allPlayers rounds)).Perm
        (players.map (fun p => p.id))) := by
  refine ⟨?_,
    fun hlen => sp_generatePairings_complete players roundNumber allPlayers rounds hnd hlen⟩
  obtain ⟨r, hmain, hrest⟩ := generateSwissRound_solve players roundNumber rounds config hnd
  cases hbye : chooseBye players (buildHistory rounds) with
  | none =>
      rw [hbye] at hmain hrest
      dsimp only at hrest
      rw [hmain, resultIds_buildPairingResult]
      dsimp only
      rw [List.append_nil]
      exact hrest.1.1.map (fun p => p.id)
  | some bye =>
      rw [hbye] at hmain hrest
      dsimp only at hrest
      obtain ⟨hres, hperm, -⟩ := hrest
      rw [hmain, resultIds_buildPairingResult]
      dsimp only
      have hstep := (hperm.map (fun p => p.id)).symm
      rw [List.map_cons] at hstep
      have hcomm : ((players.filter (fun p => decide (p.id ≠ bye.id))).map (fun p => p.id)
          ++ [bye.id]).Perm
          (bye.id :: (players.filter (fun p => decide (p.id ≠ bye.id))).map (fun p => p.id)) :=
        List.perm_append_comm
      exact ((hres.1.map (fun p => p.id)).append_right [bye.id]).trans (hcomm.trans hstep)

/-- Closed instance of `c1_completeness`: a three-player first round (one
bye plus one match pairing covers ids 1, 2, 3 exactly once, under both
entry points). -/
theorem c1_completeness_witness :
    (resultIds (generateSwissRound c1players 1 [] ⟨none, 0⟩)).Perm
      (c1players.map (fun p => p.id)) ∧
    (2 ≤ c1players.length →
      (resultIds (SwissPairing.generatePairings c1players 1 none [])).Perm
        (c1players.map (fun p => p.id))) :=
  c1_completeness c1players 1 [] ⟨none, 0⟩ none (by decide)

/-- C1 counterexample for the legacy entry point: a singleton pool yields
an empty result from `SwissPairing.generatePairings`, so its only
competitor is mentioned by no pairing and no bye. -/
theorem c1_counterexample :
    ¬ (resultIds (SwissPairing.generatePairings [c1solo] 1 none [])).Perm
      ([c1solo].map (fun p => p.id)) := by
  decide

/-! ## Soundness: every solver result follows a score-group decomposition -/

theorem pairsFlat_length (l : List RawPair) : (pairsFlat l).length = 2 * l.length := by
  induction l with
  | nil => rfl
  | cons pr l ih =>
      have he : pairsFlat (pr :: l) = pr.white :: pr.black :: pairsFlat l := rfl
      rw [he, List.length_cons, List.length_cons, ih, List.length_cons]
      omega

theorem flatMap_pair_map (ps : List RawPair) :
    ((ps.map (fun pr => (pr.white, pr.black))).flatMap (fun q => [q.1, q.2])) = pairsFlat ps := by
  induction ps with
  | nil => rfl
  | cons pr l ih =>
      simp only [List.map_cons, List.flatMap_cons]
      rw [ih]
      rfl

theorem freeMatching_of_pairs {ctx : GroupContext}
    (hOk : ∀ a b : PlayerId,
      (ctx.opponentsMap a).contains b = ctx.playedPairs.contains (pairKey a b))
    (ps1 : List RawPair)
    (hflags : ∀ pr ∈ ps1,
      ctx.playedPairs.contains (pairKey pr.white.id pr.black.id) = false)
    (l : List Player) (hp : (pairsFlat ps1).Perm l) :
    FreeMatching ctx.opponentsMap l (ps1.map (fun pr => (pr.white, pr.black))) := by
  constructor
  · rw [flatMap_pair_map]
    exact hp
  · intro q hq
    obtain ⟨pr, hpr, heq⟩ := List.mem_map.mp hq
    subst heq
    constructor
    · rw [hOk]
      exact hflags pr hpr
    · rw [hOk, pairKey_comm]
      exact hflags pr hpr

theorem trySolveGroup_decomp (ctx : GroupContext) (full : List Player)
    (hfull : (full.map (fun p => p.id)).Nodup) (Top : List RawPair → Prop)
    (gs : List ScoreGroup)
    (ihgs : ∀ (carry : List Player) (pairs : List RawPair) (cost : ℚ) (rc : Nat)
      (best : Option SolveResult),
      (pairsFlat pairs ++ (carry ++ groupsPlayers gs)).Perm full →
      (∀ tail, DecompCover gs carry tail → Top (pairs ++ tail)) →
      (∀ b0, best = some b0 → Top b0.pairs) →
      ∀ b, solveGroupIndex ctx gs carry pairs cost rc best = some b → Top b.pairs)
    (pairs : List RawPair) (cost : ℚ) (rc : Nat) (remaining nextCarry : List Player)
    (best : Option SolveResult)
    (hperm : (pairsFlat pairs ++ (remaining ++ (nextCarry ++ groupsPlayers gs))).Perm full)
    (hcont : ∀ ps1 tail, (pairsFlat ps1).Perm remaining →
      DecompCover gs nextCarry tail → Top (pairs ++ (ps1 ++ tail)))
    (hbest : ∀ b0, best = some b0 → Top b0.pairs) :
    ∀ b, trySolveGroup ctx (solveGroupIndex ctx gs) pairs cost rc remaining nextCarry best =
      some b → Top b.pairs := by
  intro b hb
  unfold trySolveGroup at hb
  split at hb
  · exact hbest b hb
  · dsimp only at hb
    split at hb
    · exact hbest b hb
    · rename_i gr hsolve
      have hnd_rem : (remaining.map (fun p => p.id)).Nodup := by
        refine nodup_ids_of_subperm ?_ hfull
        refine List.Subperm.trans ?_ hperm.subperm
        refine List.Sublist.subperm ?_
        refine List.Sublist.trans ?_ (List.sublist_append_right (pairsFlat pairs) _)
        exact List.sublist_append_left _ _
      have hgr := solveGroupPairings_resultOk _ remaining hnd_rem gr hsolve
      refine ihgs nextCarry (pairs ++ gr.pairs) _ (rc + gr.repeatCount) best ?_ ?_ hbest b hb
      · rw [pairsFlat_append, List.append_assoc]
        refine List.Perm.trans (List.Perm.append_left (pairsFlat pairs) ?_) hperm
        exact hgr.1.append_right _
      · intro tail hc
        rw [List.append_assoc]
        exact hcont gr.pairs tail hgr.1 hc

theorem solveGroupIndex_decomp (ctx : GroupContext) (full : List Player)
    (hfull : (full.map (fun p => p.id)).Nodup) (Top : List RawPair → Prop) :
    ∀ (groups : List ScoreGroup) (carry : List Player) (pairs : List RawPair) (cost : ℚ)
      (rc : Nat) (best : Option SolveResult),
      (pairsFlat pairs ++ (carry ++ groupsPlayers groups)).Perm full →
      (∀ tail, DecompCover groups carry tail → Top (pairs ++ tail)) →
      (∀ b0, best = some b0 → Top b0.pairs) →
      ∀ b, solveGroupIndex ctx groups carry pairs cost rc best = some b → Top b.pairs := by
  intro groups
  induction groups with
  | nil =>
      intro carry pairs cost rc best hperm hacc hbest b hb
      simp only [solveGroupIndex] at hb
      split at hb
      · exact hbest b hb
      · rename_i hcarry
        have hc : carry = [] := by
          rcases carry with _ | ⟨x, xs⟩
          · rfl
          · simp at hcarry
        subst hc
        have htop : Top pairs := by
          have h0 := hacc [] ⟨rfl, rfl⟩
          simpa using h0
        split at hb
        · rw [Option.some_inj] at hb
          subst hb
          exact htop
        · split at hb <;> rw [Option.some_inj] at hb <;> subst hb
          · exact htop
          · exact hbest _ rfl
  | cons g gs ih =>
      intro carry pairs cost rc best hperm hacc hbest b hb
      simp only [solveGroupIndex] at hb
      rw [groupsPlayers_cons] at hperm
      have hgo : (sortBy groupOrderedLE g.players).Perm g.players :=
        sortBy_perm groupOrderedLE g.players
      split at hb
      · rename_i hempty
        have h2 : carry ++ sortBy groupOrderedLE g.players = [] := by
          simpa [List.isEmpty_iff] using hempty
        have h2' := List.append_eq_nil.mp h2
        have hgp : g.players = [] := by
          have h3 := hgo.length_eq
          rw [h2'.2] at h3
          have h4 : g.players.length = 0 := by simpa using h3.symm
          exact List.length_eq_zero.mp h4
        refine ih [] pairs cost rc best ?_ ?_ hbest b hb
        · rw [h2'.1, hgp] at hperm
          simpa using hperm
        · intro tail hc
          exact hacc tail (Or.inl ⟨h2, hc⟩)
      · have hpermgp :
            (pairsFlat pairs ++ ((carry ++ sortBy groupOrderedLE g.players) ++
              groupsPlayers gs)).Perm full := by
          refine List.Perm.trans ?_ hperm
          rw [List.append_assoc]
          refine List.Perm.append_left (pairsFlat pairs) ?_
          refine List.Perm.append_left carry ?_
          exact hgo.append_right _
        refine foldl_preserve (fun acc : Option SolveResult =>
          ∀ b0, acc = some b0 → Top b0.pairs) ?_ ?_ b hb
        · split
          · refine trySolveGroup_decomp ctx full hfull Top gs ih pairs cost rc _ [] best ?_
              ?_ hbest
            · simpa using hpermgp
            · intro ps1 tail hp1 hc
              exact hacc (ps1 ++ tail) (Or.inr (Or.inl ⟨ps1, tail, rfl, hp1, hc⟩))
          · exact hbest
        · intro acc f hf hP
          refine trySolveGroup_decomp ctx full hfull Top gs ih pairs cost rc _ [f] acc ?_
            ?_ hP
          · have hfgo : f ∈ sortBy groupOrderedLE g.players :=
              (sortBy_perm floaterLE _).subset hf
            have hfgp : f ∈ carry ++ sortBy groupOrderedLE g.players :=
              List.mem_append.mpr (Or.inr hfgo)
            have hgpnd : ((carry ++ sortBy groupOrderedLE g.players).map
                (fun p => p.id)).Nodup := by
              refine nodup_ids_of_subperm ?_ hfull
              refine List.Subperm.trans ?_ hpermgp.subperm
              refine List.Sublist.subperm ?_
              refine List.Sublist.trans (List.sublist_append_left _ _)
                (List.sublist_append_right (pairsFlat pairs) _)
            have hsplit : ((carry ++ sortBy groupOrderedLE g.players).filter
                (fun p => decide (p.id ≠ f.id)) ++ [f]).Perm
                (carry ++ sortBy groupOrderedLE g.players) := by
              refine List.Perm.trans List.perm_append_comm ?_
              exact (perm_cons_filter_ne hgpnd hfgp).symm
            refine List.Perm.trans ?_ hpermgp
            refine List.Perm.append_left (pairsFlat pairs) ?_
            rw [← List.append_assoc]
            exact hsplit.append_right _
          · intro ps1 tail hp1 hc
            exact hacc (ps1 ++ tail) (Or.inr (Or.inr ⟨f, hf, ps1, tail, rfl, hp1, hc⟩))

/-! ## Completeness: a repeat-free decomposition makes the no-repeat pass succeed -/

theorem solveGroupIndex_isSome_of_decomp (ctx : GroupContext)
    (hmode : ctx.allowRepeats = false)
    (hOk : ∀ a b : PlayerId,
      (ctx.opponentsMap a).contains b = ctx.playedPairs.contains (pairKey a b)) :
    ∀ (groups : List ScoreGroup) (carry : List Player) (pairs : List RawPair) (cost : ℚ)
      (rc : Nat) (best : Option SolveResult) (ps : List RawPair),
      DecompCover groups carry ps →
      (∀ pr ∈ ps, ctx.playedPairs.contains (pairKey pr.white.id pr.black.id) = false) →
      ((carry ++ groupsPlayers groups).map (fun p => p.id)).Nodup →
      (solveGroupIndex ctx groups carry pairs cost rc best).isSome := by
  intro groups
  induction groups with
  | nil =>
      intro carry pairs cost rc best ps hdc hflags hnd
      obtain ⟨hc, -⟩ := hdc
      subst hc
      simp only [solveGroupIndex]
      rw [if_neg (by simp)]
      cases best with
      | none => rfl
      | some b =>
          dsimp only
          split <;> rfl
  | cons g gs ih =>
      intro carry pairs cost rc best ps hdc hflags hnd
      rw [groupsPlayers_cons] at hnd
      simp only [solveGroupIndex]
      have hgo : (sortBy groupOrderedLE g.players).Perm g.players :=
        sortBy_perm groupOrderedLE g.players
      have hndgs : ((groupsPlayers gs).map (fun p => p.id)).Nodup :=
        nodup_ids_of_subperm
          (((List.sublist_append_right g.players (groupsPlayers gs)).trans
            (List.sublist_append_right carry (g.players ++ groupsPlayers gs))).subperm) hnd
      have hpermCA : (carry ++ sortBy groupOrderedLE g.players).Perm (carry ++ g.players) :=
        List.Perm.append_left carry hgo
      have hsubCA : (carry ++ g.players).Sublist (carry ++ (g.players ++ groupsPlayers gs)) :=
        (List.sublist_append_left g.players (groupsPlayers gs)).append_left carry
      have hndGP : ((carry ++ sortBy groupOrderedLE g.players).map (fun p => p.id)).Nodup :=
        nodup_ids_of_subperm (hpermCA.subperm.trans hsubCA.subperm) hnd
      have hmono : ∀ (c : List Player) (p : List RawPair) (co : ℚ) (r : Nat)
          (b : Option SolveResult), b.isSome →
          (solveGroupIndex ctx gs c p co r b).isSome :=
        fun c p co r b hb => solveGroupIndex_isSome_mono ctx gs c p co r b hb
      split
      · rename_i hempty
        have h2 : carry ++ sortBy groupOrderedLE g.players = [] := by
          simpa [List.isEmpty_iff] using hempty
        rcases hdc with ⟨-, hc⟩ | ⟨ps1, ps2, hps, hp1, hc⟩ | ⟨f, hf, ps1, ps2, hps, hp1, hc⟩
        · exact ih [] pairs cost rc best ps hc hflags (by simpa using hndgs)
        · refine ih [] pairs cost rc best ps2 hc ?_ (by simpa using hndgs)
          intro pr hpr
          exact hflags pr (hps ▸ List.mem_append.mpr (Or.inr hpr))
        · exfalso
          have h2' := List.append_eq_nil.mp h2
          rw [h2'.2] at hf
          simp [sortBy] at hf
      · rcases hdc with ⟨h2, -⟩ | ⟨ps1, ps2, hps, hp1, hc⟩ | ⟨f, hf, ps1, ps2, hps, hp1, hc⟩
        · rename_i hempty
          rw [h2] at hempty
          simp at hempty
        · -- the group (with carry) is one whole repeat-free block
          have hflags1 : ∀ pr ∈ ps1,
              ctx.playedPairs.contains (pairKey pr.white.id pr.black.id) = false :=
            fun pr hpr => hflags pr (hps ▸ List.mem_append.mpr (Or.inl hpr))
          have hflags2 : ∀ pr ∈ ps2,
              ctx.playedPairs.contains (pairKey pr.white.id pr.black.id) = false :=
            fun pr hpr => hflags pr (hps ▸ List.mem_append.mpr (Or.inr hpr))
          have heven : (carry ++ sortBy groupOrderedLE g.players).length % 2 = 0 := by
            have hl := hp1.length_eq
            rw [pairsFlat_length] at hl
            omega
          have hFM : FreeMatching ctx.opponentsMap
              (carry ++ sortBy groupOrderedLE g.players)
              (ps1.map (fun pr => (pr.white, pr.black))) :=
            freeMatching_of_pairs hOk ps1 hflags1 _ hp1
          refine foldl_preserve (fun acc : Option SolveResult => acc.isSome = true) ?_ ?_
          · rw [if_pos heven]
            unfold trySolveGroup
            rw [if_neg (by omega)]
            dsimp only
            split
            · rename_i heq
              have hsolve := solveGroupPairings_isSome_matching
                { ctx with
                    orderMap := buildOrderMap (carry ++ sortBy groupOrderedLE g.players)
                    halfSize := (carry ++ sortBy groupOrderedLE g.players).length / 2 }
                hmode _ (ps1.map (fun pr => (pr.white, pr.black))) hFM hndGP
              rw [heq] at hsolve
              simp at hsolve
            · exact ih [] _ _ _ best ps2 hc hflags2 (by simpa using hndgs)
          · intro acc f' hf' hacc
            exact trySolveGroup_isSome_mono ctx gs hmono _ _ _ _ _ _ hacc
        · -- float `f` out, solve the rest of the block repeat-free
          have hflags1 : ∀ pr ∈ ps1,
              ctx.playedPairs.contains (pairKey pr.white.id pr.black.id) = false :=
            fun pr hpr => hflags pr (hps ▸ List.mem_append.mpr (Or.inl hpr))
          have hflags2 : ∀ pr ∈ ps2,
              ctx.playedPairs.contains (pairKey pr.white.id pr.black.id) = false :=
            fun pr hpr => hflags pr (hps ▸ List.mem_append.mpr (Or.inr hpr))
          have hflen : ((carry ++ sortBy groupOrderedLE g.players).filter
              (fun p => decide (p.id ≠ f.id))).length % 2 = 0 := by
            have hl := hp1.length_eq
            rw [pairsFlat_length] at hl
            omega
          have hndfil : (((carry ++ sortBy groupOrderedLE g.players).filter
              (fun p => decide (p.id ≠ f.id))).map (fun p => p.id)).Nodup :=
            ((List.filter_sublist _).map _).nodup hndGP
          have hFM : FreeMatching ctx.opponentsMap
              ((carry ++ sortBy groupOrderedLE g.players).filter
                (fun p => decide (p.id ≠ f.id)))
              (ps1.map (fun pr => (pr.white, pr.black))) :=
            freeMatching_of_pairs hOk ps1 hflags1 _ hp1
          refine foldl_isSome_of_mem hf ?_ ?_
          · unfold trySolveGroup
            rw [if_neg (by omega)]
            dsimp only
            split
            · rename_i heq
              have hsolve := solveGroupPairings_isSome_matching
                { ctx with
                    orderMap := buildOrderMap ((carry ++ sortBy groupOrderedLE g.players).filter
                      (fun p => decide (p.id ≠ f.id)))
                    halfSize := ((carry ++ sortBy groupOrderedLE g.players).filter
                      (fun p => decide (p.id ≠ f.id))).length / 2 }
                hmode _ (ps1.map (fun pr => (pr.white, pr.black))) hFM hndfil
              rw [heq] at hsolve
              simp at hsolve
            · have hfA : f ∈ carry ++ g.players := hpermCA.subset
                (List.mem_append.mpr (Or.inr ((sortBy_perm floaterLE _).subset hf)))
              have hfid : f.id ∈ (carry ++ g.players).map (fun p => p.id) :=
                List.mem_map_of_mem _ hfA
              have hnd2 : (((carry ++ g.players).map (fun p => p.id)) ++
                  ((groupsPlayers gs).map (fun p => p.id))).Nodup := by
                simpa [List.map_append, List.append_assoc] using hnd
              have hdisj := List.disjoint_of_nodup_append hnd2
              refine ih [f] _ _ _ none ps2 hc hflags2 ?_
              simp only [List.singleton_append, List.map_cons]
              exact List.nodup_cons.mpr ⟨fun hmem => hdisj hfid hmem, hndgs⟩
          · intro acc a ha hacc
            exact trySolveGroup_isSome_mono ctx gs hmono _ _ _ _ _ _ hacc

theorem generateSwissPairings_decomp (players : List Player) (roundNumber : Nat)
    (rounds : List Round) (options : SwissOptions)
    (hnd : (players.map (fun p => p.id)).Nodup) :
    ∀ b, generateSwissPairings players roundNumber rounds options = some b →
      DecompCover (groupPlayersByScore players options.getScore) [] b.pairs := by
  intro b hb
  unfold generateSwissPairings solveScoreGroups at hb
  dsimp only at hb
  refine solveGroupIndex_decomp _ players hnd
    (fun ps => DecompCover (groupPlayersByScore players options.getScore) [] ps)
    _ [] [] 0 0 none ?_ ?_ ?_ b hb
  · simp only [pairsFlat, List.flatMap_nil, List.nil_append]
    exact groupsPlayers_groupPlayersByScore players _
  · intro tail hc
    simpa using hc
  · intro b0 h0
    exact absurd h0 (by simp)

theorem generateSwissPairings_isSome_of_decomp (players : List Player) (roundNumber : Nat)
    (rounds : List Round) (options : SwissOptions) (hmode : options.allowRepeats = false)
    (hOk : ∀ a b : PlayerId,
      (options.opponentsMap a).contains b = options.playedPairs.contains (pairKey a b))
    (hnd : (players.map (fun p => p.id)).Nodup) (ps : List RawPair)
    (hdc : DecompCover (groupPlayersByScore players options.getScore) [] ps)
    (hflags : ∀ pr ∈ ps,
      options.playedPairs.contains (pairKey pr.white.id pr.black.id) = false) :
    (generateSwissPairings players roundNumber rounds options).isSome := by
  unfold generateSwissPairings solveScoreGroups
  dsimp only
  refine solveGroupIndex_isSome_of_decomp _ hmode hOk _ [] [] 0 0 none ps hdc hflags ?_
  simp only [List.nil_append]
  exact nodup_ids_of_perm (groupsPlayers_groupPlayersByScore players _) hnd

theorem pair_mem_buildPairingResult {r : SolveResult} {byeP : Option Player} {f : Bool}
    {reason : Option String} {pr : RawPair} (hpr : pr ∈ r.pairs) :
    ∃ op ∈ (buildPairingResult (some r) byeP f reason).pairings,
      op.isBye = false ∧ op.isRepeat = pr.isRepeat := by
  unfold buildPairingResult
  dsimp only
  have hpr' : pr ∈ r.pairs.enum.map Prod.snd := by
    rw [List.enum_map_snd]
    exact hpr
  obtain ⟨ip, hip, hip2⟩ := List.mem_map.mp hpr'
  have hopmem : (⟨playerRef ip.2.white, some (playerRef ip.2.black), ip.1 + 1, ip.2.white.id,
      some ip.2.black.id, ip.2.isRepeat, false⟩ : OutPairing) ∈
      r.pairs.enum.map (fun ip =>
        (⟨playerRef ip.2.white, some (playerRef ip.2.black), ip.1 + 1, ip.2.white.id,
          some ip.2.black.id, ip.2.isRepeat, false⟩ : OutPairing)) :=
    List.mem_map_of_mem _ hip
  cases byeP with
  | none => exact ⟨_, hopmem, rfl, by rw [hip2]⟩
  | some bye => exact ⟨_, List.mem_append.mpr (Or.inl hopmem), rfl, by rw [hip2]⟩

/-- When the no-repeat pass fails, the forced result genuinely contains a
repeat pairing: otherwise its (repeat-free) pairs would follow a score-group
decomposition on which the no-repeat pass would also have succeeded. -/
theorem generateSwissRound_forced_repeat (players : List Player) (roundNumber : Nat)
    (rounds : List Round) (config : SwissConfig)
    (hnd : (players.map (fun p => p.id)).Nodup)
    (hforce : (generateSwissRound players roundNumber rounds config).forcedRepeat = true) :
    ∃ op ∈ (generateSwissRound players roundNumber rounds config).pairings,
      op.isBye = false ∧ op.isRepeat = true := by
  obtain ⟨r, hmain, hrest⟩ := generateSwissRound_solve players roundNumber rounds config hnd
  have hrepeat : ∃ pr ∈ r.pairs, pr.isRepeat = true := by
    cases hbye : chooseBye players (buildHistory rounds) with
    | none =>
        rw [hbye] at hrest
        dsimp only at hrest
        obtain ⟨hres, hmode⟩ := hrest
        obtain ⟨hnone, hsome⟩ := hmode hforce
        by_contra hall
        have hzero : ∀ pr ∈ r.pairs, pr.isRepeat = false := by
          intro pr hpr
          cases hrep : pr.isRepeat
          · rfl
          · exact absurd ⟨pr, hpr, hrep⟩ hall
        have hflags : ∀ pr ∈ r.pairs,
            (buildHistory rounds).playedPairs.contains
              (pairKey pr.white.id pr.black.id) = false := by
          intro pr hpr
          have h1 : pr.isRepeat = (buildHistory rounds).playedPairs.contains
              (pairKey pr.white.id pr.black.id) := (hres.2.2 pr hpr).1
          rw [← h1]
          exact hzero pr hpr
        have hdc := generateSwissPairings_decomp players roundNumber rounds _ hnd r hsome
        have hs := generateSwissPairings_isSome_of_decomp players roundNumber rounds
          ⟨config.getScore.getD (fun player => player.score), false,
            (buildHistory rounds).playedPairs, (buildHistory rounds).opponentsMap,
            (buildHistory rounds).lastRoundPairs, config.topBottomWeight⟩
          rfl (histOk_buildHistory rounds) hnd r.pairs hdc hflags
        rw [hnone] at hs
        simp at hs
    | some bye =>
        rw [hbye] at hrest
        dsimp only at hrest
        obtain ⟨hres, hperm, hmode⟩ := hrest
        obtain ⟨hnone, hsome⟩ := hmode hforce
        have hpoolnd : ((players.filter (fun p => decide (p.id ≠ bye.id))).map
            (fun p => p.id)).Nodup :=
          nodup_ids_of_subperm (List.filter_sublist _).subperm hnd
        by_contra hall
        have hzero : ∀ pr ∈ r.pairs, pr.isRepeat = false := by
          intro pr hpr
          cases hrep : pr.isRepeat
          · rfl
          · exact absurd ⟨pr, hpr, hrep⟩ hall
        have hflags : ∀ pr ∈ r.pairs,
            (buildHistory rounds).playedPairs.contains
              (pairKey pr.white.id pr.black.id) = false := by
          intro pr hpr
          have h1 : pr.isRepeat = (buildHistory rounds).playedPairs.contains
              (pairKey pr.white.id pr.black.id) := (hres.2.2 pr hpr).1
          rw [← h1]
          exact hzero pr hpr
        have hdc := generateSwissPairings_decomp
          (players.filter (fun p => decide (p.id ≠ bye.id))) roundNumber rounds _
          hpoolnd r hsome
        have hs := generateSwissPairings_isSome_of_decomp
          (players.filter (fun p => decide (p.id ≠ bye.id))) roundNumber rounds
          ⟨config.getScore.getD (fun player => player.score), false,
            (buildHistory rounds).playedPairs, (buildHistory rounds).opponentsMap,
            (buildHistory rounds).lastRoundPairs, config.topBottomWeight⟩
          rfl (histOk_buildHistory rounds) hpoolnd r.pairs hdc hflags
        rw [hnone] at hs
        simp at hs
  obtain ⟨pr, hpr, hprt⟩ := hrepeat
  rw [hmain]
  obtain ⟨op, hop, hnb, hrep⟩ := @pair_mem_buildPairingResult r
    (chooseBye players (buildHistory rounds))
    ((generateSwissRound players roundNumber rounds config).forcedRepeat)
    (if (generateSwissRound players roundNumber rounds config).forcedRepeat = true
      then some "no-repeat unsatisfiable" else none) pr hpr
  exact ⟨op, hop, hnb, hrep.trans hprt⟩


/-- C2 (amended): a `generateSwissRound` result contains a pairing of two
competitors who have already played each other if and only if `forcedRepeat`
is `true`: every non-bye entry carries a correct repeat flag (`isRepeat` is
`true` exactly when the two competitors appear as a recorded played pair),
when `forcedRepeat` is `false` no entry pairs two competitors who have
already played, and when `forcedRepeat` is `true` some non-bye entry is a
flagged repeat. -/
theorem c2_repeat_flags (players : List Player) (roundNumber : Nat) (rounds : List Round)
    (config : SwissConfig) (hnd : (players.map (fun p => p.id)).Nodup) :
    (∀ op ∈ (generateSwissRound players roundNumber rounds config).pairings,
      op.isBye = false →
      ∃ bId, op.blackPlayerId = some bId ∧
        op.isRepeat =
          (buildHistory rounds).playedPairs.contains (pairKey op.whitePlayerId bId) ∧
        ((generateSwissRound players roundNumber rounds config).forcedRepeat = false →
          op.isRepeat = false ∧
          (buildHistory rounds).playedPairs.contains (pairKey op.whitePlayerId bId) = false)) ∧
    ((generateSwissRound players roundNumber rounds config).forcedRepeat = true →
      ∃ op ∈ (generateSwissRound players roundNumber rounds config).pairings,
        op.isBye = false ∧ op.isRepeat = true) := by
  refine ⟨?_, generateSwissRound_forced_repeat players roundNumber rounds config hnd⟩
  obtain ⟨r, hmain, hrest⟩ := generateSwissRound_solve players roundNumber rounds config hnd
  have hpok : ∀ pr ∈ r.pairs,
      PairOk
        ⟨roundNumber, (buildHistory rounds).playedPairs, (buildHistory rounds).opponentsMap,
          (buildHistory rounds).lastRoundPairs,
          (generateSwissRound players roundNumber rounds config).forcedRepeat,
          fun _ => none, 0, config.topBottomWeight⟩ pr := by
    cases hbye : chooseBye players (buildHistory rounds) with
    | none =>
        rw [hbye] at hrest
        dsimp only at hrest
        exact hrest.1.2.2
    | some bye =>
        rw [hbye] at hrest
        dsimp only at hrest
        exact hrest.1.2.2
  intro op hop hnb
  rw [hmain] at hop
  obtain ⟨pr, hpr, hw, hb, hrep⟩ := mem_buildPairingResult hop hnb
  have h1 : pr.isRepeat =
      (buildHistory rounds).playedPairs.contains (pairKey pr.white.id pr.black.id) :=
    (hpok pr hpr).1
  refine ⟨pr.black.id, hb, ?_, ?_⟩
  · rw [hrep, hw]
    exact h1
  · intro hforce
    have hor : ((buildHistory rounds).opponentsMap pr.white.id).contains pr.black.id = false ∨
        ((buildHistory rounds).opponentsMap pr.black.id).contains pr.white.id = false :=
      (hpok pr hpr).2 hforce
    have hc : (buildHistory rounds).playedPairs.contains
        (pairKey pr.white.id pr.black.id) = false :=
      histOk_no_played (histOk_buildHistory rounds) hor
    constructor
    · rw [hrep, h1]
      exact hc
    · rw [hw]
      exact hc

/-- Closed instance of `c2_repeat_flags` on a fresh two-player round. -/
theorem c2_repeat_flags_witness :
    (∀ op ∈ (generateSwissRound c2wplayers 1 [] ⟨none, 0⟩).pairings,
      op.isBye = false →
      ∃ bId, op.blackPlayerId = some bId ∧
        op.isRepeat =
          (buildHistory []).playedPairs.contains (pairKey op.whitePlayerId bId) ∧
        ((generateSwissRound c2wplayers 1 [] ⟨none, 0⟩).forcedRepeat = false →
          op.isRepeat = false ∧
          (buildHistory []).playedPairs.contains (pairKey op.whitePlayerId bId) = false)) ∧
    ((generateSwissRound c2wplayers 1 [] ⟨none, 0⟩).forcedRepeat = true →
      ∃ op ∈ (generateSwissRound c2wplayers 1 [] ⟨none, 0⟩).pairings,
        op.isBye = false ∧ op.isRepeat = true) :=
  c2_repeat_flags c2wplayers 1 [] ⟨none, 0⟩ (by decide)

/-- C2 counterexample: a four-competitor pool (scores 2, 1, 1, 0; played
pairs 1–2 and 1–3) admits the repeat-free perfect matching {1–4, 2–3}, yet
`generateSwissRound` reports `forcedRepeat = true` with one repeat pairing,
because its search only considers score-group decompositions with
single-group floaters and every such decomposition forces a repeat; in
particular the returned repeat count (1) is not the pool-wide minimum (0). -/
theorem c2_counterexample :
    (generateSwissRound c2players 3 c2rounds ⟨none, 0⟩).forcedRepeat = true ∧
    (generateSwissRound c2players 3 c2rounds ⟨none, 0⟩).repeatCount = 1 ∧
    FreeMatching (buildHistory c2rounds).opponentsMap c2players
      [(⟨1, "a", 0, 2, 0, [], []⟩, ⟨4, "d", 0, 0, 0, [], []⟩),
       (⟨2, "b", 0, 1, 0, [], []⟩, ⟨3, "c", 0, 1, 0, [], []⟩)] := by
  refine ⟨?_, ?_, ?_, ?_⟩
  · with_unfolding_all decide
  · with_unfolding_all decide
  · with_unfolding_all decide
  · with_unfolding_all decide

